import Mathlib

/-!
# Split-read breakpoint refinement (`src/split.h`)

A shallow embedding of the functions of `split.h` and theorems about them.

Conventions of the embedding.

* `int32_t` values are integers (`Int`); the signed arithmetic of the source is assumed not to
  overflow, so no reduction modulo a power of two appears.  The `unsigned int` locals of
  `alignConsensus` are written from and read back into `int32_t` values, a round trip that is the
  identity on that range.
* A `std::string` is a `List Char`; the reference buffer `TSeq const*` is a `List Char` addressed
  by offset.
* The alignment `boost::multi_array<char, 2>` of shape `2 × L` is the list of its `L` columns;
  `align[0][j]` is the first component of column `j` and `align[1][j]` the second.  A read of a
  column outside `[0, L)` has no value (`none`).
* A `float` is an exact fraction `num / den` of naturals; `den = 0` stands for the not-a-number
  that `0.0 / 0.0` yields.  Rounding is not modelled.
* A function that returns `bool` and writes through reference parameters returns the written
  values next to the Boolean.
-/

namespace torali

/-! ## Data model -/

/-- The tag set of `SVType<...>`. -/
inductive SVType where
  | DeletionTag
  | InsertionTag
  | DuplicationTag
  | InversionTag
  | TranslocationTag
  deriving DecidableEq, Repr

/-- A `float` value as an exact fraction `num / den`; `den = 0` is not-a-number. -/
structure TFloat where
  num : Nat
  den : Nat
  deriving DecidableEq, Repr

/-- The float comparison `x < y`; it is false as soon as one side is not-a-number. -/
def TFloat.lt (x y : TFloat) : Bool :=
  decide (x.den ≠ 0) && decide (y.den ≠ 0) && decide (x.num * y.den < y.num * x.den)

/-- The `AlignDescriptor` of `split.h`; the defaults are those of its constructor. -/
structure AlignDescriptor where
  cStart : Int := 0
  cEnd : Int := 0
  rStart : Int := 0
  rEnd : Int := 0
  homLeft : Int := 0
  homRight : Int := 0
  percId : TFloat := ⟨0, 1⟩
  deriving DecidableEq, Repr

/-- Modelled from the spec: the structural-variant record type (`TSVRecord`,
`TStructuralVariantRecord`) is declared outside `split.h`; these are the fields `split.h` reads
or writes, with the types the spec's data model gives them. -/
structure StructuralVariantRecord where
  svStartBeg : Int
  svStartEnd : Int
  svEndBeg : Int
  svEndEnd : Int
  svStart : Int
  svEnd : Int
  ct : Int
  chr : Int
  consensus : List Char
  precise : Bool
  srAlignQuality : TFloat
  insLen : Int
  deriving DecidableEq, Repr

/-- Modelled from the spec: the configuration type (`TConfig`) is declared outside `split.h`;
these are the fields `split.h` reads.  `split.h` compares `technology` with the string literals
`"illumina"` and `"pacbio"`; the spec enumerates the selector as the default and the alternate
path. -/
structure Config where
  minimumFlankSize : Int
  flankQuality : TFloat
  technology : String
  deriving DecidableEq, Repr

/-- The alignment grid, as the list of its columns (row 0 = consensus, row 1 = reference). -/
abbrev Align := List (Char × Char)

/-- The grid with the two given rows (columns beyond the shorter row are dropped). -/
def Align.ofRows (row0 row1 : List Char) : Align := List.zip row0 row1

/-- The read `align[0][j]`. -/
def Align.at0 (align : Align) (j : Int) : Option Char :=
  if 0 ≤ j then (align.get? j.toNat).map Prod.fst else none

/-- The read `align[1][j]`. -/
def Align.at1 (align : Align) (j : Int) : Option Char :=
  if 0 ≤ j then (align.get? j.toNat).map Prod.snd else none

/-- The loop `for (j = 0; j < align.shape()[1]; ++j)` over the columns, threading a state and the
column index `j`. -/
def forCols {σ : Type} (body : σ → Int → Char × Char → σ) : List (Char × Char) → Int → σ → σ
  | [], _, st => st
  | col :: rest, j, st => forCols body rest (j + 1) (body st j col)

/-! ## Reference-window builder -/

/-- The string `std::string(ref + b, ref + e)`. -/
def substr (ref : List Char) (b e : Int) : List Char :=
  (ref.drop b.toNat).take (e - b).toNat

/-- The copy `boost::to_upper_copy`. -/
def to_upper_copy (s : List Char) : List Char := s.map Char.toUpper

/-- The `switch` of the reverse-complement loops: the value stored at `strRevComp[i]`, where
`keep` is the character already there and `c` is `*itR`. -/
def revCompSwitch (keep c : Char) : Char :=
  if c = 'A' then 'T'
  else if c = 'C' then 'G'
  else if c = 'G' then 'C'
  else if c = 'T' then 'A'
  else if c = 'N' then 'N'
  else keep

/-- The reverse-complement loop of `_getSVRef`: `strRevComp` starts as a copy of `str` and
position `i` is overwritten from the `i`-th character of `str` read backwards. -/
def revCompLoop (str : List Char) : List Char :=
  List.zipWith revCompSwitch str str.reverse

/-- The function `_getSVRef`, for the five tags. -/
def _getSVRef (ref : List Char) (svRec : StructuralVariantRecord) (refIndex : Int) :
    SVType → List Char
  | .DeletionTag =>
      to_upper_copy (substr ref svRec.svStartBeg svRec.svStartEnd)
        ++ to_upper_copy (substr ref svRec.svEndBeg svRec.svEndEnd)
  | .InsertionTag => to_upper_copy (substr ref svRec.svStartBeg svRec.svEndEnd)
  | .DuplicationTag =>
      to_upper_copy (substr ref svRec.svEndBeg svRec.svEndEnd)
        ++ to_upper_copy (substr ref svRec.svStartBeg svRec.svStartEnd)
  | .InversionTag =>
      if svRec.ct = 0 then
        let strEnd := to_upper_copy (substr ref svRec.svEndBeg svRec.svEndEnd)
        let strRevComp := revCompLoop strEnd
        to_upper_copy (substr ref svRec.svStartBeg svRec.svStartEnd) ++ strRevComp
      else
        let strStart := to_upper_copy (substr ref svRec.svStartBeg svRec.svStartEnd)
        let strRevComp := revCompLoop strStart
        strRevComp ++ to_upper_copy (substr ref svRec.svEndBeg svRec.svEndEnd)
  | .TranslocationTag =>
      if svRec.chr = refIndex then
        if svRec.ct = 0 ∨ svRec.ct = 2 then
          to_upper_copy (substr ref svRec.svStartBeg svRec.svStartEnd) ++ svRec.consensus
        else if svRec.ct = 1 then
          let strEnd := to_upper_copy (substr ref svRec.svStartBeg svRec.svStartEnd)
          let refPart := revCompLoop strEnd
          refPart ++ svRec.consensus
        else
          svRec.consensus ++ to_upper_copy (substr ref svRec.svStartBeg svRec.svStartEnd)
      else
        if svRec.ct = 0 then
          let strEnd := to_upper_copy (substr ref svRec.svEndBeg svRec.svEndEnd)
          let refPart := revCompLoop strEnd
          refPart
        else to_upper_copy (substr ref svRec.svEndBeg svRec.svEndEnd)

/-! ## Coordinate back-mapper -/

/-- The function `_coordTransform`, for the five tags: `none` when it returns false, otherwise
the pair `(finalGapStart, finalGapEnd)` it wrote. -/
def _coordTransform (ref : List Char) (sv : StructuralVariantRecord) (ad : AlignDescriptor) :
    SVType → Option (Int × Int)
  | .DeletionTag =>
      let annealed := sv.svStartEnd - sv.svStartBeg
      if ad.rStart ≥ annealed ∨ ad.rEnd < annealed then none
      else some (sv.svStartBeg + ad.rStart, sv.svEndBeg + (ad.rEnd - annealed))
  | .DuplicationTag =>
      let annealed := sv.svEndEnd - sv.svEndBeg
      if ad.rStart ≥ annealed ∨ ad.rEnd < annealed then none
      else some (sv.svStartBeg + (ad.rEnd - annealed), sv.svEndBeg + ad.rStart)
  | .InversionTag =>
      let annealed := sv.svStartEnd - sv.svStartBeg
      if ad.rStart ≥ annealed ∨ ad.rEnd < annealed then none
      else if sv.ct = 0 then
        some (sv.svStartBeg + ad.rStart, sv.svEndBeg + ((ref.length : Int) - ad.rEnd) + 1)
      else
        some (sv.svStartBeg + (annealed - ad.rStart) + 1, sv.svEndBeg + (ad.rEnd - annealed))
  | .TranslocationTag =>
      if sv.ct = 0 then
        let annealed := sv.svStartEnd - sv.svStartBeg
        if ad.rStart ≥ annealed ∨ ad.rEnd < annealed then none
        else some (sv.svStartBeg + ad.rStart, sv.svEndBeg + ((ref.length : Int) - ad.rEnd) + 1)
      else if sv.ct = 1 then
        let annealed := sv.svStartEnd - sv.svStartBeg
        if ad.rStart ≥ annealed ∨ ad.rEnd < annealed then none
        else some (sv.svStartBeg + (annealed - ad.rStart) + 1, sv.svEndBeg + (ad.rEnd - annealed))
      else if sv.ct = 2 then
        let annealed := sv.svStartEnd - sv.svStartBeg
        if ad.rStart ≥ annealed ∨ ad.rEnd < annealed then none
        else some (sv.svStartBeg + ad.rStart, sv.svEndBeg + (ad.rEnd - annealed))
      else if sv.ct = 3 then
        let annealed := sv.svEndEnd - sv.svEndBeg
        if ad.rStart ≥ annealed ∨ ad.rEnd < annealed then none
        else some (sv.svStartBeg + (ad.rEnd - annealed), sv.svEndBeg + ad.rStart)
      else none
  | .InsertionTag => some (sv.svStartBeg + ad.rStart, sv.svStartBeg + ad.rEnd)

/-! ## Breakpoint locator -/

/-- The function `_validSRAlignment`: the overload for `InsertionTag` and the generic one. -/
def _validSRAlignment (cStart cEnd rStart rEnd : Int) : SVType → Bool
  | .InsertionTag => decide (rEnd - rStart < 5) && decide (cEnd - cStart > 15)
  | _ => decide (cEnd - cStart < 5) && decide (rEnd - rStart > 15)

/-- The function `_checkSVGap`: the overload for `InsertionTag` and the generic one. -/
def _checkSVGap (refGap oldRefGap varGap oldVarGap : Int) : SVType → Bool
  | .InsertionTag => decide (varGap > oldVarGap)
  | _ => decide (refGap > oldRefGap)

/-- The local variables of `_percentIdentity`. -/
structure PercIdState where
  varSeen : Bool := false
  refSeen : Bool := false
  gapMM : Nat := 0
  mm : Nat := 0
  ma : Nat := 0
  inGap : Bool := false
  deriving DecidableEq, Repr

/-- One iteration of the loop of `_percentIdentity`, at column `j`. -/
def percentIdentityBody (gS gE : Int) (st : PercIdState) (j : Int) (col : Char × Char) :
    PercIdState :=
  if j < gS ∨ j > gE then
    let varSeen := if col.1 ≠ '-' then true else st.varSeen
    let refSeen := if col.2 ≠ '-' then true else st.refSeen
    if col.1 = '-' ∨ col.2 = '-' then
      if refSeen ∧ varSeen then
        let gapMM := if ¬ st.inGap then 0 else st.gapMM
        { st with varSeen := varSeen, refSeen := refSeen, inGap := true, gapMM := gapMM + 1 }
      else { st with varSeen := varSeen, refSeen := refSeen }
    else
      let mm := if st.inGap then st.mm + st.gapMM else st.mm
      if col.1 = col.2 then
        { st with varSeen := varSeen, refSeen := refSeen, inGap := false, mm := mm,
                  ma := st.ma + 1 }
      else
        { st with varSeen := varSeen, refSeen := refSeen, inGap := false, mm := mm + 1 }
  else st

/-- The counters of `_percentIdentity` after its loop. -/
def percentIdentityLoop (align : Align) (gS gE : Int) : PercIdState :=
  forCols (percentIdentityBody gS gE) align 0 {}

/-- The function `_percentIdentity`: the value written to `percId`,
`(TFloat) ma / (TFloat) (ma + mm)`. -/
def _percentIdentity (align : Align) (gS gE : Int) : TFloat :=
  let st := percentIdentityLoop align gS gE
  ⟨st.ma, st.ma + st.mm⟩

/-- One of the four loops of `_findHomology`, with `n` iterations left.  The loop compares
`x i` with `y i offset`; when that makes the second mismatch and `offset` is still 0, it tries
`x i` against `yTry i (offset + 1)`, the read the source indexes with `++offset`.  `hom` is the
counter the loop increments.  The result is the counter at loop exit, or `none` when a read
falls outside the grid. -/
def homologyLoop (x : Int → Option Char) (y yTry : Int → Int → Option Char) :
    Nat → Int → Int → Int → Int → Option Int
  | 0, _, _, _, hom => some hom
  | n + 1, i, mismatch, offset, hom =>
      match x i, y i offset with
      | some a, some b =>
          let mismatch := if a ≠ b then mismatch + 1 else mismatch
          if mismatch > 1 then
            if offset = 0 then
              match yTry i (offset + 1) with
              | some b1 =>
                  if a = b1 then
                    homologyLoop x y yTry n (i + 1) (mismatch - 1) (offset + 1) (hom + 1)
                  else some hom
              | none => none
            else some hom
          else homologyLoop x y yTry n (i + 1) mismatch offset (hom + 1)
      | _, _ => none

/-- The function `_findHomology`: the values of `homLeft` and `homRight` after the call, or
`none` when a read falls outside the grid.  The loops to the left compare with the read at
`gE - i - offset`; the loops to the right compare with the read at `gS + i`, without the offset,
and use the offset only in the one-base retry. -/
def _findHomology (align : Align) (gS gE : Int) (homLeft homRight : Int) : Option (Int × Int) :=
  match align.at1 gS with
  | none => none
  | some r =>
    if r = '-' then
      match homologyLoop (fun i => align.at1 (gS - i - 1))
          (fun i offset => align.at0 (gE - i - offset))
          (fun i offset => align.at0 (gE - i - offset)) gS.toNat 0 0 0 homLeft with
      | none => none
      | some hl =>
        match homologyLoop (fun i => align.at1 (gE + i + 1)) (fun i _ => align.at0 (gS + i))
            (fun i offset => align.at0 (gS + i + offset))
            ((align.length : Int) - gE - 1).toNat 0 0 0 homRight with
        | none => none
        | some hr => some (hl, hr)
    else
      match align.at0 gS with
      | none => none
      | some v =>
        if v = '-' then
          match homologyLoop (fun i => align.at0 (gS - i - 1))
              (fun i offset => align.at1 (gE - i - offset))
              (fun i offset => align.at1 (gE - i - offset)) gS.toNat 0 0 0 homLeft with
          | none => none
          | some hl =>
            match homologyLoop (fun i => align.at0 (gE + i + 1)) (fun i _ => align.at1 (gS + i))
                (fun i offset => align.at1 (gS + i + offset))
                ((align.length : Int) - gE - 1).toNat 0 0 0 homRight with
            | none => none
            | some hr => some (hl, hr)
        else some (homLeft, homRight)

/-- The local variables of the scan of `_findSplit`, with the descriptor it updates. -/
structure SplitState where
  ad : AlignDescriptor
  gS : Int := 0
  gE : Int := 0
  refIndex : Int := 0
  varIndex : Int := 0
  gapStartRefIndex : Int := 0
  gapStartVarIndex : Int := 0
  a1 : Int := 0
  inGap : Bool := false
  deriving DecidableEq, Repr

/-- One iteration of the scan of `_findSplit`, at column `j`. -/
def findSplitBody (svt : SVType) (st : SplitState) (j : Int) (col : Char × Char) : SplitState :=
  let varIndex := if col.1 ≠ '-' then st.varIndex + 1 else st.varIndex
  let refIndex := if col.2 ≠ '-' then st.refIndex + 1 else st.refIndex
  if (col.1 = '-' ∨ col.2 = '-') ∧ refIndex > 0 ∧ varIndex > 0 then
    if ¬ st.inGap then
      { st with
        varIndex := varIndex
        refIndex := refIndex
        gapStartVarIndex := if col.1 ≠ '-' then varIndex - 1 else varIndex
        gapStartRefIndex := if col.2 ≠ '-' then refIndex - 1 else refIndex
        a1 := j
        inGap := true }
    else { st with varIndex := varIndex, refIndex := refIndex }
  else
    if st.inGap ∧ _checkSVGap (refIndex - st.gapStartRefIndex) (st.ad.rEnd - st.ad.rStart)
        (varIndex - st.gapStartVarIndex) (st.ad.cEnd - st.ad.cStart) svt then
      { st with
        varIndex := varIndex
        refIndex := refIndex
        ad := { st.ad with
                rStart := st.gapStartRefIndex
                rEnd := refIndex
                cStart := st.gapStartVarIndex
                cEnd := varIndex }
        gS := st.a1
        gE := j - 1
        inGap := false }
    else { st with varIndex := varIndex, refIndex := refIndex, inGap := false }

/-- The scan of `_findSplit` ("find longest internal gap"): the state after the loop, started
with descriptor `ad`. -/
def findSplitScan (svt : SVType) (align : Align) (ad : AlignDescriptor) : SplitState :=
  forCols (findSplitBody svt) align 0 { ad := ad }

/-- The function `_findSplit`: the returned Boolean and the descriptor after the call, or `none`
when `_findHomology` reads outside the grid. -/
def _findSplit (c : Config) (align : Align) (ad : AlignDescriptor) (svt : SVType) :
    Option (Bool × AlignDescriptor) :=
  let st := findSplitScan svt align ad
  let ad := st.ad
  if ad.rEnd ≤ ad.rStart then some (false, ad)
  else if ¬ _validSRAlignment ad.cStart ad.cEnd ad.rStart ad.rEnd svt then some (false, ad)
  else
    let ad := { ad with percId := _percentIdentity align st.gS st.gE }
    if ad.percId.lt c.flankQuality then some (false, ad)
    else
      match _findHomology align st.gS st.gE ad.homLeft ad.homRight with
      | none => none
      | some (hl, hr) =>
        let ad := { ad with homLeft := hl, homRight := hr }
        if ad.homLeft + c.minimumFlankSize > ad.cStart
            ∨ st.varIndex < ad.cEnd + ad.homRight + c.minimumFlankSize then some (false, ad)
        else if ad.homLeft + c.minimumFlankSize > ad.rStart
            ∨ st.refIndex < ad.rEnd + ad.homRight + c.minimumFlankSize then some (false, ad)
        else some (true, ad)

/-! ## Aligner adapter and orchestrator -/

/-- Modelled from the spec: the aligner `longNeedle` of `needle.h` is not part of `split.h`.  It
is a parameter: given the end-gap configuration `AlignConfig<a, b>` as the pair `(a, b)` and the
two sequences, it yields its return value and the grid it wrote to `aln`.  The scoring
`DnaScore<int>(5, -4, -4, -4)` is the same at both call sites. -/
abbrev Aligner := Bool × Bool → List Char → List Char → Bool × Align

/-- The function `_consRefAlignment`: the overload for `InsertionTag`, which aligns the reference
to the consensus and exchanges the two rows, and the generic one. -/
def _consRefAlignment (longNeedle : Aligner) (cons svRefStr : List Char) : SVType → Bool × Align
  | .InsertionTag =>
      let r := longNeedle (false, true) svRefStr cons
      (r.1, r.2.map (fun col => (col.2, col.1)))
  | _ => longNeedle (true, false) cons svRefStr

/-- The function `alignConsensus`: the returned Boolean and the record after the call, or `none`
when `_findHomology` reads outside the grid. -/
def alignConsensus (longNeedle : Aligner) (c : Config) (sv : StructuralVariantRecord)
    (svRefStr : List Char) (svType : SVType) : Option (Bool × StructuralVariantRecord) :=
  if (sv.consensus.length : Int) < 2 * c.minimumFlankSize then some (false, sv)
  else
    let r := _consRefAlignment longNeedle sv.consensus svRefStr svType
    if ¬ r.1 then some (false, sv)
    else
      match _findSplit c r.2 {} svType with
      | none => none
      | some (false, _) => some (false, sv)
      | some (true, ad) =>
        let gap : Option (Int × Int) :=
          if c.technology = "illumina" then _coordTransform svRefStr sv ad svType
          else if c.technology = "pacbio" then
            let rs := max 0 (sv.svStart - (sv.consensus.length : Int))
            some (rs + ad.rStart - 1, rs + ad.rEnd - 1)
          else some (0, 0)
        match gap with
        | none => some (false, sv)
        | some (finalGapStart, finalGapEnd) =>
          some (true, { sv with
                        precise := true
                        svStart := finalGapStart
                        svEnd := finalGapEnd
                        srAlignQuality := ad.percId
                        insLen := ad.cEnd - ad.cStart - 1 })

/-! ## Definitions in the words of the specification -/

/-- The base complement in the spec's words: `A <-> T`, `C <-> G`, `N -> N`; a character that is
no base is left as it is. -/
def complementSpec (c : Char) : Char :=
  if c = 'A' then 'T'
  else if c = 'T' then 'A'
  else if c = 'C' then 'G'
  else if c = 'G' then 'C'
  else c

/-- The reverse complement in the spec's words: reverse the string and complement each base. -/
def reverseComplementSpec (s : List Char) : List Char := s.reverse.map complementSpec

/-- The characters `A, C, G, T, N` in either case. -/
def IsBase (c : Char) : Prop :=
  c = 'A' ∨ c = 'C' ∨ c = 'G' ∨ c = 'T' ∨ c = 'N' ∨ c = 'a' ∨ c = 'c' ∨ c = 'g' ∨ c = 't' ∨ c = 'n'

/-- Membership in the base alphabet can be computed. -/
instance (c : Char) : Decidable (IsBase c) := by unfold IsBase; infer_instance

/-- The upper-case bases `A, C, G, T, N`. -/
def IsUpperBase (c : Char) : Prop := c = 'A' ∨ c = 'C' ∨ c = 'G' ∨ c = 'T' ∨ c = 'N'

/-- Membership in the upper-case base alphabet can be computed. -/
instance (c : Char) : Decidable (IsUpperBase c) := by unfold IsUpperBase; infer_instance

/-- The character at 0-based position `i` of a string, if there is one. -/
def charAt (s : List Char) (i : Int) : Option Char :=
  if 0 ≤ i then s.get? i.toNat else none

/-! ## Sample inputs -/

/-- An aligner that reports `ok` and always writes the same grid. -/
def constAligner (ok : Bool) (grid : Align) : Aligner := fun _ _ _ => (ok, grid)

/-- The grid of the 4 bp deletion scenario. -/
def gridDel4 : Align := Align.ofRows "AAAA----GGGGTTTT".toList "AAAACCCCGGGGTTTT".toList

/-- The grid of a 16 bp deletion between the same flanks. -/
def gridDel16 : Align :=
  Align.ofRows "AAAA----------------GGGGTTTT".toList "AAAACCCCCCCCCCCCCCCCGGGGTTTT".toList

/-- The reference window of the 4 bp deletion scenario. -/
def windowDel4 : List Char := "AAAACCCCGGGGTTTT".toList

/-- The reference window of the 16 bp deletion. -/
def windowDel16 : List Char := "AAAACCCCCCCCCCCCCCCCGGGGTTTT".toList

/-- The configuration of the deletion scenario, for a given technology selector. -/
def configDel (technology : String) : Config :=
  { minimumFlankSize := 3, flankQuality := ⟨9, 10⟩, technology := technology }

/-- A Deletion candidate with the scenario's consensus; flank 1 is `[beg1, end1)` and flank 2 is
`[beg2, end2)`. -/
def recordDel (beg1 end1 beg2 end2 : Int) : StructuralVariantRecord :=
  { svStartBeg := beg1, svStartEnd := end1, svEndBeg := beg2, svEndEnd := end2, svStart := 5,
    svEnd := 11, ct := 0, chr := 0, consensus := "AAAAGGGGTTTT".toList, precise := false,
    srAlignQuality := ⟨0, 1⟩, insLen := 7 }

/-- A reference buffer with bases in both cases. -/
def sampleRef : List Char := "acgtNACCGGTTnnacgt".toList

/-- A candidate on `sampleRef` with flanks `[1, 5)` and `[9, 14)` and connection code `ct`. -/
def sampleInv (ct : Int) : StructuralVariantRecord :=
  { svStartBeg := 1, svStartEnd := 5, svEndBeg := 9, svEndEnd := 14, svStart := 3, svEnd := 11,
    ct := ct, chr := 0, consensus := [], precise := false, srAlignQuality := ⟨0, 1⟩, insLen := 0 }

/-- A candidate with flanks `[10, 30)` and `[50, 65)` and connection code `ct`. -/
def sampleTra (ct : Int) : StructuralVariantRecord :=
  { svStartBeg := 10, svStartEnd := 30, svEndBeg := 50, svEndEnd := 65, svStart := 20, svEnd := 60,
    ct := ct, chr := 0, consensus := [], precise := false, srAlignQuality := ⟨0, 1⟩, insLen := 0 }

/-- A Translocation candidate with flanks `[0, 2)` and `[2, 4)`, consensus `AA` and connection
code `ct`. -/
def recordTra (ct : Int) : StructuralVariantRecord :=
  { svStartBeg := 0, svStartEnd := 2, svEndBeg := 2, svEndEnd := 4, svStart := 1, svEnd := 3,
    ct := ct, chr := 0, consensus := "AA".toList, precise := false, srAlignQuality := ⟨0, 1⟩,
    insLen := 0 }

/-- A Deletion or Duplication candidate on the buffer `AACCGG` with flanks `[0, 2)` and
`[4, 6)`. -/
def recordLock : StructuralVariantRecord :=
  { svStartBeg := 0, svStartEnd := 2, svEndBeg := 4, svEndEnd := 6, svStart := 1, svEnd := 5,
    ct := 0, chr := 0, consensus := [], precise := false, srAlignQuality := ⟨0, 1⟩, insLen := 0 }

/-! ## Internal gaps of a grid, in the words of the specification -/

/-- The number of consensus bases in the columns `cols`: the consumed-length counter of row 0
(`varIndex`) after these columns. -/
def consumedVar (cols : List (Char × Char)) : Nat := cols.countP (fun col => col.1 != '-')

/-- The number of reference bases in the columns `cols`: the consumed-length counter of row 1
(`refIndex`) after these columns. -/
def consumedRef (cols : List (Char × Char)) : Nat := cols.countP (fun col => col.2 != '-')

/-- A column in which either row shows the gap symbol. -/
def IsGapColumn (col : Char × Char) : Prop := col.1 = '-' ∨ col.2 = '-'

/-- Whether a column shows a gap can be computed. -/
instance (col : Char × Char) : Decidable (IsGapColumn col) := by
  unfold IsGapColumn; infer_instance

/-- Column `k` of the grid is an internal-gap column: either row shows a gap and both counters,
column `k` counted, are positive. -/
def InternalGapColumn (align : Align) (k : Nat) : Prop :=
  ∃ col, align.get? k = some col ∧ IsGapColumn col ∧
    0 < consumedRef (align.take (k + 1)) ∧ 0 < consumedVar (align.take (k + 1))

/-- The columns `a .. b` of the grid are a closed internal gap: a maximal run of internal-gap
columns that is followed by a further column of the grid. -/
def ClosedGap (align : Align) (a b : Nat) : Prop :=
  a ≤ b ∧ b + 1 < align.length ∧
  (∀ k, a ≤ k → k ≤ b → InternalGapColumn align k) ∧
  (∀ k, k + 1 = a → ¬ InternalGapColumn align k) ∧
  ¬ InternalGapColumn align (b + 1)

/-- The descriptor of the gap in columns `a .. b`: the counters before column `a` and after the
column `b + 1` that closes the gap. -/
def gapDescriptor (align : Align) (a b : Nat) : AlignDescriptor :=
  { cStart := consumedVar (align.take a)
    cEnd := consumedVar (align.take (b + 2))
    rStart := consumedRef (align.take a)
    rEnd := consumedRef (align.take (b + 2)) }

/-- The length the comparator of the type looks at: the consensus-side length `cEnd - cStart`
for Insertion, the reference-side length `rEnd - rStart` for every other type. -/
def gapLength (svt : SVType) (ad : AlignDescriptor) : Int :=
  match svt with
  | .InsertionTag => ad.cEnd - ad.cStart
  | _ => ad.rEnd - ad.rStart

/-- The invariant of the scan of `_findSplit` after `n` columns, for a scan started with a fresh
descriptor: the counters are the consumed lengths; an open gap is a run of internal-gap columns
reaching column `n - 1` that cannot be extended to the left; and the descriptor is the fresh
one while no gap has been closed, and afterwards the leftmost longest gap closed so far. -/
structure ScanInv (svt : SVType) (align : Align) (n : Nat) (st : SplitState) : Prop where
  refIdx : st.refIndex = consumedRef (align.take n)
  varIdx : st.varIndex = consumedVar (align.take n)
  opened : st.inGap = true → ∃ a : Nat, st.a1 = a ∧ a < n ∧
    (∀ k, a ≤ k → k < n → InternalGapColumn align k) ∧
    (∀ k, k + 1 = a → ¬ InternalGapColumn align k) ∧
    st.gapStartRefIndex = consumedRef (align.take a) ∧
    st.gapStartVarIndex = consumedVar (align.take a)
  closed : st.inGap = false → ∀ k, k + 1 = n → ¬ InternalGapColumn align k
  best : (st.ad = {} ∧ ∀ a b, ClosedGap align a b → n ≤ b + 1) ∨
    ∃ a b : Nat, ClosedGap align a b ∧ b + 1 < n ∧ st.gS = a ∧ st.gE = b ∧
      st.ad = gapDescriptor align a b ∧
      ∀ a1 b1, ClosedGap align a1 b1 → b1 + 1 < n →
        gapLength svt (gapDescriptor align a1 b1) ≤ gapLength svt (gapDescriptor align a b) ∧
        (gapLength svt (gapDescriptor align a1 b1) = gapLength svt (gapDescriptor align a b) →
          a ≤ a1)

/-- Whether a column is an internal-gap column can be computed. -/
instance (align : Align) (k : Nat) : Decidable (InternalGapColumn align k) :=
  match h : align.get? k with
  | none => isFalse (fun ⟨_, hc, _⟩ => by rw [h] at hc; cases hc)
  | some col =>
    decidable_of_iff
      (IsGapColumn col ∧ 0 < consumedRef (align.take (k + 1))
        ∧ 0 < consumedVar (align.take (k + 1)))
      ⟨fun hg => ⟨col, h, hg⟩, fun ⟨_, hc, hg⟩ => by rw [h] at hc; cases hc; exact hg⟩

/-- Whether a column range is a closed internal gap can be computed. -/
instance (align : Align) (a b : Nat) : Decidable (ClosedGap align a b) :=
  decidable_of_iff
    (a ≤ b ∧ b + 1 < align.length ∧
      (∀ k, k < b + 1 → a ≤ k → InternalGapColumn align k) ∧
      (a = 0 ∨ ¬ InternalGapColumn align (a - 1)) ∧
      ¬ InternalGapColumn align (b + 1))
    ⟨fun ⟨h1, h2, h3, h4, h5⟩ =>
        ⟨h1, h2, fun k hk1 hk2 => h3 k (Nat.lt_succ_of_le hk2) hk1,
          fun k hk hg => by
            rcases h4 with h4 | h4
            · omega
            · exact h4 (by rw [← hk]; exact hg),
          h5⟩,
     fun ⟨h1, h2, h3, h4, h5⟩ =>
        ⟨h1, h2, fun k hk1 hk2 => h3 k hk2 (Nat.le_of_lt_succ hk1),
          by
            rcases Nat.eq_zero_or_pos a with h0 | h0
            · exact Or.inl h0
            · exact Or.inr (h4 (a - 1) (by omega)),
          h5⟩⟩

/-- A grid with two closed gaps of equal length, at columns 2 and 5. -/
def gridTie : Align := Align.ofRows "AA-CC-GG".toList "AATCCTGG".toList

/-- A grid with a single closed gap: two columns with a gap in the consensus row. -/
def gridDel2 : Align := Align.ofRows "AA--GG".toList "AACCGG".toList

/-- A Deletion candidate on the buffer `AACCGG` whose flanks `[0, 3)` and `[3, 6)` are adjacent. -/
def recordAdjacent : StructuralVariantRecord :=
  { svStartBeg := 0, svStartEnd := 3, svEndBeg := 3, svEndEnd := 6, svStart := 2, svEnd := 4,
    ct := 0, chr := 0, consensus := "AAGG".toList, precise := false, srAlignQuality := ⟨0, 1⟩,
    insLen := 0 }

/-! ## Orientation helpers -/

/-- Modelled from the spec: the function `reverseComplement` that `_adjustOrientation` calls is
declared outside `split.h`; it is a parameter, an arbitrary function on strings. -/
abbrev ReverseComplement := List Char → List Char

/-- The function `_adjustOrientation`, for the five tags: the value of `sequence` after the call.
`bpPoint` is the breakpoint side and `ct` the connection code; `!ct` is `ct = 0`. -/
def _adjustOrientation (reverseComplement : ReverseComplement) (sequence : List Char)
    (bpPoint : Bool) (ct : Int) : SVType → List Char
  | .DeletionTag => sequence
  | .InsertionTag => sequence
  | .DuplicationTag => sequence
  | .InversionTag =>
      if (ct = 0 ∧ bpPoint = true) ∨ (ct ≠ 0 ∧ bpPoint = false) then reverseComplement sequence
      else sequence
  | .TranslocationTag =>
      if (ct = 0 ∧ bpPoint = true) ∨ (ct = 1 ∧ bpPoint = false) then reverseComplement sequence
      else sequence

/-- The function `_validSCOrientation`, for the five tags. -/
def _validSCOrientation (bpPoint : Bool) (leadingSC : Bool) (ct : Int) : SVType → Bool
  | .DeletionTag =>
      if (bpPoint = false ∧ leadingSC = false) ∨ (bpPoint = true ∧ leadingSC = true) then true
      else false
  | .InsertionTag =>
      if (bpPoint = false ∧ leadingSC = false) ∨ (bpPoint = true ∧ leadingSC = true) then true
      else false
  | .DuplicationTag =>
      if (bpPoint = false ∧ leadingSC = true) ∨ (bpPoint = true ∧ leadingSC = false) then true
      else false
  | .InversionTag => if ct ≠ 0 then leadingSC else !leadingSC
  | .TranslocationTag =>
      if ct = 0 then !leadingSC
      else if ct = 1 then leadingSC
      else if ct = 2 then
        if (bpPoint = false ∧ leadingSC = false) ∨ (bpPoint = true ∧ leadingSC = true) then true
        else false
      else if ct = 3 then
        if (bpPoint = false ∧ leadingSC = true) ∨ (bpPoint = true ∧ leadingSC = false) then true
        else false
      else false

/-- Whether the orientation normalizer reverse-complements a read, observed on the one-base read
`A`, whose reverse complement `T` differs from it. -/
def readIsFlipped (svt : SVType) (side : Bool) (ct : Int) : Bool :=
  _adjustOrientation reverseComplementSpec ['A'] side ct svt != ['A']

/-- The clip side re-derived after normalisation: the leading flag, negated exactly when the read
is reverse-complemented. -/
def rederivedSide (svt : SVType) (side leading : Bool) (ct : Int) : Bool :=
  xor leading (readIsFlipped svt side ct)

/-- The grid with `k` columns holding the gap symbol in both rows put before it. -/
def prependGapColumns (k : Nat) (align : Align) : Align :=
  List.replicate k ('-', '-') ++ align

/-! ## Soft-clip evidence extractor -/

/-- Modelled from the spec: the CIGAR operation codes of htslib (`BAM_CMATCH`, ...), which
`bam_cigar_op` extracts, are declared outside `split.h`. -/
inductive CigarOp where
  | BAM_CMATCH
  | BAM_CINS
  | BAM_CDEL
  | BAM_CREF_SKIP
  | BAM_CSOFT_CLIP
  | BAM_CHARD_CLIP
  | BAM_CPAD
  | BAM_CEQUAL
  | BAM_CDIFF
  | BAM_CBACK
  deriving DecidableEq, Repr

/-- Modelled from the spec: the record type `bam1_t` of htslib is declared outside `split.h`;
these are the parts `_validSoftClip` reads: the query length `core.l_qseq`, the alignment start
`core.pos`, the CIGAR operations (`core.n_cigar` of them, each with the operation
`bam_cigar_op` and the length `bam_cigar_oplen`) and the per-base qualities `bam_get_qual`. -/
structure bam1_t where
  l_qseq : Int
  pos : Int
  cigar : List (CigarOp × Nat)
  qual : List Nat
  deriving DecidableEq, Repr

/-- Modelled from the spec: the library function `log10` is declared outside `split.h`.  This
is the value `(int32_t) (log10(n) * 10)` with the logarithm taken exactly, the greatest `k` with
`10 ^ k <= n ^ 10`; rounding of the `double` computation is not modelled. -/
def log10Times10 (n : Int) : Int := (Nat.log 10 (n.toNat ^ 10) : Nat)

/-- The first loop of `_validSoftClip`: the pair `(numSoftClip, clipSize)` after the loop, from
the counter and the clip size before it. -/
def countSoftClips : List (CigarOp × Nat) → Nat → Int → Nat × Int
  | [], numSoftClip, clipSize => (numSoftClip, clipSize)
  | op :: rest, numSoftClip, clipSize =>
      if op.1 = .BAM_CSOFT_CLIP then countSoftClips rest (numSoftClip + 1) op.2
      else countSoftClips rest numSoftClip clipSize

/-- The loop `for (i = alen; i < alen + clipSize; ++i) qualSum += quality[i]`, with `n`
iterations left: the sum at loop exit, or `none` when a read falls outside the vector. -/
def qualSumLoop (quality : List Nat) : Nat → Nat → Nat → Option Nat
  | 0, _, qualSum => some qualSum
  | n + 1, i, qualSum =>
      match quality.get? i with
      | some q => qualSumLoop quality n (i + 1) (qualSum + q)
      | none => none

/-- The local variables of the second loop of `_validSoftClip`, with the two output parameters
it writes. -/
structure SoftClipState where
  alen : Nat := 0
  lastIns : Nat := 0
  meanQuality : Nat := 0
  leadingSC : Bool
  splitPoint : Int
  deriving DecidableEq, Repr

/-- One iteration of the second loop of `_validSoftClip`. -/
def softClipBody (rec : bam1_t) (quality : List Nat) (clipSize : Int) (st : SoftClipState)
    (op : CigarOp × Nat) : Option SoftClipState :=
  if op.1 = .BAM_CMATCH then some { st with alen := st.alen + (op.2 + st.lastIns), lastIns := 0 }
  else if op.1 = .BAM_CINS then some { st with lastIns := op.2 }
  else if op.1 = .BAM_CSOFT_CLIP then
    match qualSumLoop quality clipSize.toNat st.alen 0 with
    | none => none
    | some qualSum =>
        some { st with
               leadingSC := decide (st.alen = 0)
               splitPoint := rec.pos + st.alen
               meanQuality := qualSum / clipSize.toNat }
  else some st

/-- The second loop of `_validSoftClip` over the CIGAR operations. -/
def softClipLoop (rec : bam1_t) (quality : List Nat) (clipSize : Int) :
    List (CigarOp × Nat) → SoftClipState → Option SoftClipState
  | [], st => some st
  | op :: rest, st =>
      match softClipBody rec quality clipSize st op with
      | none => none
      | some st1 => softClipLoop rec quality clipSize rest st1

/-- The function `_validSoftClip`: the returned Boolean with the values of `clipSize`,
`splitPoint` and `leadingSC` after the call, or `none` when a quality is read outside the
vector. -/
def _validSoftClip (rec : bam1_t) (clipSize splitPoint : Int) (leadingSC : Bool)
    (qualCut : Nat) : Option (Bool × Int × Int × Bool) :=
  if rec.l_qseq < 35 then some (false, clipSize, splitPoint, leadingSC)
  else
    let counted := countSoftClips rec.cigar 0 clipSize
    let numSoftClip := counted.1
    let clipSize := counted.2
    if numSoftClip ≠ 1 then some (false, clipSize, splitPoint, leadingSC)
    else if clipSize ≤ log10Times10 rec.l_qseq then some (false, clipSize, splitPoint, leadingSC)
    else
      let quality := rec.qual.take rec.l_qseq.toNat
      match softClipLoop rec quality clipSize rec.cigar
          { leadingSC := leadingSC, splitPoint := splitPoint } with
      | none => none
      | some st =>
          some (decide (st.meanQuality ≥ qualCut), clipSize, st.splitPoint, st.leadingSC)

/-! ## Soft clips, in the words of the specification -/

/-- The operations that consume query bases: `M`, `I`, `S`, `=` and `X`. -/
def consumesQuery (op : CigarOp) : Bool :=
  op = .BAM_CMATCH || op = .BAM_CINS || op = .BAM_CSOFT_CLIP || op = .BAM_CEQUAL || op = .BAM_CDIFF

/-- The number of query bases the operations cover. -/
def queryLength : List (CigarOp × Nat) → Nat
  | [] => 0
  | op :: rest => (if consumesQuery op.1 then op.2 else 0) + queryLength rest

/-- The number of soft-clip operations. -/
def softClipCount (cigar : List (CigarOp × Nat)) : Nat :=
  cigar.countP (fun op => op.1 = .BAM_CSOFT_CLIP)

/-- Whether the operations start with a match. -/
def startsWithMatch : List (CigarOp × Nat) → Bool
  | (.BAM_CMATCH, _) :: _ => true
  | _ => false

/-- The operations hold no `=` or `X`, and every insertion is immediately followed by a
match. -/
def insertionsMatched : List (CigarOp × Nat) → Bool
  | [] => true
  | op :: rest =>
      (op.1 != .BAM_CEQUAL) && (op.1 != .BAM_CDIFF)
        && (op.1 != .BAM_CINS || startsWithMatch rest) && insertionsMatched rest

/-- The integer mean of the qualities of the `c` bases from query position `offset` on. -/
def meanQualityAt (qual : List Nat) (offset c : Nat) : Nat :=
  ((qual.drop offset).take c).sum / c

/-- A read of 35 bases with CIGAR `15M 4I 16S`, aligned at position 100: the inserted bases have
quality 0 and every other base has quality 40. -/
def recordInsClip : bam1_t :=
  { l_qseq := 35, pos := 100,
    cigar := [(.BAM_CMATCH, 15), (.BAM_CINS, 4), (.BAM_CSOFT_CLIP, 16)],
    qual := List.replicate 15 40 ++ List.replicate 4 0 ++ List.replicate 16 40 }

/-- A read of 35 bases with CIGAR `16S 10M 2I 7M`, aligned at position 100: the clipped bases
have quality 30 and every other base has quality 10. -/
def recordLeadClip : bam1_t :=
  { l_qseq := 35, pos := 100,
    cigar := [(.BAM_CSOFT_CLIP, 16), (.BAM_CMATCH, 10), (.BAM_CINS, 2), (.BAM_CMATCH, 7)],
    qual := List.replicate 16 30 ++ List.replicate 19 10 }

/-- A read of 40 bases with CIGAR `32M 8S` and base qualities `qual`. -/
def recordShortClip (qual : List Nat) : bam1_t :=
  { l_qseq := 40, pos := 7, cigar := [(.BAM_CMATCH, 32), (.BAM_CSOFT_CLIP, 8)], qual := qual }

/-! ## Flanks of a gap, in the words of the specification -/

/-- The left flank of the gap window `[gS, gE]`: the consensus row in columns `0 .. gS - 1`. -/
def leftFlank (align : Align) (gS : Nat) : List Char := (align.take gS).map Prod.fst

/-- The right flank of the gap window `[gS, gE]`: the consensus row in columns
`gE + 1 .. L - 1`. -/
def rightFlank (align : Align) (gE : Nat) : List Char := (align.drop (gE + 1)).map Prod.fst

/-- The columns `gS .. gE` of the grid. -/
def gapColumns (align : Align) (gS gE : Nat) : List (Char × Char) :=
  (align.drop gS).take (gE + 1 - gS)

/-- The reference row inside the gap window `[gS, gE]`: the deleted reference bases. -/
def gapReference (align : Align) (gS gE : Nat) : List Char :=
  (gapColumns align gS gE).map Prod.snd

/-- A grid whose flanks `CT` and `AG` are reverse complements of each other, around a deletion
of the reference bases `AA`. -/
def gridFlankPalindrome : Align := Align.ofRows "CT--AG".toList "CTAAAG".toList

/-- A grid whose reference row `CTATAG` is its own reverse complement, around a deletion of the
reference bases `AT`. -/
def gridRowPalindrome : Align := Align.ofRows "CT--AG".toList "CTATAG".toList

/-- A grid whose reference row `AAACATGTTT` is its own reverse complement, around a deletion of
the reference bases `CATG`; both walks meet a second mismatch at their second step and the
one-base retry succeeds there. -/
def gridRowPalindromeRetry : Align :=
  Align.ofRows "AAA----TTT".toList "AAACATGTTT".toList

/-- A grid whose reference row `AAACCGGTTT` is its own reverse complement, around a deletion of
the reference bases `CCGG`; both walks meet a second mismatch at their second step and the
one-base retry fails there. -/
def gridRowPalindromeStop : Align :=
  Align.ofRows "AAA----TTT".toList "AAACCGGTTT".toList

/-! ## Row exchange -/

/-- The grid with its two rows exchanged. -/
def swapRows (align : Align) : Align := align.map (fun col => (col.2, col.1))

/-- The descriptor with `(cStart, cEnd)` and `(rStart, rEnd)` exchanged; `homLeft`, `homRight`
and `percId` are kept. -/
def swapSides (ad : AlignDescriptor) : AlignDescriptor :=
  { cStart := ad.rStart, cEnd := ad.rEnd, rStart := ad.cStart, rEnd := ad.cEnd,
    homLeft := ad.homLeft, homRight := ad.homRight, percId := ad.percId }

/-- The scan state with the consensus side and the reference side exchanged. -/
def swapScanState (st : SplitState) : SplitState :=
  { ad := swapSides st.ad, gS := st.gS, gE := st.gE,
    refIndex := st.varIndex, varIndex := st.refIndex,
    gapStartRefIndex := st.gapStartVarIndex, gapStartVarIndex := st.gapStartRefIndex,
    a1 := st.a1, inGap := st.inGap }

/-- The counters of `_percentIdentity` with the two "seen" flags exchanged. -/
def swapSeen (st : PercIdState) : PercIdState :=
  { st with varSeen := st.refSeen, refSeen := st.varSeen }

/-- A grid with a 20-base insertion in the consensus row, between flanks of 8 columns. -/
def gridIns20 : Align :=
  Align.ofRows "ACGTACGTTTTTTTTTTTTTTTTTTTTTGGCCAATT".toList
    "ACGTACGT--------------------GGCCAATT".toList

/-- An Insertion candidate whose consensus carries the 20 inserted bases of `gridIns20`; its
reference window is `[100, 116)`. -/
def recordIns : StructuralVariantRecord :=
  { svStartBeg := 100, svStartEnd := 108, svEndBeg := 108, svEndEnd := 116, svStart := 108,
    svEnd := 109, ct := 0, chr := 0,
    consensus := "ACGTACGTTTTTTTTTTTTTTTTTTTTTGGCCAATT".toList, precise := false,
    srAlignQuality := ⟨0, 1⟩, insLen := 0 }

/-- The reference window of `recordIns`. -/
def windowIns : List Char := "ACGTACGTGGCCAATT".toList

/-- The record `recordDel 0 6 18 28` after the accepted 16 bp deletion. -/
def recordDelAccepted : StructuralVariantRecord :=
  { recordDel 0 6 18 28 with
    precise := true, svStart := 4, svEnd := 33, srAlignQuality := ⟨12, 12⟩, insLen := 0 }

/-- The record `recordIns` after the accepted 20-base insertion. -/
def recordInsAccepted : StructuralVariantRecord :=
  { recordIns with
    precise := true, svStart := 108, svEnd := 109, srAlignQuality := ⟨16, 16⟩, insLen := 20 }

/-! ## Theorems -/

set_option maxRecDepth 100000

/-! ### The orchestrator `alignConsensus` -/

/-- On the 4 bp scenario grid the locator stops at the shape-validity gate: the reference-side
length `rEnd - rStart = 5` is not above 15. -/
theorem findSplit_gridDel4 (c : Config) :
    _findSplit c gridDel4 {} .DeletionTag
      = some (false, { cStart := 4, cEnd := 5, rStart := 4, rEnd := 9 }) := by
  have hs : findSplitScan .DeletionTag gridDel4 {}
      = { ad := { cStart := 4, cEnd := 5, rStart := 4, rEnd := 9 }, gS := 4, gE := 7,
          refIndex := 16, varIndex := 12, gapStartRefIndex := 4, gapStartVarIndex := 4, a1 := 4,
          inGap := false } := by decide
  unfold _findSplit
  rw [hs]
  rfl

/-- Counterexample to C2 as stated: in the 4 bp deletion scenario (`minimumFlankSize = 3`,
`flankQuality = 0.9`, default technology, the aligner returning the scenario's grid)
`alignConsensus` returns false and the record is unchanged. -/
theorem C2_deletion_scenario_counterexample :
    alignConsensus (constAligner true gridDel4) (configDel "illumina") (recordDel 0 6 6 16)
      windowDel4 .DeletionTag = some (false, recordDel 0 6 6 16) := by
  decide

/-- C2 (amended): in the 4 bp deletion scenario, for every candidate with the scenario's
consensus, `minimumFlankSize = 3`, any flank quality and technology, and any aligner returning
the scenario's grid, the breakpoint locator finds the gap `cStart = 4, cEnd = 5, rStart = 4,
rEnd = 9` and rejects it, and `alignConsensus` returns false with the record unchanged. -/
theorem C2_deletion_scenario_rejected (longNeedle : Aligner) (c : Config)
    (sv : StructuralVariantRecord)
    (hcons : sv.consensus = "AAAAGGGGTTTT".toList)
    (hflank : c.minimumFlankSize = 3)
    (hneedle : longNeedle (true, false) sv.consensus windowDel4 = (true, gridDel4)) :
    _findSplit c gridDel4 {} .DeletionTag
        = some (false, { cStart := 4, cEnd := 5, rStart := 4, rEnd := 9 }) ∧
    alignConsensus longNeedle c sv windowDel4 .DeletionTag = some (false, sv) := by
  refine ⟨findSplit_gridDel4 c, ?_⟩
  have h1 : ¬ ((sv.consensus.length : Int) < 2 * c.minimumFlankSize) := by
    rw [hcons, hflank]; decide
  have h2 : _consRefAlignment longNeedle sv.consensus windowDel4 .DeletionTag
      = (true, gridDel4) := by
    simp only [_consRefAlignment, hneedle]
  simp only [alignConsensus, h1, h2, findSplit_gridDel4 c]
  simp

/-- Witness of C2 (amended), at the scenario's configuration and a candidate whose flanks
`[0, 6)` and `[6, 16)` meet inside the removed bases. -/
theorem C2_deletion_scenario_rejected_witness :
    alignConsensus (constAligner true gridDel4) (configDel "illumina") (recordDel 0 6 6 16)
      windowDel4 .DeletionTag = some (false, recordDel 0 6 6 16) :=
  (C2_deletion_scenario_rejected (constAligner true gridDel4) (configDel "illumina")
    (recordDel 0 6 6 16) rfl rfl rfl).2

/-- With a technology selector that is neither `"illumina"` nor `"pacbio"` (here `"nanopore"`)
neither branch of the dispatch runs: `alignConsensus` returns true with `svStart = svEnd = 0`,
the initial values of `finalGapStart` and `finalGapEnd`, although `_coordTransform` rejects the
located descriptor. -/
theorem alignConsensus_unlisted_technology :
    (configDel "nanopore").technology ≠ "pacbio" ∧
    alignConsensus (constAligner true gridDel16) (configDel "nanopore") (recordDel 0 24 40 44)
      windowDel16 .DeletionTag
      = some (true, { recordDel 0 24 40 44 with
                      precise := true, svStart := 0, svEnd := 0, srAlignQuality := ⟨12, 12⟩,
                      insLen := 0 }) ∧
    ∃ ad, _findSplit (configDel "nanopore") gridDel16 {} .DeletionTag = some (true, ad) ∧
      _coordTransform windowDel16 (recordDel 0 24 40 44) ad .DeletionTag = none := by
  refine ⟨by decide, by decide,
    ⟨{ cStart := 4, cEnd := 5, rStart := 4, rEnd := 21, homLeft := 1, homRight := 1,
       percId := ⟨12, 12⟩ }, by decide, by decide⟩⟩

/-- On the branch `c.technology == "illumina"`, `alignConsensus` returns true only if
`_coordTransform` accepts the descriptor located by `_findSplit`, and then the record is the
input record with `precise = true`, `svStart = finalGapStart` and `svEnd = finalGapEnd` as
computed by that back-mapper, `srAlignQuality = percId` and `insLen = cEnd - cStart - 1`. -/
theorem alignConsensus_illumina (longNeedle : Aligner) (c : Config)
    (sv sv1 : StructuralVariantRecord) (svRefStr : List Char) (svType : SVType)
    (htech : c.technology = "illumina")
    (hret : alignConsensus longNeedle c sv svRefStr svType = some (true, sv1)) :
    ∃ ad finalGapStart finalGapEnd,
      _findSplit c (_consRefAlignment longNeedle sv.consensus svRefStr svType).2 {} svType
        = some (true, ad) ∧
      _coordTransform svRefStr sv ad svType = some (finalGapStart, finalGapEnd) ∧
      sv1 = { sv with
              precise := true
              svStart := finalGapStart
              svEnd := finalGapEnd
              srAlignQuality := ad.percId
              insLen := ad.cEnd - ad.cStart - 1 } := by
  by_cases h1 : (sv.consensus.length : Int) < 2 * c.minimumFlankSize
  · simp [alignConsensus, h1] at hret
  · cases hr : (_consRefAlignment longNeedle sv.consensus svRefStr svType).1
    · simp [alignConsensus, h1, hr] at hret
    · cases hf : _findSplit c (_consRefAlignment longNeedle sv.consensus svRefStr svType).2 {}
          svType with
      | none => simp [alignConsensus, h1, hr, hf] at hret
      | some p =>
        obtain ⟨b, ad⟩ := p
        cases b
        · simp [alignConsensus, h1, hr, hf] at hret
        · simp only [alignConsensus, h1, hr, hf, htech] at hret
          simp only [if_false, not_true_eq_false, ite_false, if_true] at hret
          cases hg : _coordTransform svRefStr sv ad svType with
          | none => rw [hg] at hret; simp at hret
          | some g =>
            obtain ⟨s, e⟩ := g
            rw [hg] at hret
            simp at hret
            exact ⟨ad, s, e, rfl, hg, hret.symm⟩

/-- C4: technology dispatch.  The selector is enumerated, the default `"illumina"` or the
alternate `"pacbio"`.  For every selector value other than the alternate one, `alignConsensus`
returns true only if `_coordTransform` accepts the descriptor located by `_findSplit`, and then
the record is the input record with `precise = true`, `svStart = finalGapStart` and
`svEnd = finalGapEnd` as computed by that back-mapper, `srAlignQuality = percId` and
`insLen = cEnd - cStart - 1`. -/
theorem C4_technology_dispatch (longNeedle : Aligner) (c : Config)
    (sv sv1 : StructuralVariantRecord) (svRefStr : List Char) (svType : SVType)
    (hselector : c.technology = "illumina" ∨ c.technology = "pacbio")
    (htech : c.technology ≠ "pacbio")
    (hret : alignConsensus longNeedle c sv svRefStr svType = some (true, sv1)) :
    ∃ ad finalGapStart finalGapEnd,
      _findSplit c (_consRefAlignment longNeedle sv.consensus svRefStr svType).2 {} svType
        = some (true, ad) ∧
      _coordTransform svRefStr sv ad svType = some (finalGapStart, finalGapEnd) ∧
      sv1 = { sv with
              precise := true
              svStart := finalGapStart
              svEnd := finalGapEnd
              srAlignQuality := ad.percId
              insLen := ad.cEnd - ad.cStart - 1 } :=
  alignConsensus_illumina longNeedle c sv sv1 svRefStr svType
    (hselector.resolve_right htech) hret

/-- Witness of C4: the 16 bp deletion with flanks `[0, 6)` and `[18, 28)` is refined to
`svStart = 4`, `svEnd = 33`. -/
theorem C4_technology_dispatch_witness :
    ∃ ad finalGapStart finalGapEnd,
      _findSplit (configDel "illumina") gridDel16 {} .DeletionTag = some (true, ad) ∧
      _coordTransform windowDel16 (recordDel 0 6 18 28) ad .DeletionTag
        = some (finalGapStart, finalGapEnd) ∧
      finalGapStart = 4 ∧ finalGapEnd = 33 :=
  match C4_technology_dispatch (constAligner true gridDel16) (configDel "illumina")
      (recordDel 0 6 18 28)
      { recordDel 0 6 18 28 with
        precise := true, svStart := 4, svEnd := 33, srAlignQuality := ⟨12, 12⟩, insLen := 0 }
      windowDel16 .DeletionTag (Or.inl rfl) (by decide) (by decide) with
  | ⟨ad, s, e, h1, h2, h3⟩ =>
    ⟨ad, s, e, h1, h2, (congrArg StructuralVariantRecord.svStart h3).symm,
      (congrArg StructuralVariantRecord.svEnd h3).symm⟩

/-! ### The coordinate back-mapper `_coordTransform` -/

/-- A guarded result is `none` exactly when the guard holds. -/
theorem ite_none_iff {α : Type} {p : Prop} [Decidable p] {r : Option α} (hr : r ≠ none) :
    (if p then none else r) = none ↔ p := by
  by_cases h : p
  · simp [h]
  · simp [h, hr]

/-- C5: the gate of the back-mapper.  `_coordTransform` returns false exactly when
`rStart >= annealed` or `rEnd < annealed`, with `annealed = svStartEnd - svStartBeg` for
Deletion, Inversion and Translocation codes 0, 1, 2, and `annealed = svEndEnd - svEndBeg` for
Duplication and Translocation code 3; for Insertion it accepts and returns
`(svStartBeg + rStart, svStartBeg + rEnd)`. -/
theorem C5_coordTransform_gate (ref : List Char) (sv : StructuralVariantRecord)
    (ad : AlignDescriptor) :
    (_coordTransform ref sv ad .DeletionTag = none ↔
      (ad.rStart ≥ sv.svStartEnd - sv.svStartBeg ∨ ad.rEnd < sv.svStartEnd - sv.svStartBeg)) ∧
    (_coordTransform ref sv ad .DuplicationTag = none ↔
      (ad.rStart ≥ sv.svEndEnd - sv.svEndBeg ∨ ad.rEnd < sv.svEndEnd - sv.svEndBeg)) ∧
    (_coordTransform ref sv ad .InversionTag = none ↔
      (ad.rStart ≥ sv.svStartEnd - sv.svStartBeg ∨ ad.rEnd < sv.svStartEnd - sv.svStartBeg)) ∧
    (sv.ct = 0 ∨ sv.ct = 1 ∨ sv.ct = 2 →
      (_coordTransform ref sv ad .TranslocationTag = none ↔
        (ad.rStart ≥ sv.svStartEnd - sv.svStartBeg ∨ ad.rEnd < sv.svStartEnd - sv.svStartBeg))) ∧
    (sv.ct = 3 →
      (_coordTransform ref sv ad .TranslocationTag = none ↔
        (ad.rStart ≥ sv.svEndEnd - sv.svEndBeg ∨ ad.rEnd < sv.svEndEnd - sv.svEndBeg))) ∧
    _coordTransform ref sv ad .InsertionTag
      = some (sv.svStartBeg + ad.rStart, sv.svStartBeg + ad.rEnd) := by
  refine ⟨?_, ?_, ?_, ?_, ?_, rfl⟩
  · exact ite_none_iff (by simp)
  · exact ite_none_iff (by simp)
  · refine ite_none_iff ?_
    split_ifs <;> simp
  · rintro (h | h | h)
    · simp only [_coordTransform, h, if_true]
      exact ite_none_iff (by simp)
    · simp only [_coordTransform, h, if_true, one_ne_zero, if_false]
      exact ite_none_iff (by simp)
    · have e0 : ¬ ((2 : Int) = 0) := by decide
      have e1 : ¬ ((2 : Int) = 1) := by decide
      simp only [_coordTransform, h, if_true, e0, e1, if_false]
      exact ite_none_iff (by simp)
  · intro h
    have e0 : ¬ ((3 : Int) = 0) := by decide
    have e1 : ¬ ((3 : Int) = 1) := by decide
    have e2 : ¬ ((3 : Int) = 2) := by decide
    simp only [_coordTransform, h, if_true, e0, e1, e2, if_false]
    exact ite_none_iff (by simp)

/-- Witness of C5, on a Translocation candidate with flanks of 20 and 15 bases: code 2 rejects
`rStart = 20` against `annealed = 20`; code 3 rejects `rStart = 20` against `annealed = 15` and
accepts `rStart = 14, rEnd = 20`. -/
theorem C5_coordTransform_gate_witness :
    _coordTransform [] (sampleTra 2) { rStart := 20, rEnd := 40 } .TranslocationTag = none ∧
    _coordTransform [] (sampleTra 3) { rStart := 20, rEnd := 40 } .TranslocationTag = none ∧
    _coordTransform [] (sampleTra 3) { rStart := 14, rEnd := 20 } .TranslocationTag ≠ none :=
  ⟨((C5_coordTransform_gate [] (sampleTra 2) { rStart := 20, rEnd := 40 }).2.2.2.1
      (by decide)).mpr (by decide),
   ((C5_coordTransform_gate [] (sampleTra 3) { rStart := 20, rEnd := 40 }).2.2.2.2.1
      (by decide)).mpr (by decide),
   fun h => absurd (((C5_coordTransform_gate [] (sampleTra 3) { rStart := 14, rEnd := 20 }).2.2.2.2.1
      (by decide)).mp h) (by decide)⟩

/-! ### The reference-window builder `_getSVRef` -/

/-- Upper-casing a base gives an upper-case base. -/
theorem isUpperBase_toUpper {c : Char} (h : IsBase c) : IsUpperBase c.toUpper := by
  rcases h with h | h | h | h | h | h | h | h | h | h <;> subst h <;> decide

/-- On an upper-case base the `switch` stores the complement, whatever was there. -/
theorem revCompSwitch_eq_complementSpec (keep : Char) {c : Char} (h : IsUpperBase c) :
    revCompSwitch keep c = complementSpec c := by
  rcases h with h | h | h | h | h <;> subst h <;> rfl

/-- A `zipWith` whose function ignores its first argument on the second list is a `map`. -/
theorem zipWith_eq_map_right {α β γ : Type} (f : α → β → γ) (g : β → γ) :
    ∀ (s : List α) (t : List β), s.length = t.length → (∀ b ∈ t, ∀ a, f a b = g b) →
      List.zipWith f s t = t.map g
  | [], [], _, _ => rfl
  | [], _ :: _, h, _ => by simp at h
  | _ :: _, [], h, _ => by simp at h
  | a :: s, b :: t, h, hf => by
      have hlen : s.length = t.length := by simpa using h
      have ht : ∀ b1 ∈ t, ∀ a1, f a1 b1 = g b1 :=
        fun b1 hb1 a1 => hf b1 (List.mem_cons_of_mem _ hb1) a1
      simp [List.zipWith, hf b (List.mem_cons_self _ _) a, zipWith_eq_map_right f g s t hlen ht]

/-- On a string of upper-case bases the loop computes the reverse complement. -/
theorem revCompLoop_eq_spec {s : List Char} (h : ∀ c ∈ s, IsUpperBase c) :
    revCompLoop s = reverseComplementSpec s := by
  unfold revCompLoop reverseComplementSpec
  apply zipWith_eq_map_right
  · simp
  · intro b hb a
    exact revCompSwitch_eq_complementSpec a (h b (List.mem_reverse.mp hb))

/-- On the upper-cased copy of a string of bases the loop computes the reverse complement. -/
theorem revCompLoop_upper {s : List Char} (h : ∀ c ∈ s, IsBase c) :
    revCompLoop (to_upper_copy s) = reverseComplementSpec (to_upper_copy s) := by
  apply revCompLoop_eq_spec
  intro c hc
  unfold to_upper_copy at hc
  obtain ⟨d, hd, rfl⟩ := List.mem_map.mp hc
  exact isUpperBase_toUpper (h d hd)

/-- The loop keeps the length. -/
theorem length_revCompLoop (s : List Char) : (revCompLoop s).length = s.length := by
  simp [revCompLoop]

/-- C9: the Inversion reference window.  When both flanks hold only `A, C, G, T, N` in either
case, `_getSVRef` returns `upper(flank1)` followed by the reverse complement of `upper(flank2)`
for `ct = 0`, and the reverse complement of `upper(flank1)` followed by `upper(flank2)` for
`ct != 0`; the window has `|flank1| + |flank2|` characters. -/
theorem C9_getSVRef_inversion (ref : List Char) (svRec : StructuralVariantRecord) (refIndex : Int)
    (h1 : ∀ c ∈ substr ref svRec.svStartBeg svRec.svStartEnd, IsBase c)
    (h2 : ∀ c ∈ substr ref svRec.svEndBeg svRec.svEndEnd, IsBase c) :
    (svRec.ct = 0 → _getSVRef ref svRec refIndex .InversionTag
        = to_upper_copy (substr ref svRec.svStartBeg svRec.svStartEnd)
          ++ reverseComplementSpec (to_upper_copy (substr ref svRec.svEndBeg svRec.svEndEnd))) ∧
    (svRec.ct ≠ 0 → _getSVRef ref svRec refIndex .InversionTag
        = reverseComplementSpec (to_upper_copy (substr ref svRec.svStartBeg svRec.svStartEnd))
          ++ to_upper_copy (substr ref svRec.svEndBeg svRec.svEndEnd)) ∧
    (_getSVRef ref svRec refIndex .InversionTag).length
        = (substr ref svRec.svStartBeg svRec.svStartEnd).length
          + (substr ref svRec.svEndBeg svRec.svEndEnd).length := by
  refine ⟨?_, ?_, ?_⟩
  · intro h
    simp only [_getSVRef, h, if_true, revCompLoop_upper h2]
  · intro h
    simp only [_getSVRef, h, if_false, revCompLoop_upper h1]
  · by_cases h : svRec.ct = 0
    · simp [_getSVRef, h, length_revCompLoop, to_upper_copy]
    · simp [_getSVRef, h, length_revCompLoop, to_upper_copy]

/-- Witness of C9 on the buffer `acgtNACCGGTTnnacgt` with flanks `cgtN` and `GTTnn`. -/
theorem C9_getSVRef_inversion_witness :
    _getSVRef sampleRef (sampleInv 0) 0 .InversionTag = "CGTNNNAAC".toList ∧
    _getSVRef sampleRef (sampleInv 1) 0 .InversionTag = "NACGGTTNN".toList := by
  refine ⟨?_, ?_⟩
  · rw [(C9_getSVRef_inversion sampleRef (sampleInv 0) 0 (by decide) (by decide)).1 (by decide)]
    decide
  · rw [(C9_getSVRef_inversion sampleRef (sampleInv 1) 0 (by decide) (by decide)).2.1 (by decide)]
    decide

/-- Counterexample to C10 as stated.  On the buffer `acRt` with flank 1 = `ac`, flank 2 = `Rt`
and consensus `AA`: for code 1 on the chromosome of `svStart` the window is `GTAA`, the reverse
complement of `upper(flank1)` followed by the consensus, not the consensus followed by it; and
for code 0 on the other chromosome the window is `AT`, not the reverse complement `AR` of
`upper(flank2)`, because the loop leaves a character that is no base in place. -/
theorem C10_getSVRef_translocation_counterexample :
    ((recordTra 1).chr = 0 ∧ (recordTra 1).ct = 1 ∧
      _getSVRef "acRt".toList (recordTra 1) 0 .TranslocationTag = "GTAA".toList ∧
      _getSVRef "acRt".toList (recordTra 1) 0 .TranslocationTag
        ≠ (recordTra 1).consensus ++ reverseComplementSpec (to_upper_copy
            (substr "acRt".toList (recordTra 1).svStartBeg (recordTra 1).svStartEnd))) ∧
    ((recordTra 0).chr ≠ 1 ∧ (recordTra 0).ct = 0 ∧
      _getSVRef "acRt".toList (recordTra 0) 1 .TranslocationTag = "AT".toList ∧
      _getSVRef "acRt".toList (recordTra 0) 1 .TranslocationTag
        ≠ reverseComplementSpec (to_upper_copy
            (substr "acRt".toList (recordTra 0).svEndBeg (recordTra 0).svEndEnd))) := by
  decide

/-- C10 (amended): the Translocation reference window, for flanks that hold only `A, C, G, T, N`
in either case.  On the chromosome of `svStart` (`chr = refIndex`) `_getSVRef` returns
`upper(flank1)` followed by the consensus for codes 0 and 2, the reverse complement of
`upper(flank1)` followed by the consensus for code 1, and the consensus followed by
`upper(flank1)` for every other code; on the other chromosome it returns the reverse complement
of `upper(flank2)` for code 0 and `upper(flank2)` for every other code. -/
theorem C10_getSVRef_translocation (ref : List Char) (svRec : StructuralVariantRecord)
    (refIndex : Int)
    (h1 : ∀ c ∈ substr ref svRec.svStartBeg svRec.svStartEnd, IsBase c)
    (h2 : ∀ c ∈ substr ref svRec.svEndBeg svRec.svEndEnd, IsBase c) :
    (svRec.chr = refIndex →
      (svRec.ct = 0 ∨ svRec.ct = 2 → _getSVRef ref svRec refIndex .TranslocationTag
          = to_upper_copy (substr ref svRec.svStartBeg svRec.svStartEnd) ++ svRec.consensus) ∧
      (svRec.ct = 1 → _getSVRef ref svRec refIndex .TranslocationTag
          = reverseComplementSpec (to_upper_copy (substr ref svRec.svStartBeg svRec.svStartEnd))
            ++ svRec.consensus) ∧
      (svRec.ct ≠ 0 ∧ svRec.ct ≠ 1 ∧ svRec.ct ≠ 2 →
        _getSVRef ref svRec refIndex .TranslocationTag
          = svRec.consensus ++ to_upper_copy (substr ref svRec.svStartBeg svRec.svStartEnd))) ∧
    (svRec.chr ≠ refIndex →
      (svRec.ct = 0 → _getSVRef ref svRec refIndex .TranslocationTag
          = reverseComplementSpec (to_upper_copy (substr ref svRec.svEndBeg svRec.svEndEnd))) ∧
      (svRec.ct ≠ 0 → _getSVRef ref svRec refIndex .TranslocationTag
          = to_upper_copy (substr ref svRec.svEndBeg svRec.svEndEnd))) := by
  refine ⟨fun hc => ⟨?_, ?_, ?_⟩, fun hc => ⟨?_, ?_⟩⟩
  · intro h
    simp only [_getSVRef, hc, if_true, if_pos h]
  · intro h
    have e : ¬ ((1 : Int) = 0 ∨ (1 : Int) = 2) := by decide
    simp only [_getSVRef, hc, h, if_true, if_neg e, revCompLoop_upper h1]
  · rintro ⟨h0, h1', h2'⟩
    have e : ¬ (svRec.ct = 0 ∨ svRec.ct = 2) := by
      rintro (h | h)
      · exact h0 h
      · exact h2' h
    simp only [_getSVRef, hc, if_true, if_neg e, if_neg h1']
  · intro h
    simp only [_getSVRef, if_neg hc, h, if_true, revCompLoop_upper h2]
  · intro h
    simp only [_getSVRef, if_neg hc, if_neg h]

/-- Witness of C10 (amended) on the buffer `acgt`: codes 1 and 3 on the chromosome of `svStart`,
code 0 on the other chromosome. -/
theorem C10_getSVRef_translocation_witness :
    _getSVRef "acgt".toList (recordTra 1) 0 .TranslocationTag = "GTAA".toList ∧
    _getSVRef "acgt".toList (recordTra 3) 0 .TranslocationTag = "AAAC".toList ∧
    _getSVRef "acgt".toList (recordTra 0) 1 .TranslocationTag = "AC".toList := by
  have h := C10_getSVRef_translocation "acgt".toList
  refine ⟨?_, ?_, ?_⟩
  · rw [((h (recordTra 1) 0 (by decide) (by decide)).1 (by decide)).2.1 (by decide)]
    decide
  · rw [((h (recordTra 3) 0 (by decide) (by decide)).1 (by decide)).2.2 (by decide)]
    decide
  · rw [((h (recordTra 0) 1 (by decide) (by decide)).2 (by decide)).1 (by decide)]
    decide


/-! ### Builder and back-mapper -/

/-- A position inside the first part of a concatenation reads the first part. -/
theorem charAt_append_left {s t : List Char} {i : Int} (h0 : 0 ≤ i) (h : i < s.length) :
    charAt (s ++ t) i = charAt s i := by
  have hi : i.toNat < s.length := by omega
  simp only [charAt, if_pos h0, List.get?_eq_getElem?]
  exact List.getElem?_append_left hi

/-- A position past the first part of a concatenation reads the second part. -/
theorem charAt_append_right {s t : List Char} {i : Int} (h : (s.length : Int) ≤ i) :
    charAt (s ++ t) i = charAt t (i - s.length) := by
  have h0 : 0 ≤ i := by omega
  have h1 : 0 ≤ i - s.length := by omega
  have hi : s.length ≤ i.toNat := by omega
  simp only [charAt, if_pos h0, if_pos h1, List.get?_eq_getElem?]
  rw [List.getElem?_append_right hi]
  congr 1
  omega

/-- The length of an upper-cased flank that lies inside the buffer. -/
theorem length_upper_substr {ref : List Char} {b e : Int} (hb : 0 ≤ b) (hbe : b ≤ e)
    (he : e ≤ ref.length) : ((to_upper_copy (substr ref b e)).length : Int) = e - b := by
  simp only [to_upper_copy, substr, List.length_map, List.length_take, List.length_drop]
  omega

/-- Position `i` of an upper-cased flank is the upper-cased buffer character at `b + i`. -/
theorem charAt_upper_substr {ref : List Char} {b e i : Int} (hb : 0 ≤ b)
    (he : e ≤ ref.length) (h0 : 0 ≤ i) (hi : i < e - b) :
    ∃ x, charAt ref (b + i) = some x ∧
      charAt (to_upper_copy (substr ref b e)) i = some x.toUpper := by
  have hlt : (b + i).toNat < ref.length := by omega
  refine ⟨ref[(b + i).toNat], ?_, ?_⟩
  · simp only [charAt, if_pos (show 0 ≤ b + i by omega), List.get?_eq_getElem?]
    exact List.getElem?_eq_getElem hlt
  · simp only [charAt, if_pos h0, to_upper_copy, substr, List.get?_eq_getElem?, List.getElem?_map]
    have h1 : i.toNat < (e - b).toNat := by omega
    rw [List.getElem?_take_of_lt h1, List.getElem?_drop]
    have h2 : b.toNat + i.toNat = (b + i).toNat := by omega
    rw [h2, List.getElem?_eq_getElem hlt]
    rfl


/-- Counterexample to C6 as stated.  On the buffer `AACCGG` with flanks `[0, 2)` and `[4, 6)` the
Deletion window is `AAGG`; the descriptor `rStart = 1, rEnd = 2` satisfies `1 <= rStart`,
`rEnd <= |W|` and is accepted with `finalGapStart = 1, finalGapEnd = 4`, but the `rEnd`-th base
of the window is `A`, the last base of flank 1, while the buffer holds `C` at
`finalGapEnd - 1`. -/
theorem C6_lockstep_counterexample :
    (0 ≤ recordLock.svStartBeg ∧ recordLock.svStartBeg ≤ recordLock.svStartEnd ∧
      recordLock.svStartEnd ≤ ("AACCGG".toList.length : Int) ∧
      0 ≤ recordLock.svEndBeg ∧ recordLock.svEndBeg ≤ recordLock.svEndEnd ∧
      recordLock.svEndEnd ≤ ("AACCGG".toList.length : Int)) ∧
    _getSVRef "AACCGG".toList recordLock 0 .DeletionTag = "AAGG".toList ∧
    _coordTransform "AAGG".toList recordLock { rStart := 1, rEnd := 2 } .DeletionTag
      = some (1, 4) ∧
    charAt "AAGG".toList (2 - 1) = some 'A' ∧
    (charAt "AACCGG".toList (4 - 1)).map Char.toUpper = some 'C' ∧
    charAt (_getSVRef "AACCGG".toList recordLock 0 .DeletionTag) (2 - 1)
      ≠ (charAt "AACCGG".toList (4 - 1)).map Char.toUpper := by
  decide

/-- C6 (amended): builder and back-mapper are in lock-step for Deletion and Duplication.  For
flanks inside the buffer, the window `W = _getSVRef`, and every descriptor with `1 <= rStart`
and `rEnd <= |W|` that `_coordTransform` accepts with `rEnd` different from `annealed`, the
`rStart`-th and `rEnd`-th bases of `W` (1-based) are the upper-cased buffer bases at
`finalGapStart - 1` and `finalGapEnd - 1` for Deletion, and at `finalGapEnd - 1` and
`finalGapStart - 1` for Duplication. -/
theorem C6_lockstep_deletion_duplication (ref : List Char) (sv : StructuralVariantRecord)
    (refIndex : Int) (ad : AlignDescriptor) (finalGapStart finalGapEnd : Int)
    (hs0 : 0 ≤ sv.svStartBeg) (hs1 : sv.svStartBeg ≤ sv.svStartEnd)
    (hs2 : sv.svStartEnd ≤ ref.length)
    (he0 : 0 ≤ sv.svEndBeg) (he1 : sv.svEndBeg ≤ sv.svEndEnd) (he2 : sv.svEndEnd ≤ ref.length)
    (hr1 : 1 ≤ ad.rStart) :
    (ad.rEnd ≤ (_getSVRef ref sv refIndex .DeletionTag).length →
      _coordTransform (_getSVRef ref sv refIndex .DeletionTag) sv ad .DeletionTag
        = some (finalGapStart, finalGapEnd) →
      ad.rEnd ≠ sv.svStartEnd - sv.svStartBeg →
      ∃ x y, charAt ref (finalGapStart - 1) = some x ∧
        charAt (_getSVRef ref sv refIndex .DeletionTag) (ad.rStart - 1) = some x.toUpper ∧
        charAt ref (finalGapEnd - 1) = some y ∧
        charAt (_getSVRef ref sv refIndex .DeletionTag) (ad.rEnd - 1) = some y.toUpper) ∧
    (ad.rEnd ≤ (_getSVRef ref sv refIndex .DuplicationTag).length →
      _coordTransform (_getSVRef ref sv refIndex .DuplicationTag) sv ad .DuplicationTag
        = some (finalGapStart, finalGapEnd) →
      ad.rEnd ≠ sv.svEndEnd - sv.svEndBeg →
      ∃ x y, charAt ref (finalGapEnd - 1) = some x ∧
        charAt (_getSVRef ref sv refIndex .DuplicationTag) (ad.rStart - 1) = some x.toUpper ∧
        charAt ref (finalGapStart - 1) = some y ∧
        charAt (_getSVRef ref sv refIndex .DuplicationTag) (ad.rEnd - 1) = some y.toUpper) := by
  have l1 := length_upper_substr hs0 hs1 hs2
  have l2 := length_upper_substr he0 he1 he2
  constructor
  · intro hlen hacc hne
    simp only [_getSVRef, List.length_append] at hlen ⊢
    simp only [_coordTransform] at hacc
    split_ifs at hacc with hg
    simp only [Option.some.injEq, Prod.mk.injEq] at hacc
    obtain ⟨rfl, rfl⟩ := hacc
    push_cast at hlen
    obtain ⟨x, hx1, hx2⟩ := @charAt_upper_substr ref sv.svStartBeg
      sv.svStartEnd (ad.rStart - 1) hs0 hs2 (by omega) (by omega)
    obtain ⟨y, hy1, hy2⟩ := @charAt_upper_substr ref sv.svEndBeg
      sv.svEndEnd (ad.rEnd - 1 - (sv.svStartEnd - sv.svStartBeg)) he0 he2
      (by omega) (by omega)
    refine ⟨x, y, ?_, ?_, ?_, ?_⟩
    · rw [← hx1]; congr 1; omega
    · rw [charAt_append_left (by omega) (by omega)]; exact hx2
    · rw [← hy1]; congr 1; omega
    · rw [charAt_append_right (by omega), l1]; exact hy2
  · intro hlen hacc hne
    simp only [_getSVRef, List.length_append] at hlen ⊢
    simp only [_coordTransform] at hacc
    split_ifs at hacc with hg
    simp only [Option.some.injEq, Prod.mk.injEq] at hacc
    obtain ⟨rfl, rfl⟩ := hacc
    push_cast at hlen
    obtain ⟨x, hx1, hx2⟩ := @charAt_upper_substr ref sv.svEndBeg
      sv.svEndEnd (ad.rStart - 1) he0 he2 (by omega) (by omega)
    obtain ⟨y, hy1, hy2⟩ := @charAt_upper_substr ref sv.svStartBeg
      sv.svStartEnd (ad.rEnd - 1 - (sv.svEndEnd - sv.svEndBeg)) hs0 hs2
      (by omega) (by omega)
    refine ⟨x, y, ?_, ?_, ?_, ?_⟩
    · rw [← hx1]; congr 1; omega
    · rw [charAt_append_left (by omega) (by omega)]; exact hx2
    · rw [← hy1]; congr 1; omega
    · rw [charAt_append_right (by omega), l2]; exact hy2

/-- Witness of C6 (amended) on the buffer `AACCGG` with flanks `[0, 2)` and `[4, 6)` and the
descriptor `rStart = 1, rEnd = 3`. -/
theorem C6_lockstep_deletion_duplication_witness :
    (∃ x y, charAt "AACCGG".toList (1 - 1) = some x ∧
        charAt (_getSVRef "AACCGG".toList recordLock 0 .DeletionTag) (1 - 1) = some x.toUpper ∧
        charAt "AACCGG".toList (5 - 1) = some y ∧
        charAt (_getSVRef "AACCGG".toList recordLock 0 .DeletionTag) (3 - 1) = some y.toUpper) ∧
    (∃ x y, charAt "AACCGG".toList (5 - 1) = some x ∧
        charAt (_getSVRef "AACCGG".toList recordLock 0 .DuplicationTag) (1 - 1) = some x.toUpper ∧
        charAt "AACCGG".toList (1 - 1) = some y ∧
        charAt (_getSVRef "AACCGG".toList recordLock 0 .DuplicationTag) (3 - 1)
          = some y.toUpper) :=
  ⟨(C6_lockstep_deletion_duplication "AACCGG".toList recordLock 0 { rStart := 1, rEnd := 3 } 1 5
      (by decide) (by decide) (by decide) (by decide) (by decide) (by decide) (by decide)).1
      (by decide) (by decide) (by decide),
   (C6_lockstep_deletion_duplication "AACCGG".toList recordLock 0 { rStart := 1, rEnd := 3 } 1 5
      (by decide) (by decide) (by decide) (by decide) (by decide) (by decide) (by decide)).2
      (by decide) (by decide) (by decide)⟩

/-! ### The scan of `_findSplit` -/

/-- The loop over columns, one column further. -/
theorem forCols_snoc {σ : Type} (body : σ → Int → Char × Char → σ) (col : Char × Char) :
    ∀ (cols : List (Char × Char)) (j : Int) (st : σ),
      forCols body (cols ++ [col]) j st = body (forCols body cols j st) (j + cols.length) col
  | [], j, st => by simp [forCols]
  | c :: cols, j, st => by
      have h := forCols_snoc body col cols (j + 1) (body st j c)
      have e : j + 1 + (cols.length : Int) = j + ((c :: cols).length : Int) := by
        simp only [List.length_cons]
        push_cast
        omega
      rw [e] at h
      exact h

/-- The first `n + 1` columns are the first `n` columns and column `n`. -/
theorem take_succ_of_get {align : Align} {n : Nat} {col : Char × Char}
    (h : align.get? n = some col) : align.take (n + 1) = align.take n ++ [col] := by
  rw [List.take_succ]
  simp only [List.get?_eq_getElem?] at h
  rw [h]
  rfl

/-- The reference counter one column further. -/
theorem consumedRef_succ {align : Align} {n : Nat} {col : Char × Char}
    (h : align.get? n = some col) :
    consumedRef (align.take (n + 1))
      = consumedRef (align.take n) + (if col.2 = '-' then 0 else 1) := by
  rw [take_succ_of_get h]
  unfold consumedRef
  rw [List.countP_append]
  by_cases hc : col.2 = '-' <;> simp [List.countP_cons, hc]

/-- The consensus counter one column further. -/
theorem consumedVar_succ {align : Align} {n : Nat} {col : Char × Char}
    (h : align.get? n = some col) :
    consumedVar (align.take (n + 1))
      = consumedVar (align.take n) + (if col.1 = '-' then 0 else 1) := by
  rw [take_succ_of_get h]
  unfold consumedVar
  rw [List.countP_append]
  by_cases hc : col.1 = '-' <;> simp [List.countP_cons, hc]

/-- The reference counter grows with the prefix. -/
theorem consumedRef_mono (align : Align) {a b : Nat} (h : a ≤ b) :
    consumedRef (align.take a) ≤ consumedRef (align.take b) := by
  unfold consumedRef
  exact List.Sublist.countP_le _ (List.take_sublist_take_left align h)

/-- The consensus counter grows with the prefix. -/
theorem consumedVar_mono (align : Align) {a b : Nat} (h : a ≤ b) :
    consumedVar (align.take a) ≤ consumedVar (align.take b) := by
  unfold consumedVar
  exact List.Sublist.countP_le _ (List.take_sublist_take_left align h)
/-- The body of the scan at an internal-gap column. -/
theorem findSplitBody_gap {svt : SVType} {st : SplitState} {j : Int} {col : Char × Char}
    {v r : Int}
    (hv : (if col.1 ≠ '-' then st.varIndex + 1 else st.varIndex) = v)
    (hr : (if col.2 ≠ '-' then st.refIndex + 1 else st.refIndex) = r)
    (hgap : (col.1 = '-' ∨ col.2 = '-') ∧ r > 0 ∧ v > 0) :
    findSplitBody svt st j col =
      if st.inGap = true then { st with varIndex := v, refIndex := r }
      else
        { st with
          varIndex := v
          refIndex := r
          gapStartVarIndex := if col.1 ≠ '-' then v - 1 else v
          gapStartRefIndex := if col.2 ≠ '-' then r - 1 else r
          a1 := j
          inGap := true } := by
  unfold findSplitBody
  simp only [hv, hr]
  rw [if_pos hgap]
  cases st.inGap <;> simp

/-- The comparator `_checkSVGap`, as a comparison of the lengths of the two descriptors. -/
theorem checkSVGap_eq (svt : SVType) (ad : AlignDescriptor) (r gr v gv : Int) :
    _checkSVGap (r - gr) (ad.rEnd - ad.rStart) (v - gv) (ad.cEnd - ad.cStart) svt
      = decide (gapLength svt ad
          < gapLength svt { ad with rStart := gr, rEnd := r, cStart := gv, cEnd := v }) := by
  cases svt <;> simp [_checkSVGap, gapLength]

/-- The body of the scan at a column that is no internal-gap column. -/
theorem findSplitBody_noGap {svt : SVType} {st : SplitState} {j : Int} {col : Char × Char}
    {v r : Int}
    (hv : (if col.1 ≠ '-' then st.varIndex + 1 else st.varIndex) = v)
    (hr : (if col.2 ≠ '-' then st.refIndex + 1 else st.refIndex) = r)
    (hgap : ¬ ((col.1 = '-' ∨ col.2 = '-') ∧ r > 0 ∧ v > 0)) :
    findSplitBody svt st j col =
      if st.inGap = true ∧ gapLength svt st.ad
          < gapLength svt { st.ad with rStart := st.gapStartRefIndex, rEnd := r,
                                       cStart := st.gapStartVarIndex, cEnd := v } then
        { st with
          varIndex := v
          refIndex := r
          ad := { st.ad with rStart := st.gapStartRefIndex, rEnd := r,
                             cStart := st.gapStartVarIndex, cEnd := v }
          gS := st.a1
          gE := j - 1
          inGap := false }
      else { st with varIndex := v, refIndex := r, inGap := false } := by
  unfold findSplitBody
  simp only [hv, hr]
  rw [if_neg hgap, checkSVGap_eq]
  simp only [decide_eq_true_eq]
/-- Column `n` is an internal-gap column exactly when the scan's test holds there. -/
theorem internalGapColumn_iff {align : Align} {n : Nat} {col : Char × Char}
    (h : align.get? n = some col) :
    InternalGapColumn align n ↔
      IsGapColumn col ∧ 0 < consumedRef (align.take (n + 1))
        ∧ 0 < consumedVar (align.take (n + 1)) := by
  constructor
  · rintro ⟨c, hc, hg⟩
    rw [h] at hc
    cases hc
    exact hg
  · intro hg
    exact ⟨col, h, hg⟩

/-- An internal-gap column is a column of the grid. -/
theorem InternalGapColumn.lt_length {align : Align} {k : Nat} (h : InternalGapColumn align k) :
    k < align.length := by
  obtain ⟨c, hc, _⟩ := h
  simp only [List.get?_eq_getElem?] at hc
  exact (List.getElem?_eq_some.mp hc).1

/-- The first column is no internal-gap column. -/
theorem not_internalGapColumn_zero (align : Align) : ¬ InternalGapColumn align 0 := by
  rintro ⟨c, hc, hg, hr, hv⟩
  rw [consumedRef_succ hc] at hr
  rw [consumedVar_succ hc] at hv
  simp only [List.take_zero, consumedRef, consumedVar, List.countP_nil, Nat.zero_add] at hr hv
  rcases hg with hg | hg
  · simp [hg] at hv
  · simp [hg] at hr

/-- The column that closes a gap holds a base in both rows. -/
theorem ClosedGap.closing {align : Align} {a b : Nat} (h : ClosedGap align a b) :
    ∃ col, align.get? (b + 1) = some col ∧ col.1 ≠ '-' ∧ col.2 ≠ '-' := by
  obtain ⟨hab, hlen, hrun, _, hend⟩ := h
  have hget : align.get? (b + 1) = some align[b + 1] := by
    simp only [List.get?_eq_getElem?]
    exact List.getElem?_eq_getElem hlen
  refine ⟨align[b + 1], hget, ?_⟩
  obtain ⟨c, _, _, hr, hv⟩ := hrun b hab (Nat.le_refl b)
  have hr2 := Nat.lt_of_lt_of_le hr (consumedRef_mono align (Nat.le_succ (b + 1)))
  have hv2 := Nat.lt_of_lt_of_le hv (consumedVar_mono align (Nat.le_succ (b + 1)))
  have hn : ¬ IsGapColumn align[b + 1] := fun hg =>
    hend ((internalGapColumn_iff hget).mpr ⟨hg, hr2, hv2⟩)
  unfold IsGapColumn at hn
  push_neg at hn
  exact hn

/-- A closed gap starts after the first column. -/
theorem ClosedGap.one_le {align : Align} {a b : Nat} (h : ClosedGap align a b) : 1 ≤ a := by
  obtain ⟨hab, _, hrun, _, _⟩ := h
  rcases Nat.eq_zero_or_pos a with h0 | h0
  · subst h0
    exact absurd (hrun 0 (Nat.le_refl 0) hab) (not_internalGapColumn_zero align)
  · exact h0

/-- Both sides of a closed gap are non-empty: the closing column counts on either row. -/
theorem ClosedGap.lengths {align : Align} {a b : Nat} (h : ClosedGap align a b) :
    consumedRef (align.take a) + 1 ≤ consumedRef (align.take (b + 2)) ∧
    consumedVar (align.take a) + 1 ≤ consumedVar (align.take (b + 2)) := by
  obtain ⟨col, hget, h1, h2⟩ := h.closing
  have hr := consumedRef_succ hget
  have hv := consumedVar_succ hget
  rw [if_neg h2, show b + 1 + 1 = b + 2 from rfl] at hr
  rw [if_neg h1, show b + 1 + 1 = b + 2 from rfl] at hv
  have hab : a ≤ b + 1 := Nat.le_succ_of_le h.1
  have mr := consumedRef_mono align hab
  have mv := consumedVar_mono align hab
  constructor <;> omega

/-- The length the comparator looks at is positive for a closed gap. -/
theorem ClosedGap.gapLength_pos {align : Align} {a b : Nat} (h : ClosedGap align a b)
    (svt : SVType) : 1 ≤ gapLength svt (gapDescriptor align a b) := by
  obtain ⟨hr, hv⟩ := h.lengths
  cases svt <;> simp only [gapLength, gapDescriptor] <;> omega

/-- The comparator's length of the fresh descriptor is zero. -/
theorem gapLength_fresh (svt : SVType) : gapLength svt {} = 0 := by
  cases svt <;> rfl

/-- The invariant holds before the first column. -/
theorem scanInv_init (svt : SVType) (align : Align) : ScanInv svt align 0 { ad := {} } where
  refIdx := by simp [consumedRef]
  varIdx := by simp [consumedVar]
  opened := by intro h; cases h
  closed := by intro _ k hk; omega
  best := Or.inl ⟨rfl, fun _ _ _ => Nat.zero_le _⟩

/-- The invariant is kept by one iteration of the scan. -/
theorem scanInv_step {svt : SVType} {align : Align} {n : Nat} {st : SplitState}
    {col : Char × Char} (h : ScanInv svt align n st) (hcol : align.get? n = some col) :
    ScanInv svt align (n + 1) (findSplitBody svt st n col) := by
  have hn : n < align.length := by
    simp only [List.get?_eq_getElem?] at hcol
    exact (List.getElem?_eq_some.mp hcol).1
  have hrs := consumedRef_succ hcol
  have hvs := consumedVar_succ hcol
  have hv : (if col.1 ≠ '-' then st.varIndex + 1 else st.varIndex)
      = (consumedVar (align.take (n + 1)) : Int) := by
    rw [hvs, h.varIdx]
    by_cases hc : col.1 = '-' <;> simp [hc]
  have hr : (if col.2 ≠ '-' then st.refIndex + 1 else st.refIndex)
      = (consumedRef (align.take (n + 1)) : Int) := by
    rw [hrs, h.refIdx]
    by_cases hc : col.2 = '-' <;> simp [hc]
  have higc := internalGapColumn_iff hcol
  by_cases hgap : InternalGapColumn align n
  · -- column `n` opens or extends a gap
    have hgap2 : (col.1 = '-' ∨ col.2 = '-') ∧ (consumedRef (align.take (n + 1)) : Int) > 0
        ∧ (consumedVar (align.take (n + 1)) : Int) > 0 := by
      obtain ⟨h1, h2, h3⟩ := higc.mp hgap
      exact ⟨h1, by omega, by omega⟩
    rw [findSplitBody_gap hv hr hgap2]
    have hbest : ∀ a b, ClosedGap align a b → b + 1 ≠ n := by
      intro a b hab he
      exact hab.2.2.2.2 (he ▸ hgap)
    cases hin : st.inGap
    · rw [if_neg (by simp)]
      refine ⟨rfl, rfl, ?_, ?_, ?_⟩
      · intro _
        refine ⟨n, rfl, Nat.lt_succ_self n, ?_, ?_, ?_, ?_⟩
        · intro k hk1 hk2
          have : k = n := by omega
          exact this ▸ hgap
        · exact h.closed hin
        · show (if col.2 ≠ '-' then _ else _) = _
          rw [hrs]
          by_cases hc : col.2 = '-' <;> simp [hc]
        · show (if col.1 ≠ '-' then _ else _) = _
          rw [hvs]
          by_cases hc : col.1 = '-' <;> simp [hc]
      · intro hf
        cases hf
      · rcases h.best with ⟨had, hnone⟩ | ⟨a, b, hab, hb, hgS, hgE, had, hmax⟩
        · refine Or.inl ⟨had, fun a b hab => ?_⟩
          have := hnone a b hab
          have := hbest a b hab
          omega
        · refine Or.inr ⟨a, b, hab, by omega, hgS, hgE, had, fun a1 b1 hab1 hb1 => ?_⟩
          have := hbest a1 b1 hab1
          exact hmax a1 b1 hab1 (by omega)
    · rw [if_pos rfl]
      obtain ⟨a, ha1, han, hrun, hleft, hgr, hgv⟩ := h.opened hin
      refine ⟨rfl, rfl, ?_, ?_, ?_⟩
      · intro _
        refine ⟨a, ha1, by omega, ?_, hleft, hgr, hgv⟩
        intro k hk1 hk2
        rcases Nat.lt_or_ge k n with hlt | hge
        · exact hrun k hk1 hlt
        · have : k = n := by omega
          exact this ▸ hgap
      · intro hf
        cases hf
      · rcases h.best with ⟨had, hnone⟩ | ⟨a, b, hab, hb, hgS, hgE, had, hmax⟩
        · refine Or.inl ⟨had, fun a b hab => ?_⟩
          have := hnone a b hab
          have := hbest a b hab
          omega
        · refine Or.inr ⟨a, b, hab, by omega, hgS, hgE, had, fun a1 b1 hab1 hb1 => ?_⟩
          have := hbest a1 b1 hab1
          exact hmax a1 b1 hab1 (by omega)
  · -- column `n` is no internal-gap column
    have hgap2 : ¬ ((col.1 = '-' ∨ col.2 = '-') ∧ (consumedRef (align.take (n + 1)) : Int) > 0
        ∧ (consumedVar (align.take (n + 1)) : Int) > 0) := by
      rintro ⟨h1, h2, h3⟩
      exact hgap (higc.mpr ⟨h1, by omega, by omega⟩)
    rw [findSplitBody_noGap hv hr hgap2]
    have hclosed : ∀ k, k + 1 = n + 1 → ¬ InternalGapColumn align k := by
      intro k hk
      have : k = n := by omega
      exact this ▸ hgap
    cases hin : st.inGap
    · rw [if_neg (by simp)]
      have hnew : ∀ a b, ClosedGap align a b → b + 1 ≠ n := by
        intro a b hab he
        exact h.closed hin b he (hab.2.2.1 b hab.1 (Nat.le_refl b))
      refine ⟨rfl, rfl, (fun hf => by cases hf), fun _ => hclosed, ?_⟩
      rcases h.best with ⟨had, hnone⟩ | ⟨a, b, hab, hb, hgS, hgE, had, hmax⟩
      · refine Or.inl ⟨had, fun a b hab => ?_⟩
        have := hnone a b hab
        have := hnew a b hab
        omega
      · refine Or.inr ⟨a, b, hab, by omega, hgS, hgE, had, fun a1 b1 hab1 hb1 => ?_⟩
        have := hnew a1 b1 hab1
        exact hmax a1 b1 hab1 (by omega)
    · obtain ⟨a, ha1, han, hrun, hleft, hgr, hgv⟩ := h.opened hin
      have e1 : n - 1 + 1 = n := by omega
      have e2 : n - 1 + 2 = n + 1 := by omega
      have hcg : ClosedGap align a (n - 1) :=
        ⟨by omega, by omega, fun k hk1 hk2 => hrun k hk1 (by omega), hleft, by rw [e1]; exact hgap⟩
      have huniq : ∀ a1 b1, ClosedGap align a1 b1 → b1 + 1 = n → a1 = a ∧ b1 = n - 1 := by
        intro a1 b1 hab1 hb1
        refine ⟨?_, by omega⟩
        have hle := hab1.1
        rcases Nat.lt_trichotomy a1 a with hlt | heq | hgt
        · exact absurd (hab1.2.2.1 (a - 1) (by omega) (by omega)) (hleft (a - 1) (by omega))
        · exact heq
        · exact absurd (hrun (a1 - 1) (by omega) (by omega)) (hab1.2.2.2.1 (a1 - 1) (by omega))
      have hdesc : ({ st.ad with
            rStart := st.gapStartRefIndex, rEnd := (consumedRef (align.take (n + 1)) : Int),
            cStart := st.gapStartVarIndex, cEnd := (consumedVar (align.take (n + 1)) : Int) }
              : AlignDescriptor)
          = gapDescriptor align a (n - 1) := by
        rcases h.best with ⟨had, -⟩ | ⟨_, _, _, _, _, _, had, -⟩ <;> rw [had] <;>
          simp only [gapDescriptor, hgr, hgv, e2]
      rw [hdesc]
      by_cases hlt : gapLength svt st.ad < gapLength svt (gapDescriptor align a (n - 1))
      · rw [if_pos ⟨rfl, hlt⟩]
        refine ⟨rfl, rfl, (fun hf => by cases hf), fun _ => hclosed,
          Or.inr ⟨a, n - 1, hcg, by omega, ha1, ?_, rfl, ?_⟩⟩
        · show (n : Int) - 1 = ((n - 1 : Nat) : Int)
          omega
        · intro a1 b1 hab1 hb1
          rcases Nat.lt_or_ge (b1 + 1) n with hlt1 | hge1
          · rcases h.best with ⟨had, hnone⟩ | ⟨a0, b0, hab0, hb0, _, _, had, hmax⟩
            · have := hnone a1 b1 hab1
              omega
            · have := (hmax a1 b1 hab1 hlt1).1
              rw [had] at hlt
              exact ⟨by omega, fun he => by omega⟩
          · obtain ⟨rfl, rfl⟩ := huniq a1 b1 hab1 (by omega)
            exact ⟨le_refl _, fun _ => le_refl _⟩
      · rw [if_neg (fun hc => hlt hc.2)]
        refine ⟨rfl, rfl, (fun hf => by cases hf), fun _ => hclosed, ?_⟩
        rcases h.best with ⟨had, hnone⟩ | ⟨a0, b0, hab0, hb0, hgS, hgE, had, hmax⟩
        · exfalso
          rw [had, gapLength_fresh] at hlt
          have := hcg.gapLength_pos svt
          omega
        · refine Or.inr ⟨a0, b0, hab0, by omega, hgS, hgE, had, ?_⟩
          intro a1 b1 hab1 hb1
          rcases Nat.lt_or_ge (b1 + 1) n with hlt1 | hge1
          · exact hmax a1 b1 hab1 hlt1
          · obtain ⟨rfl, rfl⟩ := huniq a1 b1 hab1 (by omega)
            rw [had] at hlt
            refine ⟨by omega, fun _ => ?_⟩
            by_contra hcon
            have hle0 := hab0.1
            exact hab0.2.2.2.2 (hrun (b0 + 1) (by omega) hb0)

/-- The invariant holds after each prefix of the grid. -/
theorem scanInv_take (svt : SVType) (align : Align) :
    ∀ n, n ≤ align.length →
      ScanInv svt align n (forCols (findSplitBody svt) (align.take n) 0 { ad := {} })
  | 0, _ => by
      rw [List.take_zero]
      exact scanInv_init svt align
  | n + 1, hn => by
      have hlt : n < align.length := hn
      have hget : align.get? n = some align[n] := by
        simp only [List.get?_eq_getElem?]
        exact List.getElem?_eq_getElem hlt
      have ih := scanInv_take svt align n (Nat.le_of_lt hlt)
      rw [take_succ_of_get hget, forCols_snoc]
      have hl : (0 : Int) + ((align.take n).length : Int) = (n : Int) := by
        rw [List.length_take, Nat.min_eq_left (Nat.le_of_lt hlt)]
        omega
      rw [hl]
      exact scanInv_step ih hget

/-- The invariant holds at the end of the scan. -/
theorem scanInv_final (svt : SVType) (align : Align) :
    ScanInv svt align align.length (findSplitScan svt align {}) := by
  have h := scanInv_take svt align align.length (Nat.le_refl _)
  rw [List.take_length] at h
  exact h

/-- What the scan of `_findSplit` leaves behind when started with a fresh descriptor: the fresh
descriptor when the grid has no closed internal gap, and otherwise the column range and the
descriptor of the leftmost closed gap of maximal length. -/
theorem findSplitScan_best (svt : SVType) (align : Align) :
    ((findSplitScan svt align {}).ad = {} ∧ ∀ a b, ¬ ClosedGap align a b) ∨
    ∃ a b : Nat, ClosedGap align a b ∧
      (findSplitScan svt align {}).gS = a ∧ (findSplitScan svt align {}).gE = b ∧
      (findSplitScan svt align {}).ad = gapDescriptor align a b ∧
      ∀ a1 b1, ClosedGap align a1 b1 →
        gapLength svt (gapDescriptor align a1 b1) ≤ gapLength svt (gapDescriptor align a b) ∧
        (gapLength svt (gapDescriptor align a1 b1) = gapLength svt (gapDescriptor align a b) →
          a ≤ a1) := by
  rcases (scanInv_final svt align).best with ⟨had, hnone⟩ | ⟨a, b, hab, hb, hgS, hgE, had, hmax⟩
  · refine Or.inl ⟨had, fun a b hab => ?_⟩
    have := hnone a b hab
    have := hab.2.1
    omega
  · exact Or.inr ⟨a, b, hab, hgS, hgE, had, fun a1 b1 hab1 => hmax a1 b1 hab1 hab1.2.1⟩

/-- The counters of the scan after the last column. -/
theorem findSplitScan_counters (svt : SVType) (align : Align) :
    (findSplitScan svt align {}).refIndex = consumedRef align ∧
    (findSplitScan svt align {}).varIndex = consumedVar align := by
  have h := scanInv_final svt align
  have hr := h.refIdx
  have hv := h.varIdx
  rw [List.take_length] at hr hv
  exact ⟨hr, hv⟩

/-- C7: largest gap wins, first on ties.  After the scan of `_findSplit` on a fresh descriptor,
if the grid has a closed internal gap then the descriptor and the column range are those of a
closed internal gap whose length is maximal among all closed internal gaps and which is the
leftmost of that length, where the length is the reference-side length `rEnd - rStart` for
every type except Insertion and the consensus-side length `cEnd - cStart` for Insertion; if the
grid has no closed internal gap, `_findSplit` returns false. -/
theorem C7_largest_gap_first_on_ties (svt : SVType) (align : Align) :
    ((∃ a b, ClosedGap align a b) →
      ∃ a b : Nat, ClosedGap align a b ∧
        (findSplitScan svt align {}).ad = gapDescriptor align a b ∧
        (findSplitScan svt align {}).gS = a ∧ (findSplitScan svt align {}).gE = b ∧
        ∀ a1 b1, ClosedGap align a1 b1 →
          (svt ≠ .InsertionTag →
            (gapDescriptor align a1 b1).rEnd - (gapDescriptor align a1 b1).rStart
                ≤ (gapDescriptor align a b).rEnd - (gapDescriptor align a b).rStart ∧
            ((gapDescriptor align a1 b1).rEnd - (gapDescriptor align a1 b1).rStart
                = (gapDescriptor align a b).rEnd - (gapDescriptor align a b).rStart → a ≤ a1)) ∧
          (svt = .InsertionTag →
            (gapDescriptor align a1 b1).cEnd - (gapDescriptor align a1 b1).cStart
                ≤ (gapDescriptor align a b).cEnd - (gapDescriptor align a b).cStart ∧
            ((gapDescriptor align a1 b1).cEnd - (gapDescriptor align a1 b1).cStart
                = (gapDescriptor align a b).cEnd - (gapDescriptor align a b).cStart → a ≤ a1))) ∧
    ((¬ ∃ a b, ClosedGap align a b) →
      ∀ c : Config, ∃ ad, _findSplit c align {} svt = some (false, ad)) := by
  constructor
  · rintro ⟨a0, b0, h0⟩
    rcases findSplitScan_best svt align with ⟨_, hnone⟩ | ⟨a, b, hab, hgS, hgE, had, hmax⟩
    · exact absurd h0 (hnone a0 b0)
    · refine ⟨a, b, hab, had, hgS, hgE, fun a1 b1 hab1 => ⟨fun hs => ?_, fun hs => ?_⟩⟩
      · have := hmax a1 b1 hab1
        cases svt <;> first | exact absurd rfl hs | exact this
      · have := hmax a1 b1 hab1
        subst hs
        exact this
  · intro hno c
    rcases findSplitScan_best svt align with ⟨had, _⟩ | ⟨a, b, hab, _⟩
    · refine ⟨{}, ?_⟩
      unfold _findSplit
      simp only [had]
      rfl
    · exact absurd ⟨a, b, hab⟩ hno

/-- Witness of C7 on a grid with two closed gaps of reference-side length 2, at columns 2 and
5: the scan keeps the first; and on the empty grid, which has no closed gap, `_findSplit`
returns false. -/
theorem C7_largest_gap_first_on_ties_witness :
    (∃ a b : Nat, ClosedGap gridTie a b ∧
        (findSplitScan .DeletionTag gridTie {}).ad = gapDescriptor gridTie a b ∧
        (findSplitScan .DeletionTag gridTie {}).gS = a ∧
        (findSplitScan .DeletionTag gridTie {}).gE = b ∧ a ≤ 5) ∧
    (∃ ad, _findSplit (configDel "illumina") [] {} .InsertionTag = some (false, ad)) :=
  ⟨match (C7_largest_gap_first_on_ties .DeletionTag gridTie).1 ⟨2, 2, by decide⟩ with
    | ⟨a, b, h1, h2, h3, h4, h5⟩ =>
      ⟨a, b, h1, h2, h3, h4, ((h5 5 5 (by decide)).1 (by decide)).2 (by
        rw [← h2]
        decide)⟩,
   (C7_largest_gap_first_on_ties .InsertionTag []).2
      (fun ⟨a, b, h⟩ => absurd h.2.1 (by simp)) (configDel "illumina")⟩

/-! ### The homology walk and the accepted gap -/

/-- A homology loop never lowers its counter. -/
theorem homologyLoop_ge (x : Int → Option Char) (y yTry : Int → Int → Option Char) :
    ∀ (n : Nat) (i mismatch offset hom h : Int),
      homologyLoop x y yTry n i mismatch offset hom = some h → hom ≤ h
  | 0, _, _, _, hom, h, hh => by
      simp only [homologyLoop, Option.some.injEq] at hh
      omega
  | n + 1, i, mismatch, offset, hom, h, hh => by
      unfold homologyLoop at hh
      split at hh
      · rename_i a b _ _
        simp only at hh
        generalize (if a ≠ b then mismatch + 1 else mismatch) = m at hh
        split_ifs at hh with h1 h2
        · split at hh
          · split_ifs at hh with h3
            · have := homologyLoop_ge x y yTry n _ _ _ _ _ hh
              omega
            · simp only [Option.some.injEq] at hh
              omega
          · cases hh
        · simp only [Option.some.injEq] at hh
          omega
        · have := homologyLoop_ge x y yTry n _ _ _ _ _ hh
          omega
      · cases hh

/-- A homology loop that starts without mismatches and has an iteration to run counts its first
compared pair, whether it matches or not. -/
theorem homologyLoop_first (x : Int → Option Char) (y yTry : Int → Int → Option Char)
    (n : Nat) (i offset hom h : Int)
    (hh : homologyLoop x y yTry (n + 1) i 0 offset hom = some h) : hom + 1 ≤ h := by
  unfold homologyLoop at hh
  split at hh
  · rename_i a b _ _
    simp only at hh
    have hm : ¬ ((if a ≠ b then (0 : Int) + 1 else 0) > 1) := by
      split_ifs <;> omega
    rw [if_neg hm] at hh
    exact homologyLoop_ge x y yTry n _ _ _ _ _ hh
  · cases hh


/-- When the walk of `_findHomology` starts at a gap column that is not the first column, the
left homology counter grows by at least one. -/
theorem findHomology_left_pos {align : Align} {gS gE homLeft homRight hl hr : Int}
    {col : Char × Char}
    (h : _findHomology align gS gE homLeft homRight = some (hl, hr)) (hgS : 1 ≤ gS)
    (hcol : align.get? gS.toNat = some col) (hgap : IsGapColumn col) : homLeft + 1 ≤ hl := by
  have h0 : 0 ≤ gS := by omega
  obtain ⟨n, hn⟩ : ∃ n, gS.toNat = n + 1 := ⟨gS.toNat - 1, by omega⟩
  have e1 : align.at1 gS = some col.2 := by
    unfold Align.at1
    rw [if_pos h0, hcol]
    rfl
  have e0 : align.at0 gS = some col.1 := by
    unfold Align.at0
    rw [if_pos h0, hcol]
    rfl
  unfold _findHomology at h
  rw [e1] at h
  simp only [hn] at h
  by_cases hc : col.2 = '-'
  · rw [if_pos hc] at h
    split at h
    · cases h
    · rename_i hl1 hleft
      split at h
      · cases h
      · simp only [Option.some.injEq, Prod.mk.injEq] at h
        rw [← h.1]
        exact homologyLoop_first _ _ _ _ _ _ _ _ hleft
  · rw [if_neg hc, e0] at h
    have hc0 : col.1 = '-' := by
      rcases hgap with hg | hg
      · exact hg
      · exact absurd hg hc
    simp only [if_pos hc0] at h
    split at h
    · cases h
    · rename_i hl1 hleft
      split at h
      · cases h
      · simp only [Option.some.injEq, Prod.mk.injEq] at h
        rw [← h.1]
        exact homologyLoop_first _ _ _ _ _ _ _ _ hleft

/-- C8: an accepted breakpoint gap is internal with strictly ordered indices.  For every grid,
SV type and configuration with `minimumFlankSize >= 0`, when `_findSplit` called with a fresh
descriptor returns true, the descriptor has `cStart >= 1`, `rStart >= 1`, `cStart < cEnd` and
`rStart < rEnd`. -/
theorem C8_accepted_gap_is_internal (c : Config) (align : Align) (svt : SVType)
    (ad : AlignDescriptor) (hflank : 0 ≤ c.minimumFlankSize)
    (h : _findSplit c align {} svt = some (true, ad)) :
    1 ≤ ad.cStart ∧ 1 ≤ ad.rStart ∧ ad.cStart < ad.cEnd ∧ ad.rStart < ad.rEnd := by
  unfold _findSplit at h
  rcases findSplitScan_best svt align with ⟨had, _⟩ | ⟨a, b, hab, hgS, hgE, had, _⟩
  · simp only [had] at h
    rw [if_pos (show (({} : AlignDescriptor).rEnd ≤ ({} : AlignDescriptor).rStart) from le_refl _)]
      at h
    cases h
  · obtain ⟨hlr, hlv⟩ := hab.lengths
    have ha1 := hab.one_le
    obtain ⟨col, hcol, hgap, _, _⟩ := hab.2.2.1 a (Nat.le_refl a) hab.1
    simp only [had, hgS, hgE] at h
    split_ifs at h with h1 h2 h3 <;> try cases h
    split at h
    · cases h
    · rename_i hl hr hhom
      have hpos := findHomology_left_pos hhom (by omega) (by simpa using hcol) hgap
      simp only [gapDescriptor] at hpos
      split_ifs at h with h4 h5 <;> try cases h
      simp only [gapDescriptor] at h4 h5 ⊢
      push_neg at h4 h5
      refine ⟨by omega, by omega, by omega, by omega⟩

/-- Witness of C8 with `minimumFlankSize = 0`: the 16 bp deletion grid is accepted with
`cStart = 4, cEnd = 5, rStart = 4, rEnd = 21`. -/
theorem C8_accepted_gap_is_internal_witness :
    _findSplit { minimumFlankSize := 0, flankQuality := ⟨9, 10⟩, technology := "illumina" }
        gridDel16 {} .DeletionTag
      = some (true, { cStart := 4, cEnd := 5, rStart := 4, rEnd := 21, homLeft := 1,
                      homRight := 1, percId := ⟨12, 12⟩ }) ∧
    (1 : Int) ≤ 4 ∧ (1 : Int) ≤ 4 ∧ (4 : Int) < 5 ∧ (4 : Int) < 21 :=
  ⟨by decide,
   C8_accepted_gap_is_internal
    { minimumFlankSize := 0, flankQuality := ⟨9, 10⟩, technology := "illumina" } gridDel16
    .DeletionTag
    { cStart := 4, cEnd := 5, rStart := 4, rEnd := 21, homLeft := 1, homRight := 1,
      percId := ⟨12, 12⟩ }
    (by decide) (by decide)⟩

/-! ### Deletion size -/

/-- Over a run of columns that hold a reference base the reference counter grows by the number
of columns. -/
theorem consumedRef_run (align : Align) (a : Nat) :
    ∀ d : Nat, (∀ k, a ≤ k → k < a + d → ∃ col, align.get? k = some col ∧ col.2 ≠ '-') →
      consumedRef (align.take (a + d)) = consumedRef (align.take a) + d
  | 0, _ => rfl
  | d + 1, h => by
      obtain ⟨col, hcol, hne⟩ := h (a + d) (by omega) (by omega)
      have ih := consumedRef_run align a d (fun k h1 h2 => h k h1 (by omega))
      have hs := consumedRef_succ hcol
      rw [if_neg hne, ih] at hs
      rw [show a + (d + 1) = a + d + 1 from rfl, hs]
      omega

/-- The only closed gap of `gridDel2` is the one in columns 2 and 3. -/
theorem gridDel2_only (a b : Nat) (h : ClosedGap gridDel2 a b) : a = 2 ∧ b = 2 + 2 - 1 := by
  have hb : b < 5 := by
    have h1 : b + 1 < 6 := h.2.1
    omega
  have ha : a ≤ b := h.1
  revert h
  interval_cases b <;> interval_cases a <;> decide

/-- Counterexample to C3 as stated.  The grid `AA--GG` over `AACCGG` has a single closed gap,
`D = 2` columns with a gap in the consensus row, and the candidate's adjacent flanks `[0, 3)` and
`[3, 6)` meet inside it; the scan's descriptor is mapped to `finalGapStart = 2` and
`finalGapEnd = 5`, whose difference is 3, not 2. -/
theorem C3_deletion_size_counterexample :
    recordAdjacent.svStartEnd = recordAdjacent.svEndBeg ∧
    ClosedGap gridDel2 2 (2 + 2 - 1) ∧
    (∀ a1 b1, ClosedGap gridDel2 a1 b1 → a1 = 2 ∧ b1 = 2 + 2 - 1) ∧
    (∀ k, 2 ≤ k → k < 2 + 2 → ∃ col, gridDel2.get? k = some col ∧ col.1 = '-' ∧ col.2 ≠ '-') ∧
    ∃ finalGapStart finalGapEnd,
      _coordTransform (_getSVRef "AACCGG".toList recordAdjacent 0 .DeletionTag) recordAdjacent
        (findSplitScan .DeletionTag gridDel2 {}).ad .DeletionTag
        = some (finalGapStart, finalGapEnd) ∧
      finalGapStart = 2 ∧ finalGapEnd = 5 ∧ finalGapEnd - finalGapStart ≠ ((2 : Nat) : Int) := by
  refine ⟨by decide, by decide, gridDel2_only, ?_, 2, 5, by decide, rfl, rfl, by decide⟩
  intro k h1 h2
  interval_cases k <;> exact ⟨_, rfl, by decide, by decide⟩

/-- C3 (amended): deletion size recovery.  For a Deletion candidate with adjacent flanks
(`svStartEnd = svEndBeg`) and a grid whose only closed internal gap is a run of `D` columns with
a gap in the consensus row over reference bases, placed so that the back-mapper's gate holds
(`rStart < annealed <= rStart + D + 1`, with `rStart` the reference bases before the run), the
descriptor found by the scan of `_findSplit` is accepted by the Deletion `_coordTransform` and
`finalGapEnd - finalGapStart = D + 1`: the difference counts the base that closes the gap. -/
theorem C3_deletion_size (ref : List Char) (sv : StructuralVariantRecord) (refIndex : Int)
    (align : Align) (a D : Nat)
    (hadj : sv.svStartEnd = sv.svEndBeg)
    (hgap : ClosedGap align a (a + D - 1))
    (honly : ∀ a1 b1, ClosedGap align a1 b1 → a1 = a ∧ b1 = a + D - 1)
    (hdel : ∀ k, a ≤ k → k < a + D → ∃ col, align.get? k = some col ∧ col.1 = '-' ∧ col.2 ≠ '-')
    (hleft : (consumedRef (align.take a) : Int) < sv.svStartEnd - sv.svStartBeg)
    (hright : sv.svStartEnd - sv.svStartBeg ≤ (consumedRef (align.take a) : Int) + D + 1) :
    ∃ finalGapStart finalGapEnd,
      _coordTransform (_getSVRef ref sv refIndex .DeletionTag) sv
        (findSplitScan .DeletionTag align {}).ad .DeletionTag
        = some (finalGapStart, finalGapEnd) ∧
      finalGapEnd - finalGapStart = D + 1 := by
  have hrun := consumedRef_run align a D
    (fun k h1 h2 => (hdel k h1 h2).imp (fun col hc => ⟨hc.1, hc.2.2⟩))
  obtain ⟨col, hcol, _, hc2⟩ := hgap.closing
  have ha1 := hgap.one_le
  have e1 : a + D - 1 + 1 = a + D := by omega
  have e2 : a + D - 1 + 2 = a + D + 1 := by omega
  have hs := consumedRef_succ hcol
  rw [if_neg hc2, e1, hrun] at hs
  rcases findSplitScan_best .DeletionTag align with ⟨_, hnone⟩ | ⟨a1, b1, hab, _, _, had, _⟩
  · exact absurd hgap (hnone _ _)
  · obtain ⟨rfl, rfl⟩ := honly a1 b1 hab
    rw [had]
    simp only [_coordTransform, gapDescriptor, e2, hs]
    rw [if_neg (by push_cast; omega)]
    refine ⟨_, _, rfl, ?_⟩
    push_cast
    omega

/-- Witness of C3 (amended) on the grid `AA--GG` over `AACCGG` with `D = 2`. -/
theorem C3_deletion_size_witness :
    ∃ finalGapStart finalGapEnd,
      _coordTransform (_getSVRef "AACCGG".toList recordAdjacent 0 .DeletionTag) recordAdjacent
        (findSplitScan .DeletionTag gridDel2 {}).ad .DeletionTag
        = some (finalGapStart, finalGapEnd) ∧
      finalGapEnd - finalGapStart = (2 : Nat) + 1 :=
  C3_deletion_size "AACCGG".toList recordAdjacent 0 gridDel2 2 2 (by decide)
    (by decide) gridDel2_only
    (fun k h1 h2 => by interval_cases k <;> exact ⟨_, rfl, by decide, by decide⟩)
    (by decide) (by decide)

/-! ### The calls return -/

/-- A read of row 0 inside the grid has a value. -/
theorem at0_isSome {align : Align} {j : Int} (h0 : 0 ≤ j) (h1 : j < align.length) :
    (align.at0 j).isSome = true := by
  have hlt : j.toNat < align.length := by omega
  simp only [Align.at0, if_pos h0, List.get?_eq_getElem?, List.getElem?_eq_getElem hlt]
  rfl

/-- A read of row 1 inside the grid has a value. -/
theorem at1_isSome {align : Align} {j : Int} (h0 : 0 ≤ j) (h1 : j < align.length) :
    (align.at1 j).isSome = true := by
  have hlt : j.toNat < align.length := by omega
  simp only [Align.at1, if_pos h0, List.get?_eq_getElem?, List.getElem?_eq_getElem hlt]
  rfl

/-- A homology loop whose reads all fall inside the grid runs to its exit. -/
theorem homologyLoop_isSome (x : Int → Option Char) (y yTry : Int → Int → Option Char) :
    ∀ (n : Nat) (i mismatch offset hom : Int), (offset = 0 ∨ offset = 1) →
      (∀ k, i ≤ k → k < i + n →
        (x k).isSome = true ∧ (y k 0).isSome = true ∧ (y k 1).isSome = true ∧
          (yTry k 1).isSome = true) →
      (homologyLoop x y yTry n i mismatch offset hom).isSome = true
  | 0, _, _, _, _, _, _ => rfl
  | n + 1, i, mismatch, offset, hom, hoff, hin => by
      obtain ⟨hx, hy0, hy1, ht1⟩ := hin i (le_refl i) (by push_cast; omega)
      have hrest : ∀ k, i + 1 ≤ k → k < i + 1 + n →
          (x k).isSome = true ∧ (y k 0).isSome = true ∧ (y k 1).isSome = true ∧
            (yTry k 1).isSome = true :=
        fun k h1 h2 => hin k (by omega) (by push_cast; omega)
      obtain ⟨a, ha⟩ := Option.isSome_iff_exists.mp hx
      obtain ⟨b1, hb1⟩ := Option.isSome_iff_exists.mp ht1
      have hy : (y i offset).isSome = true := by
        rcases hoff with h | h <;> rw [h] <;> assumption
      obtain ⟨b, hb⟩ := Option.isSome_iff_exists.mp hy
      unfold homologyLoop
      rw [ha, hb]
      simp only
      generalize (if a ≠ b then mismatch + 1 else mismatch) = m
      split_ifs with h1 h2
      · rw [h2, show (0 : Int) + 1 = 1 from rfl, hb1]
        simp only
        split_ifs
        · exact homologyLoop_isSome x y yTry n _ _ _ _ (Or.inr rfl) hrest
        · rfl
      · rfl
      · exact homologyLoop_isSome x y yTry n _ _ _ _ hoff hrest

/-- The walk of `_findHomology` reads only columns of the grid when `0 <= gS <= gE < L`. -/
theorem findHomology_isSome (align : Align) (gS gE homLeft homRight : Int)
    (h0 : 0 ≤ gS) (h1 : gS ≤ gE) (h2 : gE < align.length) :
    (_findHomology align gS gE homLeft homRight).isSome = true := by
  have hl : ∀ (x : Int → Option Char) (y yTry : Int → Int → Option Char),
      (∀ k : Int, 0 ≤ k → k < 0 + (gS.toNat : Int) →
        (x k).isSome = true ∧ (y k 0).isSome = true ∧ (y k 1).isSome = true ∧
          (yTry k 1).isSome = true) →
      ∃ r, homologyLoop x y yTry gS.toNat 0 0 0 homLeft = some r := fun x y yTry h =>
    Option.isSome_iff_exists.mp (homologyLoop_isSome x y yTry _ 0 0 0 homLeft (Or.inl rfl) h)
  have hr : ∀ (x : Int → Option Char) (y yTry : Int → Int → Option Char),
      (∀ k : Int, 0 ≤ k → k < 0 + (((align.length : Int) - gE - 1).toNat : Int) →
        (x k).isSome = true ∧ (y k 0).isSome = true ∧ (y k 1).isSome = true ∧
          (yTry k 1).isSome = true) →
      ∃ r, homologyLoop x y yTry ((align.length : Int) - gE - 1).toNat 0 0 0 homRight
        = some r :=
    fun x y yTry h =>
      Option.isSome_iff_exists.mp
        (homologyLoop_isSome x y yTry _ 0 0 0 homRight (Or.inl rfl) h)
  obtain ⟨r1, hr1⟩ := Option.isSome_iff_exists.mp (@at1_isSome align gS h0 (by omega))
  obtain ⟨r0, hr0⟩ := Option.isSome_iff_exists.mp (@at0_isSome align gS h0 (by omega))
  unfold _findHomology
  rw [hr1]
  simp only
  by_cases hc1 : r1 = '-'
  · rw [if_pos hc1]
    obtain ⟨a, ha⟩ := hl (fun i => align.at1 (gS - i - 1))
      (fun i offset => align.at0 (gE - i - offset))
      (fun i offset => align.at0 (gE - i - offset))
      (fun k hk0 hk1 => ⟨at1_isSome (by omega) (by omega), at0_isSome (by omega) (by omega),
        at0_isSome (by omega) (by omega), at0_isSome (by omega) (by omega)⟩)
    obtain ⟨b, hb⟩ := hr (fun i => align.at1 (gE + i + 1))
      (fun i _ => align.at0 (gS + i))
      (fun i offset => align.at0 (gS + i + offset))
      (fun k hk0 hk1 => ⟨at1_isSome (by omega) (by omega), at0_isSome (by omega) (by omega),
        at0_isSome (by omega) (by omega), at0_isSome (by omega) (by omega)⟩)
    rw [ha, hb]
    rfl
  · rw [if_neg hc1, hr0]
    simp only
    by_cases hc0 : r0 = '-'
    · rw [if_pos hc0]
      obtain ⟨a, ha⟩ := hl (fun i => align.at0 (gS - i - 1))
        (fun i offset => align.at1 (gE - i - offset))
        (fun i offset => align.at1 (gE - i - offset))
        (fun k hk0 hk1 => ⟨at0_isSome (by omega) (by omega), at1_isSome (by omega) (by omega),
          at1_isSome (by omega) (by omega), at1_isSome (by omega) (by omega)⟩)
      obtain ⟨b, hb⟩ := hr (fun i => align.at0 (gE + i + 1))
        (fun i _ => align.at1 (gS + i))
        (fun i offset => align.at1 (gS + i + offset))
        (fun k hk0 hk1 => ⟨at0_isSome (by omega) (by omega), at1_isSome (by omega) (by omega),
          at1_isSome (by omega) (by omega), at1_isSome (by omega) (by omega)⟩)
      rw [ha, hb]
      rfl
    · rw [if_neg hc0]
      rfl

/-- Called with a fresh descriptor, `_findSplit` returns: the homology walk it starts reads only
columns of the grid. -/
theorem findSplit_isSome (c : Config) (align : Align) (svt : SVType) :
    (_findSplit c align {} svt).isSome = true := by
  unfold _findSplit
  rcases findSplitScan_best svt align with ⟨had, _⟩ | ⟨a, b, hab, hgS, hgE, had, _⟩
  · simp only [had]
    rfl
  · simp only [hgS, hgE]
    have hb := hab.2.1
    have ha := hab.1
    obtain ⟨r, hr⟩ := Option.isSome_iff_exists.mp
      (findHomology_isSome align a b (findSplitScan svt align {}).ad.homLeft
        (findSplitScan svt align {}).ad.homRight (by omega) (by omega) (by omega))
    rw [hr]
    split
    · rfl
    · split
      · rfl
      · split
        · rfl
        · simp only
          split
          · rfl
          · split <;> rfl

/-- The orchestrator returns on every input. -/
theorem alignConsensus_isSome (longNeedle : Aligner) (c : Config)
    (sv : StructuralVariantRecord) (svRefStr : List Char) (svType : SVType) :
    (alignConsensus longNeedle c sv svRefStr svType).isSome = true := by
  obtain ⟨r, hr⟩ := Option.isSome_iff_exists.mp
    (findSplit_isSome c (_consRefAlignment longNeedle sv.consensus svRefStr svType).2 svType)
  unfold alignConsensus
  simp only [hr]
  split
  · rfl
  · split
    · rfl
    · obtain ⟨b, ad⟩ := r
      cases b
      · rfl
      · simp only
        split <;> rfl


/-! ### Atomicity of the orchestrator -/

/-- C1: `alignConsensus` is atomic on failure.  For every aligner, configuration, candidate,
reference window and SV type, the call returns; a call that returns false leaves the record
equal to the record before the call; and a consensus shorter than `2 * minimumFlankSize` makes
the call return false with the record unchanged. -/
theorem C1_alignConsensus_atomic_on_failure (longNeedle : Aligner) (c : Config)
    (sv : StructuralVariantRecord) (svRefStr : List Char) (svType : SVType) :
    (alignConsensus longNeedle c sv svRefStr svType).isSome = true ∧
    (∀ sv1, alignConsensus longNeedle c sv svRefStr svType = some (false, sv1) → sv1 = sv) ∧
    ((sv.consensus.length : Int) < 2 * c.minimumFlankSize →
      alignConsensus longNeedle c sv svRefStr svType = some (false, sv)) := by
  refine ⟨alignConsensus_isSome longNeedle c sv svRefStr svType, ?_, ?_⟩
  · intro sv1 h
    by_cases h1 : (sv.consensus.length : Int) < 2 * c.minimumFlankSize
    · simp [alignConsensus, h1] at h; exact h.symm
    · cases hr : (_consRefAlignment longNeedle sv.consensus svRefStr svType).1
      · simp [alignConsensus, h1, hr] at h; exact h.symm
      · cases hf : _findSplit c (_consRefAlignment longNeedle sv.consensus svRefStr svType).2 {}
            svType with
        | none => simp [alignConsensus, h1, hr, hf] at h
        | some p =>
          obtain ⟨b, ad⟩ := p
          cases b
          · simp [alignConsensus, h1, hr, hf] at h; exact h.symm
          · simp only [alignConsensus, h1, hr, hf] at h
            simp only [if_false, not_true_eq_false, ite_false] at h
            split at h
            · simp at h; exact h.symm
            · simp at h
  · intro h
    unfold alignConsensus
    rw [if_pos h]

/-- Witness of C1: a call that fails at the breakpoint locator (the 4 bp scenario, record with
`insLen = 7`) and a call that fails at the length check (`minimumFlankSize = 7`, consensus of
12 bases), each leaving its record unchanged. -/
theorem C1_alignConsensus_atomic_on_failure_witness :
    (alignConsensus (constAligner true gridDel4) (configDel "pacbio") (recordDel 0 6 6 16)
        windowDel4 .DeletionTag = some (false, recordDel 0 6 6 16)) ∧
    (alignConsensus (constAligner true gridDel16)
        { minimumFlankSize := 7, flankQuality := ⟨9, 10⟩, technology := "illumina" }
        (recordDel 0 6 18 28) windowDel16 .DeletionTag = some (false, recordDel 0 6 18 28)) :=
  ⟨by
      have h : alignConsensus (constAligner true gridDel4) (configDel "pacbio")
          (recordDel 0 6 6 16) windowDel4 .DeletionTag = some (false, recordDel 0 6 6 16) := by
        decide
      have e := (C1_alignConsensus_atomic_on_failure (constAligner true gridDel4)
        (configDel "pacbio") (recordDel 0 6 6 16) windowDel4 .DeletionTag).2.1 _ h
      exact h,
   (C1_alignConsensus_atomic_on_failure (constAligner true gridDel16)
      { minimumFlankSize := 7, flankQuality := ⟨9, 10⟩, technology := "illumina" }
      (recordDel 0 6 18 28) windowDel16 .DeletionTag).2.2 (by decide)⟩

/-! ### Orientation helpers -/

/-- C11: the flip rule of `_adjustOrientation`.  For every reverse-complement function, sequence,
side and connection code, the sequence is unchanged for Deletion, Insertion and Duplication; for
Inversion it is replaced by its reverse complement exactly when `(ct = 0 and side)` or
`(ct != 0 and not side)`; for Translocation exactly when `(ct = 0 and side)` or
`(ct = 1 and not side)`; in every other case it is unchanged. -/
theorem C11_adjustOrientation_flip_rule (reverseComplement : ReverseComplement)
    (sequence : List Char) (side : Bool) (ct : Int) :
    _adjustOrientation reverseComplement sequence side ct .DeletionTag = sequence ∧
    _adjustOrientation reverseComplement sequence side ct .InsertionTag = sequence ∧
    _adjustOrientation reverseComplement sequence side ct .DuplicationTag = sequence ∧
    (((ct = 0 ∧ side = true) ∨ (ct ≠ 0 ∧ side = false)) →
      _adjustOrientation reverseComplement sequence side ct .InversionTag
        = reverseComplement sequence) ∧
    (¬ ((ct = 0 ∧ side = true) ∨ (ct ≠ 0 ∧ side = false)) →
      _adjustOrientation reverseComplement sequence side ct .InversionTag = sequence) ∧
    (((ct = 0 ∧ side = true) ∨ (ct = 1 ∧ side = false)) →
      _adjustOrientation reverseComplement sequence side ct .TranslocationTag
        = reverseComplement sequence) ∧
    (¬ ((ct = 0 ∧ side = true) ∨ (ct = 1 ∧ side = false)) →
      _adjustOrientation reverseComplement sequence side ct .TranslocationTag = sequence) :=
  ⟨rfl, rfl, rfl, fun h => if_pos h, fun h => if_neg h, fun h => if_pos h, fun h => if_neg h⟩

/-- Witness of C11 with the reverse complement of the spec on the read `AAC`: an Inversion with
code 0 flips the read on side true and keeps it on side false; a Translocation with code 1 flips
it on side false and with code 2 keeps it. -/
theorem C11_adjustOrientation_flip_rule_witness :
    _adjustOrientation reverseComplementSpec "AAC".toList true 0 .InversionTag = "GTT".toList ∧
    _adjustOrientation reverseComplementSpec "AAC".toList false 0 .InversionTag = "AAC".toList ∧
    _adjustOrientation reverseComplementSpec "AAC".toList false 1 .TranslocationTag
      = "GTT".toList ∧
    _adjustOrientation reverseComplementSpec "AAC".toList false 2 .TranslocationTag
      = "AAC".toList := by
  have h := C11_adjustOrientation_flip_rule reverseComplementSpec "AAC".toList
  refine ⟨?_, ?_, ?_, ?_⟩
  · rw [(h true 0).2.2.2.1 (by decide)]
    decide
  · exact (h false 0).2.2.2.2.1 (by decide)
  · rw [(h false 1).2.2.2.2.2.1 (by decide)]
    decide
  · exact (h false 2).2.2.2.2.2.2 (by decide)

/-- C12: the truth table of `_validSCOrientation`.  It is true exactly when `side = leading`
for Deletion and Insertion; when `side != leading` for Duplication; when
`leading = (ct != 0)` for Inversion; and for Translocation: when not `leading` for code 0, when
`leading` for code 1 (both whatever the side), and it equals the Deletion rule for code 2 and
the Duplication rule for code 3. -/
theorem C12_validSCOrientation_truth_table (side leading : Bool) (ct : Int) :
    (_validSCOrientation side leading ct .DeletionTag = true ↔ side = leading) ∧
    (_validSCOrientation side leading ct .InsertionTag = true ↔ side = leading) ∧
    (_validSCOrientation side leading ct .DuplicationTag = true ↔ side ≠ leading) ∧
    (_validSCOrientation side leading ct .InversionTag = true ↔ leading = decide (ct ≠ 0)) ∧
    (ct = 0 → (_validSCOrientation side leading ct .TranslocationTag = true ↔ leading = false)) ∧
    (ct = 1 → (_validSCOrientation side leading ct .TranslocationTag = true ↔ leading = true)) ∧
    (ct = 2 → _validSCOrientation side leading ct .TranslocationTag
      = _validSCOrientation side leading ct .DeletionTag) ∧
    (ct = 3 → _validSCOrientation side leading ct .TranslocationTag
      = _validSCOrientation side leading ct .DuplicationTag) := by
  refine ⟨?_, ?_, ?_, ?_, ?_, ?_, ?_, ?_⟩
  · cases side <;> cases leading <;> simp [_validSCOrientation]
  · cases side <;> cases leading <;> simp [_validSCOrientation]
  · cases side <;> cases leading <;> simp [_validSCOrientation]
  · by_cases h : ct = 0 <;> cases leading <;> simp [_validSCOrientation, h]
  · intro h
    cases leading <;> simp [_validSCOrientation, h]
  · intro h
    cases leading <;> simp [_validSCOrientation, h]
  · intro h
    subst h
    rfl
  · intro h
    subst h
    rfl

/-- Witness of C12 on Translocation codes 0 to 3. -/
theorem C12_validSCOrientation_truth_table_witness :
    _validSCOrientation true false 0 .TranslocationTag = true ∧
    _validSCOrientation false true 1 .TranslocationTag = true ∧
    _validSCOrientation true false 2 .TranslocationTag = false ∧
    _validSCOrientation true false 3 .TranslocationTag = true :=
  ⟨((C12_validSCOrientation_truth_table true false 0).2.2.2.2.1 rfl).mpr rfl,
   ((C12_validSCOrientation_truth_table false true 1).2.2.2.2.2.1 rfl).mpr rfl,
   ((C12_validSCOrientation_truth_table true false 2).2.2.2.2.2.2.1 rfl).trans (by decide),
   ((C12_validSCOrientation_truth_table true false 3).2.2.2.2.2.2.2 rfl).trans (by decide)⟩

/-- The flag `readIsFlipped` tells for every reverse-complement function and every sequence
whether `_adjustOrientation` applies the function. -/
theorem adjustOrientation_eq_ite (reverseComplement : ReverseComplement) (sequence : List Char)
    (svt : SVType) (side : Bool) (ct : Int) :
    _adjustOrientation reverseComplement sequence side ct svt
      = if readIsFlipped svt side ct = true then reverseComplement sequence else sequence := by
  cases svt
  · rfl
  · rfl
  · rfl
  · by_cases h : (ct = 0 ∧ side = true) ∨ (ct ≠ 0 ∧ side = false)
    · have e : readIsFlipped .InversionTag side ct = true := by
        simp only [readIsFlipped, _adjustOrientation, if_pos h]
        decide
      simp only [_adjustOrientation, if_pos h, e, if_true]
    · have e : readIsFlipped .InversionTag side ct = false := by
        simp only [readIsFlipped, _adjustOrientation, if_neg h]
        decide
      simp only [_adjustOrientation, if_neg h, e]
      rfl
  · by_cases h : (ct = 0 ∧ side = true) ∨ (ct = 1 ∧ side = false)
    · have e : readIsFlipped .TranslocationTag side ct = true := by
        simp only [readIsFlipped, _adjustOrientation, if_pos h]
        decide
      simp only [_adjustOrientation, if_pos h, e, if_true]
    · have e : readIsFlipped .TranslocationTag side ct = false := by
        simp only [readIsFlipped, _adjustOrientation, if_neg h]
        decide
      simp only [_adjustOrientation, if_neg h, e]
      rfl

/-- C13: the orientation helpers are mutually consistent.  Whenever `_validSCOrientation`
accepts the leading flag, the clip side re-derived after normalisation (the leading flag, negated
exactly when `_adjustOrientation` reverse-complements the read) depends on the side alone: it is
`side` for Deletion, Insertion, Inversion (any code) and Translocation codes 0, 1, 2, and
`not side` for Duplication and Translocation code 3. -/
theorem C13_orientation_helpers_consistent (side leading : Bool) (ct : Int) :
    (_validSCOrientation side leading ct .DeletionTag = true →
      rederivedSide .DeletionTag side leading ct = side) ∧
    (_validSCOrientation side leading ct .InsertionTag = true →
      rederivedSide .InsertionTag side leading ct = side) ∧
    (_validSCOrientation side leading ct .InversionTag = true →
      rederivedSide .InversionTag side leading ct = side) ∧
    (ct = 0 ∨ ct = 1 ∨ ct = 2 → _validSCOrientation side leading ct .TranslocationTag = true →
      rederivedSide .TranslocationTag side leading ct = side) ∧
    (_validSCOrientation side leading ct .DuplicationTag = true →
      rederivedSide .DuplicationTag side leading ct = !side) ∧
    (ct = 3 → _validSCOrientation side leading ct .TranslocationTag = true →
      rederivedSide .TranslocationTag side leading ct = !side) := by
  refine ⟨?_, ?_, ?_, ?_, ?_, ?_⟩
  · cases side <;> cases leading <;>
      simp [_validSCOrientation, rederivedSide, readIsFlipped, _adjustOrientation]
  · cases side <;> cases leading <;>
      simp [_validSCOrientation, rederivedSide, readIsFlipped, _adjustOrientation]
  · by_cases h : ct = 0 <;> cases side <;> cases leading <;>
      simp [_validSCOrientation, rederivedSide, readIsFlipped, _adjustOrientation, h] <;> decide
  · rintro (h | h | h) <;> subst h <;> cases side <;> cases leading <;> decide
  · cases side <;> cases leading <;>
      simp [_validSCOrientation, rederivedSide, readIsFlipped, _adjustOrientation]
  · intro h
    subst h
    cases side <;> cases leading <;> decide

/-- Witness of C13: an Inversion with a non-zero code on side false, and a Translocation with
code 3 on side true. -/
theorem C13_orientation_helpers_consistent_witness :
    rederivedSide .InversionTag false true 5 = false ∧
    rederivedSide .TranslocationTag true false 3 = false :=
  ⟨(C13_orientation_helpers_consistent false true 5).2.2.1 (by decide),
   (C13_orientation_helpers_consistent true false 3).2.2.2.2.2 rfl (by decide)⟩

/-! ### Percent identity -/

/-- The loop over columns, over a concatenation. -/
theorem forCols_append {σ : Type} (body : σ → Int → Char × Char → σ) :
    ∀ (cols rest : List (Char × Char)) (j : Int) (st : σ),
      forCols body (cols ++ rest) j st
        = forCols body rest (j + cols.length) (forCols body cols j st)
  | [], rest, j, st => by simp [forCols]
  | c :: cols, rest, j, st => by
      have h := forCols_append body cols rest (j + 1) (body st j c)
      have e : j + 1 + (cols.length : Int) = j + ((c :: cols).length : Int) := by
        simp only [List.length_cons]
        push_cast
        omega
      rw [e] at h
      exact h

/-- A column with the gap symbol in both rows leaves the counters of `_percentIdentity` as they
are while no row has started. -/
theorem percentIdentityBody_gapColumn (gS gE : Int) (st : PercIdState) (j : Int)
    (hv : st.varSeen = false) (hr : st.refSeen = false) :
    percentIdentityBody gS gE st j ('-', '-') = st := by
  unfold percentIdentityBody
  by_cases h : j < gS ∨ j > gE
  · rw [if_pos h]
    cases st
    simp only at hv hr
    subst hv hr
    simp
  · rw [if_neg h]

/-- Leading columns with the gap symbol in both rows leave the fresh counters as they are. -/
theorem forCols_percentIdentity_replicate (gS gE : Int) :
    ∀ (k : Nat) (j : Int) (st : PercIdState), st.varSeen = false → st.refSeen = false →
      forCols (percentIdentityBody gS gE) (List.replicate k ('-', '-')) j st = st
  | 0, _, _, _, _ => rfl
  | k + 1, j, st, hv, hr => by
      simp only [List.replicate_succ, forCols]
      rw [percentIdentityBody_gapColumn gS gE st j hv hr]
      exact forCols_percentIdentity_replicate gS gE k (j + 1) st hv hr

/-- Shifting the column index and the gap window by the same amount does not change the body. -/
theorem percentIdentityBody_shift (gS gE k : Int) (st : PercIdState) (j : Int)
    (col : Char × Char) :
    percentIdentityBody (gS + k) (gE + k) st (j + k) col = percentIdentityBody gS gE st j col := by
  unfold percentIdentityBody
  have e : (j + k < gS + k ∨ j + k > gE + k) ↔ (j < gS ∨ j > gE) := by
    constructor <;> rintro (h | h) <;> first | (left; omega) | (right; omega)
  simp only [e]

/-- Shifting the start index and the gap window by the same amount does not change the loop. -/
theorem forCols_percentIdentity_shift (gS gE k : Int) :
    ∀ (cols : List (Char × Char)) (j : Int) (st : PercIdState),
      forCols (percentIdentityBody (gS + k) (gE + k)) cols (j + k) st
        = forCols (percentIdentityBody gS gE) cols j st
  | [], _, _ => rfl
  | col :: cols, j, st => by
      simp only [forCols]
      rw [percentIdentityBody_shift, show j + k + 1 = j + 1 + k by omega]
      exact forCols_percentIdentity_shift gS gE k cols (j + 1) _

/-- C14: percent identity is translation invariant.  For every grid, every gap window and every
`k`, putting `k` columns with the gap symbol in both rows before the grid and calling
`_percentIdentity` with `(gS + k, gE + k)` gives the same match count and the same mismatch
count, hence the same ratio, as calling it on the grid with `(gS, gE)`. -/
theorem C14_percentIdentity_translation_invariant (align : Align) (gS gE : Int) (k : Nat) :
    (percentIdentityLoop (prependGapColumns k align) (gS + k) (gE + k)).ma
        = (percentIdentityLoop align gS gE).ma ∧
    (percentIdentityLoop (prependGapColumns k align) (gS + k) (gE + k)).mm
        = (percentIdentityLoop align gS gE).mm ∧
    _percentIdentity (prependGapColumns k align) (gS + k) (gE + k)
        = _percentIdentity align gS gE := by
  have h : percentIdentityLoop (prependGapColumns k align) (gS + k) (gE + k)
      = percentIdentityLoop align gS gE := by
    unfold percentIdentityLoop prependGapColumns
    rw [forCols_append, forCols_percentIdentity_replicate _ _ k 0 {} rfl rfl,
      List.length_replicate]
    exact forCols_percentIdentity_shift gS gE k align 0 {}
  refine ⟨by rw [h], by rw [h], ?_⟩
  unfold _percentIdentity
  rw [h]

/-- One iteration of `_percentIdentity` never lowers the number of counted columns. -/
theorem percentIdentityBody_mono (gS gE : Int) (st : PercIdState) (j : Int) (col : Char × Char) :
    st.ma + st.mm ≤ (percentIdentityBody gS gE st j col).ma
      + (percentIdentityBody gS gE st j col).mm := by
  unfold percentIdentityBody
  by_cases hout : j < gS ∨ j > gE
  · rw [if_pos hout]
    simp only []
    by_cases hg : col.1 = '-' ∨ col.2 = '-'
    · rw [if_pos hg]
      split_ifs <;> exact Nat.le_refl _
    · rw [if_neg hg]
      split_ifs <;> simp only [] <;> omega
  · rw [if_neg hout]

/-- The loop of `_percentIdentity` never lowers the number of counted columns. -/
theorem forCols_percentIdentity_mono (gS gE : Int) :
    ∀ (cols : List (Char × Char)) (j : Int) (st : PercIdState),
      st.ma + st.mm ≤ (forCols (percentIdentityBody gS gE) cols j st).ma
        + (forCols (percentIdentityBody gS gE) cols j st).mm
  | [], _, _ => Nat.le_refl _
  | col :: cols, j, st => by
      simp only [forCols]
      exact Nat.le_trans (percentIdentityBody_mono gS gE st j col)
        (forCols_percentIdentity_mono gS gE cols (j + 1) _)

/-- A column outside the gap window that holds a base in both rows is counted, as a match or as a
mismatch. -/
theorem percentIdentityBody_counts (gS gE : Int) (st : PercIdState) (j : Int)
    (col : Char × Char) (hout : j < gS ∨ j > gE) (h1 : col.1 ≠ '-') (h2 : col.2 ≠ '-') :
    st.ma + st.mm + 1 ≤ (percentIdentityBody gS gE st j col).ma
      + (percentIdentityBody gS gE st j col).mm := by
  unfold percentIdentityBody
  rw [if_pos hout]
  have hg : ¬ (col.1 = '-' ∨ col.2 = '-') := by
    rintro (h | h)
    · exact h1 h
    · exact h2 h
  simp only [if_neg hg]
  split_ifs <;> simp only [] <;> omega

/-- The columns of a grid around column `n`. -/
theorem split_at_column {align : Align} {n : Nat} {col : Char × Char}
    (h : align.get? n = some col) : align = align.take n ++ col :: align.drop (n + 1) := by
  have hn : n < align.length := by
    simp only [List.get?_eq_getElem?] at h
    exact (List.getElem?_eq_some.mp h).1
  have hc : align[n] = col := by
    simp only [List.get?_eq_getElem?] at h
    exact (List.getElem?_eq_some.mp h).2
  rw [← hc, ← List.drop_eq_getElem_cons hn, List.take_append_drop]

/-- With the gap window on a closed gap, `_percentIdentity` counts the column that closes it. -/
theorem percentIdentity_counts_closing {align : Align} {a b : Nat} (h : ClosedGap align a b) :
    1 ≤ (percentIdentityLoop align a b).ma + (percentIdentityLoop align a b).mm := by
  obtain ⟨col, hcol, h1, h2⟩ := h.closing
  have hlen : ((align.take (b + 1)).length : Int) = (b : Int) + 1 := by
    have := h.2.1
    rw [List.length_take, Nat.min_eq_left (by omega)]
    push_cast
    rfl
  unfold percentIdentityLoop
  rw [split_at_column hcol, forCols_append]
  simp only [forCols]
  have hstep := percentIdentityBody_counts (a : Int) (b : Int)
    (forCols (percentIdentityBody a b) (align.take (b + 1)) 0 {})
    (0 + ((align.take (b + 1)).length : Int)) col (Or.inr (by omega)) h1 h2
  have hrest := forCols_percentIdentity_mono (a : Int) (b : Int) (align.drop (b + 1 + 1))
    (0 + ((align.take (b + 1)).length : Int) + 1)
    (percentIdentityBody a b (forCols (percentIdentityBody a b) (align.take (b + 1)) 0 {})
      (0 + ((align.take (b + 1)).length : Int)) col)
  omega

/-- C19: the division of `_percentIdentity` is guarded by reachability.  Whenever the scan of
`_findSplit`, started with a fresh descriptor, has selected a gap (`rStart < rEnd`, which every
path to the call of `_percentIdentity` requires), the matches plus mismatches counted outside
the gap's columns `[gS, gE]` are at least 1, so the ratio `ma / (ma + mm)` has a non-zero
denominator and lies between 0 and 1. -/
theorem C19_percentIdentity_denominator (svt : SVType) (align : Align)
    (hsel : (findSplitScan svt align {}).ad.rStart < (findSplitScan svt align {}).ad.rEnd) :
    1 ≤ (percentIdentityLoop align (findSplitScan svt align {}).gS
            (findSplitScan svt align {}).gE).ma
        + (percentIdentityLoop align (findSplitScan svt align {}).gS
            (findSplitScan svt align {}).gE).mm ∧
    (_percentIdentity align (findSplitScan svt align {}).gS (findSplitScan svt align {}).gE).den
        ≠ 0 ∧
    (_percentIdentity align (findSplitScan svt align {}).gS (findSplitScan svt align {}).gE).num
        ≤ (_percentIdentity align (findSplitScan svt align {}).gS
            (findSplitScan svt align {}).gE).den := by
  rcases findSplitScan_best svt align with ⟨had, _⟩ | ⟨a, b, hab, hgS, hgE, _, _⟩
  · rw [had] at hsel
    exact absurd hsel (by decide)
  · rw [hgS, hgE]
    have h := percentIdentity_counts_closing hab
    refine ⟨h, ?_, ?_⟩
    · simp only [_percentIdentity]
      omega
    · simp only [_percentIdentity]
      omega

/-- Witness of C19 on the 16 bp deletion grid: 12 matches and no mismatch outside the gap. -/
theorem C19_percentIdentity_denominator_witness :
    _percentIdentity gridDel16 (findSplitScan .DeletionTag gridDel16 {}).gS
        (findSplitScan .DeletionTag gridDel16 {}).gE = ⟨12, 12⟩ ∧
    (_percentIdentity gridDel16 (findSplitScan .DeletionTag gridDel16 {}).gS
        (findSplitScan .DeletionTag gridDel16 {}).gE).den ≠ 0 :=
  ⟨by decide, (C19_percentIdentity_denominator .DeletionTag gridDel16 (by decide)).2.1⟩

/-! ### Builder and back-mapper, Inversion -/

/-- Position `i` of the reverse complement is the complement of position `|s| - 1 - i`. -/
theorem charAt_reverseComplementSpec {s : List Char} {i : Int} (h0 : 0 ≤ i)
    (h1 : i < s.length) :
    charAt (reverseComplementSpec s) i
      = (charAt s ((s.length : Int) - 1 - i)).map complementSpec := by
  have hi : i.toNat < s.length := by omega
  have h2 : 0 ≤ (s.length : Int) - 1 - i := by omega
  have e : ((s.length : Int) - 1 - i).toNat = s.length - 1 - i.toNat := by omega
  simp only [charAt, if_pos h0, if_pos h2, reverseComplementSpec, List.get?_eq_getElem?,
    List.getElem?_map, e]
  rw [List.getElem?_reverse hi]


/-- The reverse complement keeps the length. -/
theorem length_reverseComplementSpec (s : List Char) :
    (reverseComplementSpec s).length = s.length := by
  simp [reverseComplementSpec]

/-- C18: builder and back-mapper are in lock-step for Inversion.  For flanks inside the buffer
that hold only `A, C, G, T, N` in either case, the window `W = _getSVRef` (of length
`|flank1| + |flank2|`, with `annealed = |flank1|`) and every descriptor with
`1 <= rStart < annealed < rEnd <= |W|`, `_coordTransform` accepts, both refined positions lie
inside their own flank, and with `W` indexed from 1: for `ct = 0`,
`W[rStart] = upper(ref[finalGapStart - 1])` and `W[rEnd] = comp(upper(ref[finalGapEnd - 1]))`;
for `ct != 0`, `W[rStart] = comp(upper(ref[finalGapStart - 1]))` and
`W[rEnd] = upper(ref[finalGapEnd - 1])`. -/
theorem C18_lockstep_inversion (ref : List Char) (sv : StructuralVariantRecord) (refIndex : Int)
    (ad : AlignDescriptor)
    (hs0 : 0 ≤ sv.svStartBeg) (hs1 : sv.svStartBeg ≤ sv.svStartEnd)
    (hs2 : sv.svStartEnd ≤ ref.length)
    (he0 : 0 ≤ sv.svEndBeg) (he1 : sv.svEndBeg ≤ sv.svEndEnd) (he2 : sv.svEndEnd ≤ ref.length)
    (hb1 : ∀ c ∈ substr ref sv.svStartBeg sv.svStartEnd, IsBase c)
    (hb2 : ∀ c ∈ substr ref sv.svEndBeg sv.svEndEnd, IsBase c)
    (hr1 : 1 ≤ ad.rStart) (hr2 : ad.rStart < sv.svStartEnd - sv.svStartBeg)
    (hr3 : sv.svStartEnd - sv.svStartBeg < ad.rEnd)
    (hr4 : ad.rEnd ≤ (_getSVRef ref sv refIndex .InversionTag).length) :
    ∃ finalGapStart finalGapEnd x y,
      _coordTransform (_getSVRef ref sv refIndex .InversionTag) sv ad .InversionTag
        = some (finalGapStart, finalGapEnd) ∧
      charAt ref (finalGapStart - 1) = some x ∧ charAt ref (finalGapEnd - 1) = some y ∧
      (sv.svStartBeg ≤ finalGapStart - 1 ∧ finalGapStart - 1 < sv.svStartEnd) ∧
      (sv.svEndBeg ≤ finalGapEnd - 1 ∧ finalGapEnd - 1 < sv.svEndEnd) ∧
      (sv.ct = 0 →
        charAt (_getSVRef ref sv refIndex .InversionTag) (ad.rStart - 1) = some x.toUpper ∧
        charAt (_getSVRef ref sv refIndex .InversionTag) (ad.rEnd - 1)
          = some (complementSpec y.toUpper)) ∧
      (sv.ct ≠ 0 →
        charAt (_getSVRef ref sv refIndex .InversionTag) (ad.rStart - 1)
          = some (complementSpec x.toUpper) ∧
        charAt (_getSVRef ref sv refIndex .InversionTag) (ad.rEnd - 1) = some y.toUpper) := by
  have l1 := length_upper_substr hs0 hs1 hs2
  have l2 := length_upper_substr he0 he1 he2
  have hg : ¬ (ad.rStart ≥ sv.svStartEnd - sv.svStartBeg
      ∨ ad.rEnd < sv.svStartEnd - sv.svStartBeg) := by omega
  by_cases hct : sv.ct = 0
  · have hW : _getSVRef ref sv refIndex .InversionTag
        = to_upper_copy (substr ref sv.svStartBeg sv.svStartEnd)
          ++ reverseComplementSpec (to_upper_copy (substr ref sv.svEndBeg sv.svEndEnd)) := by
      simp only [_getSVRef, hct, if_true, revCompLoop_upper hb2]
    rw [hW] at hr4 ⊢
    rw [List.length_append, length_reverseComplementSpec] at hr4
    push_cast at hr4
    obtain ⟨x, hx1, hx2⟩ := @charAt_upper_substr ref sv.svStartBeg sv.svStartEnd
      (ad.rStart - 1) hs0 hs2 (by omega) (by omega)
    obtain ⟨y, hy1, hy2⟩ := @charAt_upper_substr ref sv.svEndBeg sv.svEndEnd
      (sv.svStartEnd - sv.svStartBeg + (sv.svEndEnd - sv.svEndBeg) - ad.rEnd) he0 he2
      (by omega) (by omega)
    refine ⟨sv.svStartBeg + ad.rStart,
      sv.svEndBeg + ((sv.svStartEnd - sv.svStartBeg + (sv.svEndEnd - sv.svEndBeg)) - ad.rEnd) + 1,
      x, y, ?_, ?_, ?_, ⟨by omega, by omega⟩, ⟨by omega, by omega⟩, ?_, fun h => absurd hct h⟩
    · simp only [_coordTransform, if_neg hg, hct, if_true, List.length_append,
        length_reverseComplementSpec]
      push_cast
      rw [l1, l2]
    · rw [← hx1]
      congr 1
      omega
    · rw [← hy1]
      congr 1
      omega
    · intro _
      constructor
      · rw [charAt_append_left (by omega) (by omega)]
        exact hx2
      · rw [charAt_append_right (by omega), l1,
          charAt_reverseComplementSpec (by omega) (by omega), l2]
        have e : sv.svEndEnd - sv.svEndBeg - 1 - (ad.rEnd - 1 - (sv.svStartEnd - sv.svStartBeg))
            = sv.svStartEnd - sv.svStartBeg + (sv.svEndEnd - sv.svEndBeg) - ad.rEnd := by omega
        rw [e, hy2]
        rfl
  · have hW : _getSVRef ref sv refIndex .InversionTag
        = reverseComplementSpec (to_upper_copy (substr ref sv.svStartBeg sv.svStartEnd))
          ++ to_upper_copy (substr ref sv.svEndBeg sv.svEndEnd) := by
      simp only [_getSVRef, hct, if_false, revCompLoop_upper hb1]
    rw [hW] at hr4 ⊢
    rw [List.length_append, length_reverseComplementSpec] at hr4
    push_cast at hr4
    have l1r : ((reverseComplementSpec
        (to_upper_copy (substr ref sv.svStartBeg sv.svStartEnd))).length : Int)
        = sv.svStartEnd - sv.svStartBeg := by
      rw [length_reverseComplementSpec]
      exact l1
    obtain ⟨x, hx1, hx2⟩ := @charAt_upper_substr ref sv.svStartBeg sv.svStartEnd
      (sv.svStartEnd - sv.svStartBeg - ad.rStart) hs0 hs2 (by omega) (by omega)
    obtain ⟨y, hy1, hy2⟩ := @charAt_upper_substr ref sv.svEndBeg sv.svEndEnd
      (ad.rEnd - 1 - (sv.svStartEnd - sv.svStartBeg)) he0 he2 (by omega) (by omega)
    refine ⟨sv.svStartBeg + (sv.svStartEnd - sv.svStartBeg - ad.rStart) + 1,
      sv.svEndBeg + (ad.rEnd - (sv.svStartEnd - sv.svStartBeg)),
      x, y, ?_, ?_, ?_, ⟨by omega, by omega⟩, ⟨by omega, by omega⟩, fun h => absurd h hct, ?_⟩
    · simp only [_coordTransform, if_neg hg, if_neg hct]
    · rw [← hx1]
      congr 1
      omega
    · rw [← hy1]
      congr 1
      omega
    · intro _
      constructor
      · rw [charAt_append_left (by omega) (by omega),
          charAt_reverseComplementSpec (by omega) (by omega), l1]
        have e : sv.svStartEnd - sv.svStartBeg - 1 - (ad.rStart - 1)
            = sv.svStartEnd - sv.svStartBeg - ad.rStart := by omega
        rw [e, hx2]
        rfl
      · rw [charAt_append_right (by omega), l1r]
        exact hy2

/-- Witness of C18 on the buffer `acgtNACCGGTTnnacgt` with flanks `cgtN` and `GTTnn`: for code 0
the descriptor `rStart = 2, rEnd = 6` is refined to positions 3 and 13. -/
theorem C18_lockstep_inversion_witness :
    ∃ x y,
      _coordTransform (_getSVRef sampleRef (sampleInv 0) 0 .InversionTag) (sampleInv 0)
        { rStart := 2, rEnd := 6 } .InversionTag = some (3, 13) ∧
      charAt sampleRef (3 - 1) = some x ∧ charAt sampleRef (13 - 1) = some y ∧
      charAt (_getSVRef sampleRef (sampleInv 0) 0 .InversionTag) (2 - 1) = some x.toUpper ∧
      charAt (_getSVRef sampleRef (sampleInv 0) 0 .InversionTag) (6 - 1)
        = some (complementSpec y.toUpper) :=
  match C18_lockstep_inversion sampleRef (sampleInv 0) 0 { rStart := 2, rEnd := 6 }
      (by decide) (by decide) (by decide) (by decide) (by decide) (by decide) (by decide)
      (by decide) (by decide) (by decide) (by decide) (by decide) with
  | ⟨s, e, x, y, h1, h2, h3, _, _, h4, _⟩ => by
    have hse : (s, e) = (3, 13) := by
      have h : some (s, e) = some ((3 : Int), (13 : Int)) := by
        rw [← h1]
        decide
      exact Option.some.inj h
    simp only [Prod.mk.injEq] at hse
    obtain ⟨rfl, rfl⟩ := hse
    exact ⟨x, y, h1, h2, h3, (h4 rfl).1, (h4 rfl).2⟩

/-! ### Soft-clip evidence extractor -/

/-- The first loop counts the soft-clip operations. -/
theorem countSoftClips_fst :
    ∀ (cigar : List (CigarOp × Nat)) (numSoftClip : Nat) (clipSize : Int),
      (countSoftClips cigar numSoftClip clipSize).1 = numSoftClip + softClipCount cigar
  | [], _, _ => rfl
  | op :: rest, n, cs => by
      unfold countSoftClips softClipCount
      by_cases h : op.1 = .BAM_CSOFT_CLIP
      · rw [if_pos h, countSoftClips_fst rest (n + 1) op.2, List.countP_cons_of_pos _ _ (by simpa using h)]
        unfold softClipCount
        omega
      · rw [if_neg h, countSoftClips_fst rest n cs, List.countP_cons_of_neg _ _ (by simpa using h)]
        rfl

/-- Without a soft-clip operation the first loop changes nothing. -/
theorem countSoftClips_noClip :
    ∀ (cigar : List (CigarOp × Nat)) (numSoftClip : Nat) (clipSize : Int),
      (∀ op ∈ cigar, op.1 ≠ .BAM_CSOFT_CLIP) →
      countSoftClips cigar numSoftClip clipSize = (numSoftClip, clipSize)
  | [], _, _, _ => rfl
  | op :: rest, n, cs, h => by
      unfold countSoftClips
      rw [if_neg (h op (List.mem_cons_self _ _))]
      exact countSoftClips_noClip rest n cs (fun o ho => h o (List.mem_cons_of_mem _ ho))

/-- The first loop on a CIGAR with a single soft-clip operation of length `c`. -/
theorem countSoftClips_single (pre post : List (CigarOp × Nat)) (c : Nat) (clipSize : Int)
    (hpre : ∀ op ∈ pre, op.1 ≠ .BAM_CSOFT_CLIP) (hpost : ∀ op ∈ post, op.1 ≠ .BAM_CSOFT_CLIP) :
    countSoftClips (pre ++ (.BAM_CSOFT_CLIP, c) :: post) 0 clipSize = (1, (c : Int)) := by
  induction pre with
  | nil =>
    simp only [List.nil_append, countSoftClips, if_true]
    exact countSoftClips_noClip post 1 c hpost
  | cons op rest ih =>
    simp only [List.cons_append, countSoftClips]
    rw [if_neg (hpre op (List.mem_cons_self _ _))]
    exact ih (fun o ho => hpre o (List.mem_cons_of_mem _ ho))

/-- The threshold `floor (10 * log10 n)` in integers: `c` is at most the threshold exactly when
`10 ^ c <= n ^ 10`. -/
theorem le_log10Times10_iff (c n : Nat) (hn : 1 ≤ n) :
    (c : Int) ≤ log10Times10 n ↔ 10 ^ c ≤ n ^ 10 := by
  unfold log10Times10
  rw [Int.toNat_ofNat, Int.ofNat_le]
  exact (Nat.pow_le_iff_le_log (by norm_num) (pow_ne_zero _ (by omega))).symm

/-- The threshold for a read of 40 bases is 16. -/
theorem log10Times10_40 : log10Times10 40 = 16 := by
  have h : Nat.log 10 (40 ^ 10) = 16 :=
    Nat.log_eq_of_pow_le_of_lt_pow (by norm_num) (by norm_num)
  show ((Nat.log 10 (40 ^ 10) : Nat) : Int) = 16
  rw [h]
  rfl

/-- The threshold for a read of 35 bases is 15. -/
theorem log10Times10_35 : log10Times10 35 = 15 := by
  have h : Nat.log 10 (35 ^ 10) = 15 :=
    Nat.log_eq_of_pow_le_of_lt_pow (by norm_num) (by norm_num)
  show ((Nat.log 10 (35 ^ 10) : Nat) : Int) = 15
  rw [h]
  rfl

/-- C16: the rejection conditions of `_validSoftClip`.  It returns false for every record whose
query length is below 35, or whose CIGAR holds zero or more than one soft-clip operation, or
whose single soft-clip length `c` is at most `floor (10 * log10 (query length))`, which is the
same as `10 ^ c <= (query length) ^ 10`; in particular a record of query length 40 with one
soft clip of length 8 is rejected for every quality array and every cutoff. -/
theorem C16_validSoftClip_rejections (rec : bam1_t) (clipSize splitPoint : Int)
    (leadingSC : Bool) (qualCut : Nat) :
    (rec.l_qseq < 35 →
      ∃ out, _validSoftClip rec clipSize splitPoint leadingSC qualCut = some (false, out)) ∧
    (softClipCount rec.cigar ≠ 1 →
      ∃ out, _validSoftClip rec clipSize splitPoint leadingSC qualCut = some (false, out)) ∧
    (∀ (pre : List (CigarOp × Nat)) (c : Nat) (post : List (CigarOp × Nat)),
      rec.cigar = pre ++ (.BAM_CSOFT_CLIP, c) :: post →
      (∀ op ∈ pre, op.1 ≠ .BAM_CSOFT_CLIP) → (∀ op ∈ post, op.1 ≠ .BAM_CSOFT_CLIP) →
      (c : Int) ≤ log10Times10 rec.l_qseq →
      ∃ out, _validSoftClip rec clipSize splitPoint leadingSC qualCut = some (false, out)) ∧
    (∀ c n : Nat, 1 ≤ n → ((c : Int) ≤ log10Times10 n ↔ 10 ^ c ≤ n ^ 10)) ∧
    (∀ pre post : List (CigarOp × Nat), rec.l_qseq = 40 → rec.cigar = pre ++ (.BAM_CSOFT_CLIP, 8) :: post →
      (∀ op ∈ pre, op.1 ≠ .BAM_CSOFT_CLIP) → (∀ op ∈ post, op.1 ≠ .BAM_CSOFT_CLIP) →
      ∃ out, _validSoftClip rec clipSize splitPoint leadingSC qualCut = some (false, out)) := by
  have hthird : ∀ (pre : List (CigarOp × Nat)) (c : Nat) (post : List (CigarOp × Nat)),
      rec.cigar = pre ++ (.BAM_CSOFT_CLIP, c) :: post →
      (∀ op ∈ pre, op.1 ≠ .BAM_CSOFT_CLIP) → (∀ op ∈ post, op.1 ≠ .BAM_CSOFT_CLIP) →
      (c : Int) ≤ log10Times10 rec.l_qseq →
      ∃ out, _validSoftClip rec clipSize splitPoint leadingSC qualCut = some (false, out) := by
    intro pre c post hc hpre hpost hle
    unfold _validSoftClip
    by_cases h35 : rec.l_qseq < 35
    · exact ⟨_, if_pos h35⟩
    · rw [if_neg h35, hc, countSoftClips_single pre post c clipSize hpre hpost]
      simp only [ne_eq, not_true_eq_false, if_false, if_pos hle]
      exact ⟨_, rfl⟩
  refine ⟨?_, ?_, hthird, le_log10Times10_iff, ?_⟩
  · intro h
    exact ⟨_, if_pos h⟩
  · intro h
    unfold _validSoftClip
    by_cases h35 : rec.l_qseq < 35
    · exact ⟨_, if_pos h35⟩
    · rw [if_neg h35]
      have hn : (countSoftClips rec.cigar 0 clipSize).1 ≠ 1 := by
        rw [countSoftClips_fst, Nat.zero_add]
        exact h
      simp only [if_pos hn]
      exact ⟨_, rfl⟩
  · intro pre post hl hc hpre hpost
    refine hthird pre 8 post hc hpre hpost ?_
    rw [hl, log10Times10_40]
    decide

/-- Witness of C16: a read of 40 bases with CIGAR `32M 8S` and all qualities 60 is rejected with
cutoff 0; and a read of 34 bases is rejected. -/
theorem C16_validSoftClip_rejections_witness :
    (∃ out, _validSoftClip (recordShortClip (List.replicate 40 60)) 0 0 false 0
      = some (false, out)) ∧
    (∃ out, _validSoftClip { recordInsClip with l_qseq := 34 } 0 0 false 0
      = some (false, out)) :=
  ⟨(C16_validSoftClip_rejections (recordShortClip (List.replicate 40 60)) 0 0 false
      0).2.2.2.2 [(.BAM_CMATCH, 32)] [] rfl rfl (by decide) (by decide),
   (C16_validSoftClip_rejections { recordInsClip with l_qseq := 34 } 0 0 false 0).1
      (by decide)⟩

/-- The quality loop sums the `n` qualities from position `i` on when they lie inside the
vector. -/
theorem qualSumLoop_eq (quality : List Nat) :
    ∀ (n i qualSum : Nat), i + n ≤ quality.length →
      qualSumLoop quality n i qualSum = some (qualSum + ((quality.drop i).take n).sum)
  | 0, _, _, _ => by simp [qualSumLoop]
  | n + 1, i, acc, h => by
      have hi : i < quality.length := by omega
      unfold qualSumLoop
      rw [List.get?_eq_getElem?, List.getElem?_eq_getElem hi]
      simp only
      rw [qualSumLoop_eq quality n (i + 1) (acc + quality[i]) (by omega),
        List.drop_eq_getElem_cons hi, List.take_succ_cons, List.sum_cons]
      congr 1
      omega

/-- The second loop over a concatenation. -/
theorem softClipLoop_append (rec : bam1_t) (quality : List Nat) (clipSize : Int) :
    ∀ (ops rest : List (CigarOp × Nat)) (st : SoftClipState),
      softClipLoop rec quality clipSize (ops ++ rest) st
        = (softClipLoop rec quality clipSize ops st).bind
            (softClipLoop rec quality clipSize rest)
  | [], _, _ => rfl
  | op :: ops, rest, st => by
      simp only [List.cons_append, softClipLoop]
      cases softClipBody rec quality clipSize st op with
      | none => rfl
      | some st1 => exact softClipLoop_append rec quality clipSize ops rest st1

/-- Before the soft clip, when every insertion is immediately followed by a match and no `=` or
`X` occurs, the second loop adds the query bases of the operations to `alen` and changes nothing
else. -/
theorem softClipLoop_beforeClip (rec : bam1_t) (quality : List Nat) (clipSize : Int) :
    ∀ (ops : List (CigarOp × Nat)) (st : SoftClipState),
      (∀ op ∈ ops, op.1 ≠ .BAM_CSOFT_CLIP) → insertionsMatched ops = true →
      (st.lastIns = 0 ∨ startsWithMatch ops = true) →
      softClipLoop rec quality clipSize ops st
        = some { st with alen := st.alen + st.lastIns + queryLength ops, lastIns := 0 }
  | [], st, _, _, h0 => by
      have h : st.lastIns = 0 := by
        rcases h0 with h | h
        · exact h
        · cases h
      cases st
      simp only at h
      subst h
      simp [softClipLoop, queryLength]
  | (op, n) :: rest, st, hno, hreg, h0 => by
      have hno1 : op ≠ .BAM_CSOFT_CLIP := hno (op, n) (List.mem_cons_self _ _)
      have hnor : ∀ o ∈ rest, o.1 ≠ .BAM_CSOFT_CLIP :=
        fun o ho => hno o (List.mem_cons_of_mem _ ho)
      simp only [insertionsMatched, Bool.and_eq_true, bne_iff_ne, ne_eq, Bool.or_eq_true]
        at hreg
      obtain ⟨⟨⟨he, hd⟩, hi⟩, hr⟩ := hreg
      unfold softClipLoop softClipBody
      cases op
      case BAM_CMATCH =>
        simp only [if_true]
        rw [softClipLoop_beforeClip rec quality clipSize rest _ hnor hr (Or.inl rfl)]
        simp only [queryLength, consumesQuery, decide_True, Bool.true_or, if_true,
          Option.some.injEq, Nat.add_zero]
        congr 1
        omega
      case BAM_CINS =>
        have hm : startsWithMatch rest = true := by
          rcases hi with hi | hi
          · exact absurd rfl hi
          · exact hi
        have hl : st.lastIns = 0 := by
          rcases h0 with h | h
          · exact h
          · cases h
        simp only [reduceCtorEq, if_false, if_true]
        rw [softClipLoop_beforeClip rec quality clipSize rest _ hnor hr (Or.inr hm)]
        simp only [queryLength, consumesQuery, Option.some.injEq]
        congr 1
        simp [hl]
        omega
      case BAM_CSOFT_CLIP => exact absurd rfl hno1
      case BAM_CEQUAL => exact absurd rfl he
      case BAM_CDIFF => exact absurd rfl hd
      all_goals
        have hl : st.lastIns = 0 := by
          rcases h0 with h | h
          · exact h
          · cases h
        simp only [reduceCtorEq, if_false]
        rw [softClipLoop_beforeClip rec quality clipSize rest st hnor hr (Or.inl hl)]
        simp [queryLength, consumesQuery]

/-- After the soft clip, without a further soft clip, the second loop leaves the mean quality and
the two outputs as they are. -/
theorem softClipLoop_afterClip (rec : bam1_t) (quality : List Nat) (clipSize : Int) :
    ∀ (ops : List (CigarOp × Nat)) (st : SoftClipState),
      (∀ op ∈ ops, op.1 ≠ .BAM_CSOFT_CLIP) →
      ∃ st1, softClipLoop rec quality clipSize ops st = some st1 ∧
        st1.meanQuality = st.meanQuality ∧ st1.leadingSC = st.leadingSC ∧
        st1.splitPoint = st.splitPoint
  | [], st, _ => ⟨st, rfl, rfl, rfl, rfl⟩
  | op :: rest, st, hno => by
      have hno1 : op.1 ≠ .BAM_CSOFT_CLIP := hno op (List.mem_cons_self _ _)
      have hnor : ∀ o ∈ rest, o.1 ≠ .BAM_CSOFT_CLIP :=
        fun o ho => hno o (List.mem_cons_of_mem _ ho)
      unfold softClipLoop softClipBody
      by_cases hm : op.1 = .BAM_CMATCH
      · rw [if_pos hm]
        exact softClipLoop_afterClip rec quality clipSize rest _ hnor
      · rw [if_neg hm]
        by_cases hi : op.1 = .BAM_CINS
        · rw [if_pos hi]
          exact softClipLoop_afterClip rec quality clipSize rest _ hnor
        · rw [if_neg hi, if_neg hno1]
          exact softClipLoop_afterClip rec quality clipSize rest st hnor

/-- The query bases of a concatenation. -/
theorem queryLength_append :
    ∀ (ops rest : List (CigarOp × Nat)),
      queryLength (ops ++ rest) = queryLength ops + queryLength rest
  | [], _ => by simp [queryLength]
  | op :: ops, rest => by
      have ih := queryLength_append ops rest
      show (if consumesQuery op.1 then op.2 else 0) + queryLength (ops ++ rest)
        = (if consumesQuery op.1 then op.2 else 0) + queryLength ops + queryLength rest
      rw [ih]
      omega

/-- Counterexample to C17 as stated.  The read `recordInsClip` (35 bases, CIGAR `15M 4I 16S`)
passes the three rejection checks and its query-consuming operations sum to the query length;
the 16 clipped bases, at query positions 19 to 34, have mean quality 40, at least the cutoff 35;
but `_validSoftClip` returns false: it averages positions 15 to 30, which include the four
inserted bases of quality 0. -/
theorem C17_clip_quality_counterexample :
    35 ≤ recordInsClip.l_qseq ∧ softClipCount recordInsClip.cigar = 1 ∧
    ¬ ((16 : Int) ≤ log10Times10 recordInsClip.l_qseq) ∧
    (queryLength recordInsClip.cigar : Int) = recordInsClip.l_qseq ∧
    (recordInsClip.qual.length : Int) = recordInsClip.l_qseq ∧
    recordInsClip.cigar = [(.BAM_CMATCH, 15), (.BAM_CINS, 4)] ++ [(.BAM_CSOFT_CLIP, 16)] ∧
    meanQualityAt recordInsClip.qual (queryLength [(.BAM_CMATCH, 15), (.BAM_CINS, 4)]) 16 = 40 ∧
    35 ≤ 40 ∧
    _validSoftClip recordInsClip 0 0 false 35 = some (false, 16, 115, false) := by
  refine ⟨by decide, by decide, ?_, by decide, by decide, by decide, by decide, by decide, ?_⟩
  · rw [show recordInsClip.l_qseq = 35 from rfl, log10Times10_35]
    decide
  · unfold _validSoftClip
    simp only [recordInsClip, log10Times10_35]
    decide

/-- C17 (amended): soft-clip acceptance is decided by the clipped bases' quality.  For every
record with the query length at least 35, a single soft-clip operation of length `c` above the
threshold, as many qualities as query bases, query-consuming operations that sum to the query
length, and, before the soft clip, no `=` or `X` operation and every insertion immediately
followed by a match: `_validSoftClip` returns true exactly when the integer mean of the
qualities of the `c` bases the soft clip covers is at least the cutoff; it also reports the clip
size `c`, the split point `pos + (query bases before the clip)` and whether the clip is
leading. -/
theorem C17_clip_quality (rec : bam1_t) (clipSize splitPoint : Int) (leadingSC : Bool)
    (qualCut : Nat) (pre post : List (CigarOp × Nat)) (c : Nat)
    (hlen : 35 ≤ rec.l_qseq)
    (hcigar : rec.cigar = pre ++ (.BAM_CSOFT_CLIP, c) :: post)
    (hpre : ∀ op ∈ pre, op.1 ≠ .BAM_CSOFT_CLIP)
    (hpost : ∀ op ∈ post, op.1 ≠ .BAM_CSOFT_CLIP)
    (hclip : log10Times10 rec.l_qseq < c)
    (hsum : (queryLength rec.cigar : Int) = rec.l_qseq)
    (hqual : (rec.qual.length : Int) = rec.l_qseq)
    (hreg : insertionsMatched pre = true) :
    _validSoftClip rec clipSize splitPoint leadingSC qualCut
      = some (decide (meanQualityAt rec.qual (queryLength pre) c ≥ qualCut), (c : Int),
          rec.pos + (queryLength pre : Nat), decide (queryLength pre = 0)) := by
  have hq : rec.qual.take rec.l_qseq.toNat = rec.qual := by
    apply List.take_of_length_le
    omega
  have hbound : queryLength pre + c ≤ rec.qual.length := by
    rw [hcigar, queryLength_append] at hsum
    simp only [queryLength, consumesQuery] at hsum
    simp at hsum
    omega
  unfold _validSoftClip
  rw [if_neg (by omega), hcigar, countSoftClips_single pre post c clipSize hpre hpost]
  simp only [ne_eq, not_true_eq_false, if_false]
  rw [if_neg (by omega), hq, softClipLoop_append,
    softClipLoop_beforeClip rec rec.qual c pre _ hpre hreg (Or.inl rfl)]
  simp only [Option.some_bind, softClipLoop, softClipBody, reduceCtorEq, if_false, if_true,
    Int.toNat_ofNat, Nat.zero_add]
  rw [qualSumLoop_eq rec.qual c (queryLength pre) 0 hbound]
  simp only
  obtain ⟨st1, h1, h2, h3, h4⟩ := softClipLoop_afterClip rec rec.qual c post
    { alen := queryLength pre, lastIns := 0,
      meanQuality := (0 + ((rec.qual.drop (queryLength pre)).take c).sum) / c,
      leadingSC := decide (queryLength pre = 0),
      splitPoint := rec.pos + (queryLength pre : Nat) } hpost
  rw [h1]
  simp only [h2, h3, h4, meanQualityAt, Nat.zero_add]

/-- Witness of C17 (amended): the read `recordLeadClip` (35 bases, CIGAR `16S 10M 2I 7M`) with a
leading soft clip of mean quality 30 is accepted with cutoff 30, with split point 100. -/
theorem C17_clip_quality_witness :
    _validSoftClip recordLeadClip 0 0 false 30 = some (true, 16, 100, true) := by
  have h := C17_clip_quality recordLeadClip 0 0 false 30 []
    [(.BAM_CMATCH, 10), (.BAM_CINS, 2), (.BAM_CMATCH, 7)] 16 (by decide) rfl (by decide)
    (by decide)
    (by rw [show recordLeadClip.l_qseq = 35 from rfl, log10Times10_35]; decide)
    (by decide) (by decide) (by decide)
  rw [h]
  decide

/-! ### Homology of reverse-complementary flanks -/

/-- Complementing twice gives the character back. -/
theorem complementSpec_involutive (c : Char) : complementSpec (complementSpec c) = c := by
  unfold complementSpec
  by_cases hA : c = 'A'
  · subst hA; decide
  · by_cases hT : c = 'T'
    · subst hT; decide
    · by_cases hC : c = 'C'
      · subst hC; decide
      · by_cases hG : c = 'G'
        · subst hG; decide
        · simp only [if_neg hA, if_neg hT, if_neg hC, if_neg hG]

/-- The complement is injective. -/
theorem complementSpec_injective : Function.Injective complementSpec := by
  intro a b h
  rw [← complementSpec_involutive a, ← complementSpec_involutive b, h]

/-- The reverse complement of a concatenation. -/
theorem reverseComplementSpec_append (s t : List Char) :
    reverseComplementSpec (s ++ t) = reverseComplementSpec t ++ reverseComplementSpec s := by
  simp [reverseComplementSpec]

/-- Reverse-complementing twice gives the string back. -/
theorem reverseComplementSpec_involutive (s : List Char) :
    reverseComplementSpec (reverseComplementSpec s) = s := by
  simp only [reverseComplementSpec, List.map_reverse, List.map_map, List.reverse_reverse]
  have h : complementSpec ∘ complementSpec = id := funext complementSpec_involutive
  rw [h, List.map_id]

/-- The read `align[0][j]` as a character of row 0. -/
theorem at0_eq_charAt (align : Align) (j : Int) :
    align.at0 j = charAt (align.map Prod.fst) j := by
  unfold Align.at0 charAt
  split_ifs
  · simp only [List.get?_eq_getElem?, List.getElem?_map]
  · rfl

/-- The read `align[1][j]` as a character of row 1. -/
theorem at1_eq_charAt (align : Align) (j : Int) :
    align.at1 j = charAt (align.map Prod.snd) j := by
  unfold Align.at1 charAt
  split_ifs
  · simp only [List.get?_eq_getElem?, List.getElem?_map]
  · rfl

/-- A grid is its left flank columns, its gap columns and its right flank columns. -/
theorem align_eq_flanks_gap (align : Align) (gS gE : Nat) (h1 : gS ≤ gE) :
    align = align.take gS ++ (gapColumns align gS gE ++ align.drop (gE + 1)) := by
  have e : align.drop (gE + 1) = (align.drop gS).drop (gE + 1 - gS) := by
    rw [List.drop_drop]; congr 1; omega
  unfold gapColumns
  rw [e, List.take_append_drop, List.take_append_drop]

/-- With identical rows outside the gap, reverse-complementary flanks and deleted reference
bases that are their own reverse complement, the whole reference row is its own reverse
complement. -/
theorem reference_row_palindrome (align : Align) (gS gE : Nat) (h1 : gS ≤ gE)
    (hout : ∀ col ∈ align.take gS ++ align.drop (gE + 1), col.1 = col.2)
    (hflank : leftFlank align gS = reverseComplementSpec (rightFlank align gE))
    (hgap : gapReference align gS gE = reverseComplementSpec (gapReference align gS gE)) :
    align.map Prod.snd = reverseComplementSpec (align.map Prod.snd) := by
  have el : (align.take gS).map Prod.snd = leftFlank align gS := by
    unfold leftFlank
    exact List.map_congr_left fun col hc => (hout col (List.mem_append_left _ hc)).symm
  have er : (align.drop (gE + 1)).map Prod.snd = rightFlank align gE := by
    unfold rightFlank
    exact List.map_congr_left fun col hc => (hout col (List.mem_append_right _ hc)).symm
  have e : align.map Prod.snd
      = leftFlank align gS ++ (gapReference align gS gE ++ rightFlank align gE) := by
    conv_lhs => rw [align_eq_flanks_gap align gS gE h1]
    rw [List.map_append, List.map_append, el, er]
    rfl
  rw [e, reverseComplementSpec_append, reverseComplementSpec_append, ← hgap, ← hflank, hflank,
    reverseComplementSpec_involutive, List.append_assoc]

/-- Outside the gap both rows read the same character. -/
theorem at0_eq_at1_outside (align : Align) (gS gE : Nat) (h1 : gS ≤ gE)
    (hout : ∀ col ∈ align.take gS ++ align.drop (gE + 1), col.1 = col.2) (j : Int)
    (hj : j < gS ∨ (gE : Int) < j) : align.at0 j = align.at1 j := by
  unfold Align.at0 Align.at1
  by_cases h0 : 0 ≤ j
  · rw [if_pos h0, if_pos h0, List.get?_eq_getElem?]
    by_cases hl : j.toNat < align.length
    · rw [List.getElem?_eq_getElem hl]
      simp only [Option.map_some', Option.some.injEq]
      apply hout
      rcases hj with h | h
      · apply List.mem_append_left
        have hlt : j.toNat < (align.take gS).length := by
          rw [List.length_take]; omega
        have := List.getElem_mem hlt
        rwa [List.getElem_take] at this
      · apply List.mem_append_right
        have hlt : j.toNat - (gE + 1) < (align.drop (gE + 1)).length := by
          rw [List.length_drop]; omega
        have := List.getElem_mem hlt
        rw [List.getElem_drop] at this
        have e : gE + 1 + (j.toNat - (gE + 1)) = j.toNat := by omega
        simpa only [e] using this
    · rw [List.getElem?_eq_none (by omega)]; rfl
  · rw [if_neg h0, if_neg h0]
/-- Two homology loops run alike when their compared reads and their retry reads agree up to an
injective relabelling of the characters and the retry never succeeds: at a step whose pair
mismatches after an earlier mismatching pair, the retry pair mismatches too. -/
theorem homologyLoop_mirror (f : Char → Char) (hf : Function.Injective f)
    (x x1 : Int → Option Char) (y yTry y1 yTry1 : Int → Int → Option Char) (total : Int)
    (hrel : ∀ k, 0 ≤ k → k < total →
      x k = (x1 k).map f ∧ y k 0 = (y1 k 0).map f ∧ yTry k 1 = (yTry1 k 1).map f)
    (hretry : ∀ k, 0 ≤ k → k < total → ∀ j, 0 ≤ j → j < k →
      x1 j ≠ y1 j 0 → x1 k ≠ y1 k 0 → x1 k ≠ yTry1 k 1) :
    ∀ (n : Nat) (i mismatch hom : Int), 0 ≤ i → i + n ≤ total → mismatch ≤ 1 →
      (1 ≤ mismatch → ∃ j, 0 ≤ j ∧ j < i ∧ x1 j ≠ y1 j 0) →
      homologyLoop x y yTry n i mismatch 0 hom = homologyLoop x1 y1 yTry1 n i mismatch 0 hom
  | 0, _, _, _, _, _, _, _ => rfl
  | n + 1, i, mismatch, hom, hi, hn, hm, hprev => by
      obtain ⟨hx, hy, ht⟩ := hrel i hi (by push_cast at hn; omega)
      unfold homologyLoop
      rw [hx, hy]
      cases hx1 : x1 i with
      | none => rfl
      | some a =>
        cases hy1 : y1 i 0 with
        | none => rfl
        | some b =>
          simp only [Option.map_some']
          have e : (f a ≠ f b) ↔ (a ≠ b) := not_congr hf.eq_iff
          simp only [e]
          by_cases hab : a = b
          · have hle : ¬ (mismatch > 1) := by omega
            simp only [hab, ne_eq, not_true_eq_false, if_false, if_neg hle]
            exact homologyLoop_mirror f hf x x1 y yTry y1 yTry1 total hrel hretry n _ _ _
              (by omega) (by push_cast at hn; omega) hm
              (fun h => by
                obtain ⟨j, hj0, hj1, hj⟩ := hprev h
                exact ⟨j, hj0, by omega, hj⟩)
          · have hne : x1 i ≠ y1 i 0 := by
              rw [hx1, hy1]
              exact fun h => hab (Option.some.inj h)
            simp only [ne_eq, hab, not_false_eq_true, if_true]
            by_cases hgt : mismatch + 1 > 1
            · rw [if_pos hgt, if_pos hgt]
              simp only [if_true, show (0 : Int) + 1 = 1 from rfl]
              obtain ⟨j, hj0, hj1, hj⟩ := hprev (by omega)
              have hno := hretry i hi (by push_cast at hn; omega) j hj0 hj1 hj hne
              rw [ht]
              cases ht1 : yTry1 i 1 with
              | none => rfl
              | some b1 =>
                have hab1 : a ≠ b1 := by
                  intro h
                  apply hno
                  rw [hx1, ht1, h]
                simp only [Option.map_some', hf.eq_iff, if_neg hab1]
            · rw [if_neg hgt, if_neg hgt]
              exact homologyLoop_mirror f hf x x1 y yTry y1 yTry1 total hrel hretry n _ _ _
                (by omega) (by push_cast at hn; omega) (by omega)
                (fun _ => ⟨i, hi, by omega, hne⟩)

/-- C15, as stated, fails.  The grid with consensus row `CT--AG` and reference row `CTAAAG` has
a deletion-shaped gap in columns 2 to 3, identical upper-case bases outside the gap, and its
left flank `CT` is the reverse complement of its right flank `AG`; `_findHomology` started from
`homLeft = homRight = 0` returns `homLeft = 1` and `homRight = 2`.  The grid `AAA----TTT` over
`AAACATGTTT`, whose deleted bases `CATG` are moreover their own reverse complement, gives
`homLeft = 2` and `homRight = 3`: after the one-base retry the walk to the left compares with
the shifted reference column and the walk to the right does not. -/
theorem C15_homology_symmetry_counterexample :
    ((∀ col ∈ gapColumns gridFlankPalindrome 2 3, col.1 = '-' ∧ IsUpperBase col.2)
      ∧ (∀ col ∈ gridFlankPalindrome.take 2 ++ gridFlankPalindrome.drop (3 + 1),
          col.1 = col.2 ∧ IsUpperBase col.1)
      ∧ leftFlank gridFlankPalindrome 2 = reverseComplementSpec (rightFlank gridFlankPalindrome 3)
      ∧ _findHomology gridFlankPalindrome 2 3 0 0 = some (1, 2))
    ∧ ((∀ col ∈ gapColumns gridRowPalindromeRetry 3 6, col.1 = '-' ∧ IsUpperBase col.2)
      ∧ (∀ col ∈ gridRowPalindromeRetry.take 3 ++ gridRowPalindromeRetry.drop (6 + 1),
          col.1 = col.2 ∧ IsUpperBase col.1)
      ∧ leftFlank gridRowPalindromeRetry 3
          = reverseComplementSpec (rightFlank gridRowPalindromeRetry 6)
      ∧ gapReference gridRowPalindromeRetry 3 6
          = reverseComplementSpec (gapReference gridRowPalindromeRetry 3 6)
      ∧ _findHomology gridRowPalindromeRetry 3 6 0 0 = some (2, 3)) := by
  decide

/-- C15, amended: homology is symmetric when the whole reference row is palindromic and the
one-base retry does not succeed.  For every alignment grid with a deletion-shaped gap
`[gS, gE]` (`-` in the consensus row over reference characters), whose columns outside the gap
hold the same character in both rows, whose left flank is the reverse complement of its right
flank, whose deleted reference bases are their own reverse complement, and in which, at every
step `i` of the walk to the right whose pair (consensus column `gE + 1 + i`, reference column
`gS + i`) mismatches after an earlier mismatching pair, the consensus character also differs
from the reference column `gS + i + 1`: `_findHomology` started from `homLeft = homRight = 0`
returns, with `homLeft = homRight`. -/
theorem C15_homology_symmetry (align : Align) (gS gE : Nat)
    (h1 : gS ≤ gE) (h2 : gE < align.length)
    (hgapcols : ∀ col ∈ gapColumns align gS gE, col.1 = '-' ∧ col.2 ≠ '-')
    (hout : ∀ col ∈ align.take gS ++ align.drop (gE + 1), col.1 = col.2)
    (hflank : leftFlank align gS = reverseComplementSpec (rightFlank align gE))
    (hgap : gapReference align gS gE = reverseComplementSpec (gapReference align gS gE))
    (hretry : ∀ i, i < gS → ∀ j, j < i →
      align.at0 ((gE : Int) + (j : Int) + 1) ≠ align.at1 ((gS : Int) + (j : Int)) →
      align.at0 ((gE : Int) + (i : Int) + 1) ≠ align.at1 ((gS : Int) + (i : Int)) →
      align.at0 ((gE : Int) + (i : Int) + 1) ≠ align.at1 ((gS : Int) + (i : Int) + 1)) :
    ∃ hom : Int, _findHomology align gS gE 0 0 = some (hom, hom) := by
  -- the two flanks have the same length
  have hN : gS + gE + 1 = align.length := by
    have := congrArg List.length hflank
    rw [length_reverseComplementSpec] at this
    simp only [leftFlank, rightFlank, List.length_map, List.length_take, List.length_drop] at this
    omega
  -- the reference row is its own reverse complement
  have hpal := reference_row_palindrome align gS gE h1 hout hflank hgap
  have hP : ∀ j : Int, 0 ≤ j → j < align.length →
      align.at1 j = (align.at1 ((align.length : Int) - 1 - j)).map complementSpec := by
    intro j hj0 hj1
    have hlen : j < ((align.map Prod.snd).length : Int) := by rw [List.length_map]; exact hj1
    have := @charAt_reverseComplementSpec (align.map Prod.snd) j hj0 hlen
    rw [← hpal, List.length_map] at this
    rw [at1_eq_charAt, at1_eq_charAt]
    exact this
  have hE := at0_eq_at1_outside align gS gE h1 hout
  -- the first gap column
  have hmem : ∀ h : gS < align.length, align[gS] ∈ gapColumns align gS gE := by
    intro h
    have hlt : 0 < (gapColumns align gS gE).length := by
      unfold gapColumns; rw [List.length_take, List.length_drop]; omega
    have := List.getElem_mem hlt
    unfold gapColumns at this
    rw [List.getElem_take, List.getElem_drop] at this
    exact this
  have hlt : gS < align.length := by omega
  obtain ⟨hc1, hc2⟩ := hgapcols _ (hmem hlt)
  have e1 : align.at1 (gS : Int) = some (align[gS]).2 := by
    simp [Align.at1, List.getElem?_eq_getElem hlt]
  have e0 : align.at0 (gS : Int) = some '-' := by
    simp [Align.at0, List.getElem?_eq_getElem hlt, hc1]
  -- both walks make the same decisions
  have hcount : ((align.length : Int) - (gE : Int) - 1).toNat = (gS : Int).toNat := by omega
  have hloops :
      homologyLoop (fun i => align.at0 ((gS : Int) - i - 1))
          (fun i offset => align.at1 ((gE : Int) - i - offset))
          (fun i offset => align.at1 ((gE : Int) - i - offset)) (gS : Int).toNat 0 0 0 0
        = homologyLoop (fun i => align.at0 ((gE : Int) + i + 1))
          (fun i _ => align.at1 ((gS : Int) + i))
          (fun i offset => align.at1 ((gS : Int) + i + offset)) (gS : Int).toNat 0 0 0 0 := by
    apply homologyLoop_mirror complementSpec complementSpec_injective _ _ _ _ _ _ (gS : Int)
      ?_ ?_ _ 0 0 0 (le_refl _) (by simp) (by decide) (fun h => absurd h (by decide))
    · intro k hk0 hk
      refine ⟨?_, ?_, ?_⟩
      · show align.at0 ((gS : Int) - k - 1)
            = (align.at0 ((gE : Int) + k + 1)).map complementSpec
        rw [hE _ (Or.inl (by omega)), hE ((gE : Int) + k + 1) (Or.inr (by omega)),
          hP _ (by omega) (by omega)]
        congr 2; omega
      · show align.at1 ((gE : Int) - k - 0) = (align.at1 ((gS : Int) + k)).map complementSpec
        rw [hP _ (by omega) (by omega)]
        congr 2; omega
      · show align.at1 ((gE : Int) - k - 1)
            = (align.at1 ((gS : Int) + k + 1)).map complementSpec
        rw [hP _ (by omega) (by omega)]
        congr 2; omega
    · intro k hk0 hk j hj0 hjk hmj hmk
      have := hretry k.toNat (by omega) j.toNat (by omega)
      rw [Int.toNat_of_nonneg hk0, Int.toNat_of_nonneg hj0] at this
      exact this hmj hmk
  obtain ⟨r, hr⟩ := Option.isSome_iff_exists.mp
    (findHomology_isSome align gS gE 0 0 (by omega) (by omega) (by omega))
  unfold _findHomology at hr ⊢
  rw [e1] at hr ⊢
  simp only [if_neg hc2, e0, if_true, hcount, hloops] at hr ⊢
  cases hh : homologyLoop (fun i => align.at0 ((gE : Int) + i + 1))
      (fun i _ => align.at1 ((gS : Int) + i))
      (fun i offset => align.at1 ((gS : Int) + i + offset)) (gS : Int).toNat 0 0 0 0 with
  | none => rw [hh] at hr; simp at hr
  | some hom => exact ⟨hom, rfl⟩

/-- C15, amended, at the grid `AAA----TTT` over `AAACCGGTTT`, where both walks stop at their
second step, and at the grid `CT--AG` over `CTATAG`, where both run through the flank. -/
theorem C15_homology_symmetry_witness :
    (∃ hom : Int, _findHomology gridRowPalindromeStop ((3 : Nat) : Int) ((6 : Nat) : Int) 0 0
      = some (hom, hom)) ∧
    (∃ hom : Int, _findHomology gridRowPalindrome ((2 : Nat) : Int) ((3 : Nat) : Int) 0 0
      = some (hom, hom)) :=
  ⟨C15_homology_symmetry gridRowPalindromeStop 3 6 (by decide) (by decide) (by decide)
      (by decide) (by decide) (by decide) (by decide),
   C15_homology_symmetry gridRowPalindrome 2 3 (by decide) (by decide) (by decide)
      (by decide) (by decide) (by decide) (by decide)⟩

/-! ### Insertion as the row-exchanged mirror -/

/-- One iteration of the scan for `InsertionTag` is the mirror of one iteration for
`DeletionTag` on the exchanged column. -/
theorem findSplitBody_swap (st : SplitState) (j : Int) (col : Char × Char) :
    findSplitBody .DeletionTag (swapScanState st) j (col.2, col.1)
      = swapScanState (findSplitBody .InsertionTag st j col) := by
  unfold findSplitBody
  simp only [swapScanState, swapSides, _checkSVGap]
  by_cases h1 : col.1 = '-' <;> by_cases h2 : col.2 = '-' <;>
    simp only [h1, h2, ne_eq, not_true_eq_false, not_false_eq_true, if_true, if_false,
      or_true, true_or, or_self, true_and, false_and] <;>
    split_ifs <;> first | rfl | (exfalso; simp_all)

/-- The scan for `InsertionTag` is the mirror of the scan for `DeletionTag` on the exchanged
columns. -/
theorem forCols_findSplitBody_swap :
    ∀ (cols : List (Char × Char)) (j : Int) (st : SplitState),
      forCols (findSplitBody .DeletionTag) (swapRows cols) j (swapScanState st)
        = swapScanState (forCols (findSplitBody .InsertionTag) cols j st)
  | [], _, _ => rfl
  | col :: cols, j, st => by
      show forCols (findSplitBody .DeletionTag) (swapRows cols) (j + 1)
          (findSplitBody .DeletionTag (swapScanState st) j (col.2, col.1)) = _
      rw [findSplitBody_swap]
      exact forCols_findSplitBody_swap cols (j + 1) _

/-- The scan of the exchanged grid for `DeletionTag`, started fresh, is the mirror of the scan of
the grid for `InsertionTag`. -/
theorem findSplitScan_swap (align : Align) :
    findSplitScan .DeletionTag (swapRows align) {}
      = swapScanState (findSplitScan .InsertionTag align {}) :=
  forCols_findSplitBody_swap align 0 { ad := {} }

/-- One iteration of `_percentIdentity` on the exchanged column. -/
theorem percentIdentityBody_swap (gS gE : Int) (st : PercIdState) (j : Int)
    (col : Char × Char) :
    percentIdentityBody gS gE (swapSeen st) j (col.2, col.1)
      = swapSeen (percentIdentityBody gS gE st j col) := by
  unfold percentIdentityBody
  simp only [swapSeen]
  by_cases hout : j < gS ∨ j > gE
  · simp only [if_pos hout]
    by_cases h1 : col.1 = '-' <;> by_cases h2 : col.2 = '-' <;>
      simp only [h1, h2, ne_eq, not_true_eq_false, not_false_eq_true, if_true, if_false,
        or_true, true_or, or_self, true_and, false_and] <;>
      split_ifs <;> first | rfl | (exfalso; simp_all)
  · simp only [if_neg hout]

/-- The loop of `_percentIdentity` on the exchanged columns. -/
theorem forCols_percentIdentityBody_swap (gS gE : Int) :
    ∀ (cols : List (Char × Char)) (j : Int) (st : PercIdState),
      forCols (percentIdentityBody gS gE) (swapRows cols) j (swapSeen st)
        = swapSeen (forCols (percentIdentityBody gS gE) cols j st)
  | [], _, _ => rfl
  | col :: cols, j, st => by
      show forCols (percentIdentityBody gS gE) (swapRows cols) (j + 1)
          (percentIdentityBody gS gE (swapSeen st) j (col.2, col.1)) = _
      rw [percentIdentityBody_swap]
      exact forCols_percentIdentityBody_swap gS gE cols (j + 1) _

/-- The percent identity does not change when the rows are exchanged. -/
theorem percentIdentity_swap (align : Align) (gS gE : Int) :
    _percentIdentity (swapRows align) gS gE = _percentIdentity align gS gE := by
  unfold _percentIdentity percentIdentityLoop
  have h := forCols_percentIdentityBody_swap gS gE align 0 {}
  have e : swapSeen {} = ({} : PercIdState) := rfl
  rw [e] at h
  rw [h]
  rfl

/-- Row 0 of the exchanged grid is row 1 of the grid. -/
theorem at0_swapRows (align : Align) (j : Int) : (swapRows align).at0 j = align.at1 j := by
  unfold Align.at0 Align.at1 swapRows
  split_ifs
  · simp only [List.get?_eq_getElem?, List.getElem?_map, Option.map_map]
    rfl
  · rfl

/-- Row 1 of the exchanged grid is row 0 of the grid. -/
theorem at1_swapRows (align : Align) (j : Int) : (swapRows align).at1 j = align.at0 j := by
  unfold Align.at0 Align.at1 swapRows
  split_ifs
  · simp only [List.get?_eq_getElem?, List.getElem?_map, Option.map_map]
    rfl
  · rfl

/-- Exchanging the rows keeps the number of columns. -/
theorem length_swapRows (align : Align) : (swapRows align).length = align.length := by
  simp [swapRows]

/-- When column `gS` does not hold the gap symbol in both rows, `_findHomology` gives the same
result on the exchanged grid. -/
theorem findHomology_swap (align : Align) (gS gE homLeft homRight : Int)
    (hcol : ∀ col, align.get? gS.toNat = some col → col.1 ≠ '-' ∨ col.2 ≠ '-') :
    _findHomology (swapRows align) gS gE homLeft homRight
      = _findHomology align gS gE homLeft homRight := by
  unfold _findHomology
  simp only [at0_swapRows, at1_swapRows, length_swapRows]
  by_cases h0 : 0 ≤ gS
  · cases hg : align.get? gS.toNat with
    | none => simp only [Align.at0, Align.at1, if_pos h0, hg, Option.map_none']
    | some col =>
      have e0 : align.at0 gS = some col.1 := by simp only [Align.at0, if_pos h0, hg, Option.map_some']
      have e1 : align.at1 gS = some col.2 := by simp only [Align.at1, if_pos h0, hg, Option.map_some']
      rw [e0, e1]
      by_cases h1 : col.1 = '-' <;> by_cases h2 : col.2 = '-'
      · rcases hcol col hg with h | h <;> contradiction
      · simp only [if_pos h1, if_neg h2]
      · simp only [if_pos h2, if_neg h1]
      · simp only [if_neg h1, if_neg h2]
  · simp only [Align.at0, Align.at1, if_neg h0]

/-- After the scan on a fresh descriptor the accepted gap is empty on the reference side exactly
when it is empty on the consensus side. -/
theorem findSplitScan_sides (svt : SVType) (align : Align) :
    (findSplitScan svt align {}).ad.rEnd ≤ (findSplitScan svt align {}).ad.rStart
      ↔ (findSplitScan svt align {}).ad.cEnd ≤ (findSplitScan svt align {}).ad.cStart := by
  rcases findSplitScan_best svt align with ⟨had, _⟩ | ⟨a, b, hab, _, _, had, _⟩
  · rw [had]
  · rw [had]
    obtain ⟨hr, hv⟩ := hab.lengths
    simp only [gapDescriptor]
    constructor <;> intro h <;> exfalso <;> omega

/-- The rest of `_findSplit` after the scan, on the exchanged grid. -/
theorem findSplit_swap (c : Config) (align : Align)
    (hcols : ∀ col ∈ align, col.1 ≠ '-' ∨ col.2 ≠ '-') :
    _findSplit c (swapRows align) {} .DeletionTag
      = (_findSplit c align {} .InsertionTag).map (fun r => (r.1, swapSides r.2)) := by
  have hiff := findSplitScan_sides .InsertionTag align
  unfold _findSplit
  rw [findSplitScan_swap]
  generalize findSplitScan .InsertionTag align {} = st at hiff ⊢
  have hcol : ∀ col, align.get? st.gS.toNat = some col → col.1 ≠ '-' ∨ col.2 ≠ '-' :=
    fun col h => hcols col (List.get?_mem h)
  simp only [swapScanState, swapSides, percentIdentity_swap, _validSRAlignment,
    findHomology_swap align st.gS st.gE _ _ hcol]
  by_cases he : st.ad.rEnd ≤ st.ad.rStart
  · rw [if_pos he, if_pos (hiff.mp he)]
    rfl
  · rw [if_neg he, if_neg (fun h => he (hiff.mpr h))]
    cases hv : (decide (st.ad.rEnd - st.ad.rStart < 5) && decide (st.ad.cEnd - st.ad.cStart > 15))
    · rfl
    · simp only [not_true_eq_false, if_false]
      cases hq : (_percentIdentity align st.gS st.gE).lt c.flankQuality
      · simp only [Bool.false_eq_true, if_false]
        cases _findHomology align st.gS st.gE st.ad.homLeft st.ad.homRight with
        | none => rfl
        | some r =>
          obtain ⟨hl, hr⟩ := r
          simp only
          split_ifs <;> rfl
      · rfl

/-- C20: Insertion is the row-exchanged mirror of Deletion.  For every configuration and every
alignment grid in which each column has at least one non-gap symbol, `_findSplit` on the grid
with type Insertion returns, `_findSplit` on the grid with its two rows exchanged and type
Deletion returns the same Boolean, and the second descriptor is the first one with
`(cStart, cEnd)` and `(rStart, rEnd)` exchanged and with the same `homLeft`, `homRight` and
percent identity. -/
theorem C20_insertion_mirror (c : Config) (align : Align)
    (hcols : ∀ col ∈ align, col.1 ≠ '-' ∨ col.2 ≠ '-') :
    ∃ (b : Bool) (ad : AlignDescriptor),
      _findSplit c align {} .InsertionTag = some (b, ad) ∧
      _findSplit c (swapRows align) {} .DeletionTag = some (b, swapSides ad) := by
  obtain ⟨r, hr⟩ := Option.isSome_iff_exists.mp (findSplit_isSome c align .InsertionTag)
  refine ⟨r.1, r.2, hr, ?_⟩
  rw [findSplit_swap c align hcols, hr]
  rfl

/-- C20 at the grid with a 20-base insertion, `minimumFlankSize = 3` and `flankQuality = 0.9`. -/
theorem C20_insertion_mirror_witness :
    ∃ (b : Bool) (ad : AlignDescriptor),
      _findSplit ⟨3, ⟨9, 10⟩, "illumina"⟩ gridIns20 {} .InsertionTag = some (b, ad) ∧
      _findSplit ⟨3, ⟨9, 10⟩, "illumina"⟩ (swapRows gridIns20) {} .DeletionTag
        = some (b, swapSides ad) :=
  C20_insertion_mirror ⟨3, ⟨9, 10⟩, "illumina"⟩ gridIns20 (by decide)

/-! ### Range of the insertion length -/

/-- When `_findSplit`, called with a fresh descriptor, returns true, the accepted gap is not
empty on either side and `_validSRAlignment` holds of the descriptor. -/
theorem findSplit_true_shape (c : Config) (align : Align) (svt : SVType)
    (ad : AlignDescriptor) (h : _findSplit c align {} svt = some (true, ad)) :
    ad.cStart < ad.cEnd ∧ ad.rStart < ad.rEnd ∧
      _validSRAlignment ad.cStart ad.cEnd ad.rStart ad.rEnd svt = true := by
  unfold _findSplit at h
  rcases findSplitScan_best svt align with ⟨had, _⟩ | ⟨a, b, hab, hgS, hgE, had, _⟩
  · simp only [had] at h
    rw [if_pos (show (({} : AlignDescriptor).rEnd ≤ ({} : AlignDescriptor).rStart) from le_refl _)]
      at h
    cases h
  · obtain ⟨hlr, hlv⟩ := hab.lengths
    simp only [had, hgS, hgE] at h
    split_ifs at h with h1 h2 h3 <;> try cases h
    split at h
    · cases h
    · split_ifs at h with h4 h5 <;> try cases h
      simp only [gapDescriptor] at h2 ⊢
      refine ⟨by omega, by omega, ?_⟩
      simpa using h2

/-- C21: the range of the reported insertion length.  Whenever `alignConsensus` returns true,
the stored `insLen` is `cEnd - cStart - 1` of the descriptor that `_findSplit` accepted; it is
non-negative, at most 3 for every type except Insertion, and at least 15 for Insertion. -/
theorem C21_insLen_range (longNeedle : Aligner) (c : Config) (sv sv1 : StructuralVariantRecord)
    (svRefStr : List Char) (svType : SVType)
    (h : alignConsensus longNeedle c sv svRefStr svType = some (true, sv1)) :
    (∃ ad : AlignDescriptor,
      _findSplit c (_consRefAlignment longNeedle sv.consensus svRefStr svType).2 {} svType
        = some (true, ad) ∧ sv1.insLen = ad.cEnd - ad.cStart - 1) ∧
    0 ≤ sv1.insLen ∧
    (svType ≠ .InsertionTag → sv1.insLen ≤ 3) ∧
    (svType = .InsertionTag → 15 ≤ sv1.insLen) := by
  unfold alignConsensus at h
  by_cases hlen : (sv.consensus.length : Int) < 2 * c.minimumFlankSize
  · rw [if_pos hlen] at h
    cases h
  rw [if_neg hlen] at h
  simp only at h
  by_cases hal : ¬ (_consRefAlignment longNeedle sv.consensus svRefStr svType).1 = true
  · rw [if_pos hal] at h
    cases h
  rw [if_neg hal] at h
  split at h
  · cases h
  · cases h
  · rename_i ad hsplit
    obtain ⟨hc, _, hv⟩ := findSplit_true_shape c _ svType ad hsplit
    have hins : sv1.insLen = ad.cEnd - ad.cStart - 1 := by
      split at h
      · cases h
      · simp only [Option.some.injEq, Prod.mk.injEq, true_and] at h
        rw [← h]
    refine ⟨⟨ad, hsplit, hins⟩, by omega, ?_, ?_⟩
    · intro hne
      have hlt : ad.cEnd - ad.cStart < 5 := by
        cases svType <;> simp [_validSRAlignment] at hv hne ⊢ <;> omega
      omega
    · intro he
      subst he
      simp only [_validSRAlignment, Bool.and_eq_true, decide_eq_true_eq] at hv
      omega

/-- Witness of C21: the 16 bp deletion is accepted with `insLen = 0`, and the 20-base insertion
(the aligner writes the reference in row 0, `_consRefAlignment` exchanges the rows) is accepted
with `insLen = 20`. -/
theorem C21_insLen_range_witness :
    (alignConsensus (constAligner true gridDel16) (configDel "illumina") (recordDel 0 6 18 28)
        windowDel16 .DeletionTag = some (true, recordDelAccepted) ∧
      0 ≤ recordDelAccepted.insLen ∧ recordDelAccepted.insLen ≤ 3) ∧
    (alignConsensus (constAligner true (swapRows gridIns20)) (configDel "illumina") recordIns
        windowIns .InsertionTag = some (true, recordInsAccepted) ∧
      15 ≤ recordInsAccepted.insLen) :=
  ⟨⟨by decide,
    (C21_insLen_range (constAligner true gridDel16) (configDel "illumina")
      (recordDel 0 6 18 28) recordDelAccepted windowDel16 .DeletionTag (by decide)).2.1,
    (C21_insLen_range (constAligner true gridDel16) (configDel "illumina")
      (recordDel 0 6 18 28) recordDelAccepted windowDel16 .DeletionTag (by decide)).2.2.1
      (by decide)⟩,
   ⟨by decide,
    (C21_insLen_range (constAligner true (swapRows gridIns20)) (configDel "illumina")
      recordIns recordInsAccepted windowIns .InsertionTag (by decide)).2.2.2 rfl⟩⟩

/-! ### Bounds of the homology walk -/

/-- A homology loop raises its counter by at most the number of its iterations. -/
theorem homologyLoop_le (x : Int → Option Char) (y yTry : Int → Int → Option Char) :
    ∀ (n : Nat) (i mismatch offset hom h : Int),
      homologyLoop x y yTry n i mismatch offset hom = some h → h ≤ hom + n
  | 0, _, _, _, hom, h, hh => by
      simp only [homologyLoop, Option.some.injEq] at hh
      push_cast
      omega
  | n + 1, i, mismatch, offset, hom, h, hh => by
      unfold homologyLoop at hh
      push_cast
      split at hh
      · rename_i a b _ _
        simp only at hh
        generalize (if a ≠ b then mismatch + 1 else mismatch) = m at hh
        split_ifs at hh with h1 h2
        · split at hh
          · split_ifs at hh with h3
            · have := homologyLoop_le x y yTry n _ _ _ _ _ hh
              omega
            · simp only [Option.some.injEq] at hh
              omega
          · cases hh
        · simp only [Option.some.injEq] at hh
          omega
        · have := homologyLoop_le x y yTry n _ _ _ _ _ hh
          omega
      · cases hh

/-- A homology loop started without mismatches counts between `min 1 n` and `n` pairs. -/
theorem homologyLoop_bounds (x : Int → Option Char) (y yTry : Int → Int → Option Char)
    (n : Nat) (i offset hom h : Int)
    (hh : homologyLoop x y yTry n i 0 offset hom = some h) :
    hom + min 1 (n : Int) ≤ h ∧ h ≤ hom + n := by
  refine ⟨?_, homologyLoop_le x y yTry n i 0 offset hom h hh⟩
  cases n with
  | zero =>
    simp only [homologyLoop, Option.some.injEq] at hh
    simp only [Nat.cast_zero]
    omega
  | succ k =>
    have := homologyLoop_first x y yTry k i offset hom h hh
    push_cast
    omega

/-- C22: the homology walk stays in bounds and is never zero next to a flank.  For every grid
of width `L` and every `0 <= gS <= gE < L` with exactly one row holding `-` at column `gS`,
`_findHomology` started from `homLeft = homRight = 0` returns (no read falls outside the grid),
with `min(1, gS) <= homLeft <= gS` and `min(1, L - gE - 1) <= homRight <= L - gE - 1`. -/
theorem C22_homology_walk_bounds (align : Align) (gS gE : Int)
    (h0 : 0 ≤ gS) (h1 : gS ≤ gE) (h2 : gE < align.length)
    (hone : (align.at0 gS = some '-' ∧ align.at1 gS ≠ some '-')
      ∨ (align.at0 gS ≠ some '-' ∧ align.at1 gS = some '-')) :
    ∃ homLeft homRight : Int,
      _findHomology align gS gE 0 0 = some (homLeft, homRight) ∧
      min 1 gS ≤ homLeft ∧ homLeft ≤ gS ∧
      min 1 ((align.length : Int) - gE - 1) ≤ homRight ∧
      homRight ≤ (align.length : Int) - gE - 1 := by
  obtain ⟨r, hr⟩ := Option.isSome_iff_exists.mp
    (findHomology_isSome align gS gE 0 0 h0 h1 h2)
  obtain ⟨hl, hr1⟩ := r
  refine ⟨hl, hr1, hr, ?_⟩
  have hnl : ((gS.toNat : Nat) : Int) = gS := Int.toNat_of_nonneg h0
  have hnr : ((((align.length : Int) - gE - 1).toNat : Nat) : Int)
      = (align.length : Int) - gE - 1 := Int.toNat_of_nonneg (by omega)
  have key : ∀ (x x1 : Int → Option Char) (y yTry y1 yTry1 : Int → Int → Option Char),
      (match homologyLoop x y yTry gS.toNat 0 0 0 0 with
        | none => none
        | some a =>
          match homologyLoop x1 y1 yTry1 ((align.length : Int) - gE - 1).toNat 0 0 0 0 with
          | none => none
          | some b => some (a, b)) = some (hl, hr1) →
      min 1 gS ≤ hl ∧ hl ≤ gS ∧ min 1 ((align.length : Int) - gE - 1) ≤ hr1 ∧
        hr1 ≤ (align.length : Int) - gE - 1 := by
    intro x x1 y yTry y1 yTry1 h
    split at h
    · cases h
    · rename_i a ha
      split at h
      · cases h
      · rename_i b hb
        simp only [Option.some.injEq, Prod.mk.injEq] at h
        obtain ⟨hla, hlb⟩ := homologyLoop_bounds _ _ _ _ _ _ _ _ ha
        obtain ⟨hra, hrb⟩ := homologyLoop_bounds _ _ _ _ _ _ _ _ hb
        rw [hnl] at hla hlb
        rw [hnr] at hra hrb
        rw [← h.1, ← h.2]
        omega
  unfold _findHomology at hr
  rcases hone with ⟨e0, e1⟩ | ⟨e0, e1⟩
  · cases hv : align.at1 gS with
    | none => rw [hv] at hr; cases hr
    | some r1 =>
      have hne : r1 ≠ '-' := fun h => e1 (by rw [hv, h])
      rw [hv] at hr
      simp only [if_neg hne, e0, if_true] at hr
      exact key _ _ _ _ _ _ hr
  · rw [e1] at hr
    simp only [if_true] at hr
    exact key _ _ _ _ _ _ hr

/-- Witness of C22 on `AAA----TTT` over `AAACATGTTT` with the gap in columns 3 to 6: the walk
returns `homLeft = 2` and `homRight = 3`, both between 1 and 3. -/
theorem C22_homology_walk_bounds_witness :
    _findHomology gridRowPalindromeRetry 3 6 0 0 = some (2, 3) ∧
    (∃ homLeft homRight : Int,
      _findHomology gridRowPalindromeRetry 3 6 0 0 = some (homLeft, homRight) ∧
      min 1 3 ≤ homLeft ∧ homLeft ≤ 3 ∧
      min 1 ((gridRowPalindromeRetry.length : Int) - 6 - 1) ≤ homRight ∧
      homRight ≤ (gridRowPalindromeRetry.length : Int) - 6 - 1) :=
  ⟨by decide,
   C22_homology_walk_bounds gridRowPalindromeRetry 3 6 (by decide) (by decide) (by decide)
    (by decide)⟩

end torali
